import Mathlib

/-!
# Verification of the `inversion_finder` path-alignment engine

This file is a shallow embedding, in Lean 4, of the Rust sources of the
`inversion_finder` repository (src/align.rs, src/lowmem.rs, src/gfa.rs,
src/lib.rs), together with theorems settling the frozen claims about it.

Conventions of the embedding:
* Rust `i32` values are modelled as `Int` (no arithmetic in the engine can
  overflow 32 bits on the inputs considered, and the claims are about exact
  values, not wrapping).
* A `HashMap<i32, i32>` is modelled as a partial function `Int → Option Int`;
  `HashMap::get` is function application.
* A Rust function that can `panic!` (e.g. via `Option::unwrap` on a missing
  segment length, or an out-of-range index) is modelled with result type
  `Option _`, where `none` models the panic/abort.
* A Rust function returning `Result<_, InversionError>` is modelled with
  `Except InversionError _`; when the same function can additionally panic the
  result type is `Option (Except InversionError _)` with the outer `none`
  modelling the panic.
* Vectors that the source builds by `push` and finally `reverse`s are
  accumulated here by consing (most recent element at the head), so the
  accumulated list is already the final, reversed order.
-/

deriving instance DecidableEq for Except

set_option maxRecDepth 80000

namespace InversionFinder

/-- Modelled from the spec: the crate-level error enum is not under `src/`
(only its uses in `src/gfa.rs` and `src/lowmem.rs` are). Per spec §7 it has
three kinds; the constructor payloads are pinned by the uses in `src/`. -/
inductive InversionError where
  | GfaParse (msg : String)
  | PathNotFound (name : String)
  | SegmentNotFound (id : Int)
deriving Repr, DecidableEq

/-- `HashMap<i32, i32>` of segment lengths, as a partial function. -/
def SegLens : Type := Int → Option Int

/-- Build a segment-length map from an association list (models
`HashMap::from` / repeated `insert`; later entries shadow earlier ones the
way `lookup` on an association list does, which is irrelevant for the
duplicate-free maps used below). -/
def mapOf (l : List (Int × Int)) : SegLens := fun k => l.lookup k

/-- `segment_lengths.get(&s.abs())`: every length lookup in the engine keys
the map by the absolute value of the oriented segment. -/
def segLen (sl : SegLens) (s : Int) : Option Int := sl (s.natAbs : Int)

/-- A segment-length map covers a path when every segment of the path has an
entry (keyed by absolute value). -/
def covers (sl : SegLens) (p : List Int) : Prop :=
  ∀ s ∈ p, (segLen sl s).isSome

instance (sl : SegLens) (p : List Int) : Decidable (covers sl p) :=
  inferInstanceAs (Decidable (∀ s ∈ p, (segLen sl s).isSome))

/-- Modelled from the spec: the crate-root helper `amax` (its source is not
under `src/`; `src/align.rs` and `src/lowmem.rs` import it from the crate
root) returns the arithmetic maximum of a nonempty array of scores
(spec §4.1). -/
def amax (a : List Int) : Int := a.foldl max (a.headD 0)

/-- Modelled from the spec: the crate-root helper `argmax` returns the index
of the maximum of a nonempty array of scores, ties broken to the lowest index
(spec §4.1: "ties break to the lowest index"). -/
def argmax (a : List Int) : Nat :=
  (List.range a.length).foldl
    (fun b k => if a.getD b 0 < a.getD k 0 then k else b) 0

/-- `src/lib.rs` `score_argmax`: `(0..4).max_by_key(|x| a[*x])`.
Rust's `Iterator::max_by_key` returns the **last** of equally-maximal
elements, so ties go to the highest index. -/
def score_argmax (a : List Int) : Nat :=
  [1, 2, 3].foldl (fun b k => if a.getD b 0 ≤ a.getD k 0 then k else b) 0

/-- `src/lib.rs` `score_max`: `*a.iter().max().unwrap()`. -/
def score_max (a : List Int) : Int := a.foldl max (a.headD 0)

/-- Helper for `max_and_argmax`: the loop
`for (i, x) in a.iter().enumerate() { if *x > max { max = *x; argmax = i } }`,
with `k` the index of the first element of `a` in the original array. -/
def maxArgmaxAux : List Int → Nat → Int × Nat → Int × Nat
  | [], _, cur => cur
  | x :: rest, k, cur =>
    maxArgmaxAux rest (k + 1) (if cur.1 < x then (x, k) else cur)

/-- `src/lowmem.rs` `max_and_argmax`: strict-greater scan, so it returns the
maximum together with the lowest index attaining it. -/
def max_and_argmax (a : List Int) : Int × Nat :=
  maxArgmaxAux a 0 (a.headD 0, 0)

/-- `src/align.rs` `Alignment`. -/
structure Alignment where
  alignment_path1 : List Int
  alignment_path2 : List Int
  path1_start_index : Int
  path1_end_index : Int
deriving Repr, DecidableEq

/-! ## The full-matrix aligner (`src/align.rs`)

The score/traceback matrices are represented as a list of rows of
`(score, traceback)` pairs.  `create_matrices` computes row 0 and column 0;
`align_paths_subproblem` then fills the interior row by row.  Every length
lookup `unwrap`s, so the whole computation is `Option`-valued (`none` models
the panic). -/

/-- Cell `(0,0)` of `create_matrices` (src/align.rs lines 43-48); its
traceback value stays at the zero initialisation. -/
def cornerCell (sl : SegLens) (p1 p2 : List Int) : Option (Int × Nat) :=
  if p1.getD 0 0 = p2.getD 0 0 then
    (segLen sl (p1.getD 0 0)).map (fun l => (l, 0))
  else do
    let l1 ← segLen sl (p1.getD 0 0)
    let l2 ← segLen sl (p2.getD 0 0)
    pure (-(l1 + l2), 0)

/-- Cell `(i,0)`, `i ≥ 1`, of `create_matrices` (src/align.rs lines 51-61);
`prev` is the score of cell `(i-1,0)`. -/
def col0Cell (sl : SegLens) (p1 p2 : List Int) (i : Nat) (prev : Int) :
    Option (Int × Nat) :=
  (segLen sl (p1.getD i 0)).map (fun li =>
    let thisCell := if p1.getD i 0 = p2.getD 0 0 then li else -li
    let possible := [0, -1, prev, -1]
    (amax possible + thisCell, argmax possible))

/-- Cell `(0,j)`, `j ≥ 1`, of `create_matrices` (src/align.rs lines 64-74);
`prev` is the score of cell `(0,j-1)`. -/
def row0Cell (sl : SegLens) (p1 p2 : List Int) (j : Nat) (prev : Int) :
    Option (Int × Nat) :=
  (segLen sl (p2.getD j 0)).map (fun lj =>
    let thisCell := if p2.getD j 0 = p1.getD 0 0 then lj else -lj
    let possible := [0, -1, -1, prev]
    (amax possible + thisCell, argmax possible))

/-- One iteration of the column-0 fill loop: prepend cell `(k+1, 0)` to the
reversed column prefix `acc`. -/
def col0Step (sl : SegLens) (p1 p2 : List Int) (acc : List (Int × Nat))
    (k : Nat) : Option (List (Int × Nat)) := do
  let c ← col0Cell sl p1 p2 (k + 1) (acc.headD (0, 0)).1
  pure (c :: acc)

/-- One iteration of the row-0 fill loop: prepend cell `(0, k+1)` to the
reversed row prefix `acc`. -/
def row0Step (sl : SegLens) (p1 p2 : List Int) (acc : List (Int × Nat))
    (k : Nat) : Option (List (Int × Nat)) := do
  let c ← row0Cell sl p1 p2 (k + 1) (acc.headD (0, 0)).1
  pure (c :: acc)

/-- `src/align.rs` `create_matrices`: the DP matrices with row 0 and column 0
filled.  Returns `(row 0, column 0)` (the rest of the matrices is the zero
initialisation, overwritten before being read by the interior fill).  The
column and row are accumulated in reverse (newest cell at the head) and
reversed at the end. -/
def create_matrices (sl : SegLens) (p1 p2 : List Int) :
    Option (List (Int × Nat) × List (Int × Nat)) := do
  let corner ← cornerCell sl p1 p2
  let col0 ← (List.range (p1.length - 1)).foldlM (col0Step sl p1 p2)
    [corner]
  let row0 ← (List.range (p2.length - 1)).foldlM (row0Step sl p1 p2)
    [corner]
  pure (row0.reverse, col0.reverse)

/-- One interior cell `(i,j)`, `i,j ≥ 1`, of the full DP fill
(src/align.rs lines 102-124): `diag`, `above`, `left` are the scores of
cells `(i-1,j-1)`, `(i-1,j)`, `(i,j-1)`. -/
def interiorCell (sl : SegLens) (p1 p2 : List Int) (i j : Nat)
    (diag above left : Int) : Option (Int × Nat) := do
  let li ← segLen sl (p1.getD i 0)
  let lj ← segLen sl (p2.getD j 0)
  let possible :=
    if p1.getD i 0 = p2.getD j 0 then
      [li, diag + li, above + li, left + li]
    else
      [-li - lj, diag - li - lj, above - li, left - lj]
  pure (amax possible, argmax possible)

/-- One iteration of the interior fill of row `i`: prepend cell
`(i, k+1)` to the reversed row prefix `acc`, reading the previous row for
the diagonal and above scores. -/
def fullCellStep (sl : SegLens) (p1 p2 : List Int) (i : Nat)
    (prevRow : List (Int × Nat)) (acc : List (Int × Nat)) (k : Nat) :
    Option (List (Int × Nat)) := do
  let j := k + 1
  let cell ← interiorCell sl p1 p2 i j
    (prevRow.getD (j - 1) (0, 0)).1 (prevRow.getD j (0, 0)).1
    (acc.headD (0, 0)).1
  pure (cell :: acc)

/-- Interior fill of row `i` (`i ≥ 1`): starts from the column-0 cell `c0`
of this row computed by `create_matrices` and fills `j = 1, …, |p2|-1`
reading the previous row and the already-filled prefix of this row. -/
def buildRow (sl : SegLens) (p1 p2 : List Int) (i : Nat)
    (c0 : Int × Nat) (prevRow : List (Int × Nat)) :
    Option (List (Int × Nat)) := do
  let cellsRev ← (List.range (p2.length - 1)).foldlM
    (fullCellStep sl p1 p2 i prevRow) [c0]
  pure cellsRev.reverse

/-- One iteration of the row loop of the full DP fill: prepend row `k+1`
(built from the previous row at the head of `acc`) to the reversed list of
rows. -/
def fullRowStep (sl : SegLens) (p1 p2 : List Int)
    (col0 : List (Int × Nat)) (acc : List (List (Int × Nat))) (k : Nat) :
    Option (List (List (Int × Nat))) := do
  let i := k + 1
  let row ← buildRow sl p1 p2 i (col0.getD i (0, 0)) (acc.headD [])
  pure (row :: acc)

/-- The fully filled DP matrices of `align_paths_subproblem`
(src/align.rs lines 99-125), one `(score, traceback)` pair per cell. -/
def buildMatrix (sl : SegLens) (p1 p2 : List Int) :
    Option (List (List (Int × Nat))) := do
  let rc ← create_matrices sl p1 p2
  let rowsRev ← (List.range (p1.length - 1)).foldlM
    (fullRowStep sl p1 p2 rc.2) [rc.1]
  pure rowsRev.reverse

/-- Modelled from the documented semantics of `ndarray_stats`'s
`QuantileExt::argmax` (an external library used by src/align.rs line 135):
a row-major scan keeping the first strictly-greatest element, i.e. the
lexicographically lowest `(i, j)` attaining the maximum.  The scan of each
row is the same strict-greater loop as `max_and_argmax`. -/
def matrixArgmax (rows : List (List Int)) : Nat × Nat :=
  ((List.range rows.length).foldl
    (fun (st : Int × Nat × Nat) i =>
      let b := maxArgmaxAux (rows.getD i []) 0 (st.1, 0)
      if st.1 < b.1 then (b.1, i, b.2) else st)
    ((rows.headD []).headD 0, 0, 0)).2

/-- The traceback walk shared (verbatim, up to the source of the traceback
codes) by `src/align.rs` `traceback` and `src/lowmem.rs` `traceback_lowmem`.
`tb i j` is the traceback code of cell `(i,j)` (for the lowmem variant, the
sparse-map lookup with default 0).  The alignments are accumulated newest
element first, which is the source's push-then-reverse order.  Codes 1 and 2
at `i = 0` (and 1, 3 at `j = 0`) index-underflow in the source and therefore
abort, modelled by `none`; so does a code outside `0..3` (a `panic!`).
`fuel` only bounds the loop; the caller passes `i + j + 1`, which is enough
because every non-terminating step decreases `i + j`. -/
def tracebackWalk (p1 p2 : List Int) (tb : Nat → Nat → Nat) :
    Nat → Nat → Nat → List Int → List Int →
    Option (List Int × List Int × Nat)
  | 0, _, _, _, _ => none
  | fuel + 1, i, j, a1, a2 =>
    let s1 := p1.getD i 0
    let s2 := p2.getD j 0
    let b1 := if a1.head? = some s1 then a1 else s1 :: a1
    let b2 := if a2.head? = some s2 then a2 else s2 :: a2
    if tb i j = 0 then some (b1, b2, i)
    else if tb i j = 1 then
      if i = 0 ∨ j = 0 then none
      else tracebackWalk p1 p2 tb fuel (i - 1) (j - 1) b1 b2
    else if tb i j = 2 then
      if i = 0 then none else tracebackWalk p1 p2 tb fuel (i - 1) j b1 b2
    else if tb i j = 3 then
      if j = 0 then none else tracebackWalk p1 p2 tb fuel i (j - 1) b1 b2
    else none

/-- `src/align.rs` `align_paths_subproblem` (lines 94-127) composed with
`traceback` (lines 129-170): fill the DP matrices, start at the global
argmax of the score matrix, and walk the traceback codes.
`path1_end_index` is the starting row of the walk, `path1_start_index` the
row where it stops. -/
def align_paths_subproblem (sl : SegLens) (p1 p2 : List Int) :
    Option Alignment := do
  let mat ← buildMatrix sl p1 p2
  let scores := mat.map (fun r => r.map Prod.fst)
  let am := matrixArgmax scores
  let tb := fun i j => ((mat.getD i []).getD j (0, 0)).2
  let w ← tracebackWalk p1 p2 tb (am.1 + am.2 + 1) am.1 am.2 [] []
  pure ⟨w.1, w.2.1, (w.2.2 : Int), (am.1 : Int)⟩

/-! ## The banded two-row aligner (`src/lowmem.rs`) -/

/-- The sparse traceback matrix of the lowmem aligner: a `HashMap<(i32,i32), i8>`
as an association list (each key is inserted at most once). -/
def TbMap : Type := List ((Nat × Nat) × Nat)

/-- `HashMap::insert`. -/
def tbInsert (m : TbMap) (k : Nat × Nat) (v : Nat) : TbMap := (k, v) :: m

/-- `HashMap::get`. -/
def tbGet (m : TbMap) (k : Nat × Nat) : Option Nat := m.lookup k

/-- `segment_lengths.get(&s).ok_or(InversionError::SegmentNotFound(payload))?`:
the length lookups of `src/lowmem.rs`.  The error payload follows the source:
`initialize_matrices_lowmem` reports the absolute value, the main loop of
`align_paths_subproblem_lowmem` reports the oriented value. -/
def lookupLen (sl : SegLens) (s : Int) (payload : Int) :
    Except InversionError Int :=
  match segLen sl s with
  | some l => Except.ok l
  | none => Except.error (InversionError.SegmentNotFound payload)

/-- The corner computation of `initialize_matrices_lowmem`
(src/lowmem.rs lines 31-43). -/
def lowmemCorner (sl : SegLens) (p1 p2 : List Int) :
    Except InversionError Int :=
  if p1.getD 0 0 = p2.getD 0 0 then
    lookupLen sl (p1.getD 0 0) ((p1.getD 0 0).natAbs : Int)
  else do
    let l1 ← lookupLen sl (p1.getD 0 0) ((p1.getD 0 0).natAbs : Int)
    let l2 ← lookupLen sl (p2.getD 0 0) ((p2.getD 0 0).natAbs : Int)
    pure (-(l1 + l2))

/-- One iteration of the row-0 fill of `initialize_matrices_lowmem`
(src/lowmem.rs lines 46-63): the state is the reversed row prefix and the
sparse traceback entries so far. -/
def initRow0Step (sl : SegLens) (p1 p2 : List Int)
    (st : List Int × TbMap) (k : Nat) :
    Except InversionError (List Int × TbMap) := do
  let j := k + 1
  let lj ← lookupLen sl (p2.getD j 0) ((p2.getD j 0).natAbs : Int)
  let thisCell := if p2.getD j 0 = p1.getD 0 0 then lj else -lj
  let possible := [0, -1, -1, st.1.headD 0]
  let tv := argmax possible
  pure ((amax possible + thisCell) :: st.1,
        if tv ≠ 0 then tbInsert st.2 (0, j) tv else st.2)

/-- `src/lowmem.rs` `initialize_matrices_lowmem` (lines 21-82): row 0 of the
score matrix, the sparse traceback entries of row 0, and the row's
max/argmax.  (The zero-filled `score_row_current` the source also returns is
never read before being overwritten and is not modelled.) -/
def initialize_matrices_lowmem (sl : SegLens) (p1 p2 : List Int) :
    Except InversionError (List Int × TbMap × Int × (Nat × Nat)) := do
  let corner ← lowmemCorner sl p1 p2
  let st ← (List.range (p2.length - 1)).foldlM (initRow0Step sl p1 p2)
    ([corner], ([] : TbMap))
  let row0 := st.1.reverse
  let mm := max_and_argmax row0
  pure (row0, st.2, mm.1, (0, mm.2))

/-- State carried across the row loop of `align_paths_subproblem_lowmem`:
the previous score row, the sparse traceback map, and the running
max/argmax of the score matrix. -/
structure LowmemState where
  prevRow : List Int
  tb : TbMap
  maxScore : Int
  argmaxScore : Nat × Nat

/-- One iteration of the interior loop of a lowmem row
(src/lowmem.rs lines 137-180): the state is the reversed prefix of the
current row and the sparse traceback map.  `lenI` is the length of
`p1[i]`, looked up once per row by the caller. -/
def lowmemCellStep (sl : SegLens) (p1 p2 : List Int) (prevRow : List Int)
    (i : Nat) (lenI : Int) (maxRowDrop maxColDrop : Nat)
    (rst : List Int × TbMap) (k2 : Nat) :
    Except InversionError (List Int × TbMap) := do
  let j := k2 + 1
  let lenJ ← lookupLen sl (p2.getD j 0) (p2.getD j 0)
  if (j < i ∧ maxRowDrop < i - j) ∨ (i < j ∧ maxColDrop < j - i) then
    pure ((if p1.getD i 0 = p2.getD j 0 then lenI else -lenI - lenJ)
            :: rst.1,
          rst.2)
  else
    let possible :=
      if p1.getD i 0 = p2.getD j 0 then
        [lenI, prevRow.getD (j - 1) 0 + lenI,
         prevRow.getD j 0 + lenI, rst.1.headD 0 + lenI]
      else
        [-lenI - lenJ, prevRow.getD (j - 1) 0 - lenI - lenJ,
         prevRow.getD j 0 - lenI, rst.1.headD 0 - lenJ]
    let tv := argmax possible
    pure (amax possible :: rst.1,
          if tv ≠ 0 then tbInsert rst.2 (i, j) tv else rst.2)

/-- One row `i ≥ 1` of the lowmem fill (src/lowmem.rs lines 115-191):
column 0 first, then `j = 1, …, |p2|-1` with the band heuristic, then the
running-max update (strict greater-than). -/
def lowmemRowStep (sl : SegLens) (p1 p2 : List Int)
    (maxRowDrop maxColDrop : Nat) (st : LowmemState) (k : Nat) :
    Except InversionError LowmemState := do
  let i := k + 1
  let tc ← lookupLen sl (p1.getD i 0) (p1.getD i 0)
  let thisCell := if p1.getD i 0 = p2.getD 0 0 then tc else -tc
  let possible0 := [0, -1, st.prevRow.headD 0, -1]
  let c0 := amax possible0 + thisCell
  let tv0 := argmax possible0
  let tb0 := if tv0 ≠ 0 then tbInsert st.tb (i, 0) tv0 else st.tb
  let lenI ← lookupLen sl (p1.getD i 0) (p1.getD i 0)
  let rowSt ← (List.range (p2.length - 1)).foldlM
    (lowmemCellStep sl p1 p2 st.prevRow i lenI maxRowDrop maxColDrop)
    ([c0], tb0)
  let newRow := rowSt.1.reverse
  let mm := max_and_argmax newRow
  pure ⟨newRow, rowSt.2,
        if st.maxScore < mm.1 then mm.1 else st.maxScore,
        if st.maxScore < mm.1 then (i, mm.2) else st.argmaxScore⟩

/-- The `?` operator of `src/lowmem.rs` seen from the caller: an error
becomes the returned error (wrapped in `some`: no panic), an ok value is
passed on. -/
def errorToSome {α β : Type} (m : Except InversionError α)
    (g : α → Option (Except InversionError β)) :
    Option (Except InversionError β) :=
  match m with
  | Except.error e => some (Except.error e)
  | Except.ok a => g a

/-- The band geometry of `align_paths_subproblem_lowmem`
(src/lowmem.rs lines 107-113): `(max_row_drop, max_col_drop)`. -/
def lowmemDrops (p1 p2 : List Int) (drop : Nat) : Nat × Nat :=
  if p2.length < p1.length then (drop + p1.length - p2.length, drop)
  else (drop, drop + p2.length - p1.length)

/-- `src/lowmem.rs` `traceback_lowmem` (lines 201-242), started at the
tracked argmax: the sparse-map lookup with default 0 is the traceback
code. -/
def lowmemFinish (p1 p2 : List Int) (st : LowmemState) :
    Option (Except InversionError Alignment) :=
  (tracebackWalk p1 p2 (fun i j => (tbGet st.tb (i, j)).getD 0)
      (st.argmaxScore.1 + st.argmaxScore.2 + 1)
      st.argmaxScore.1 st.argmaxScore.2 [] []).map
    (fun w => Except.ok ⟨w.1, w.2.1, (w.2.2 : Int), (st.argmaxScore.1 : Int)⟩)

/-- The row loop of `align_paths_subproblem_lowmem`
(src/lowmem.rs lines 115-191). -/
def lowmemRows (sl : SegLens) (p1 p2 : List Int) (drop : Nat)
    (v : List Int × TbMap × Int × (Nat × Nat)) :
    Except InversionError LowmemState :=
  (List.range (p1.length - 1)).foldlM
    (lowmemRowStep sl p1 p2 (lowmemDrops p1 p2 drop).1
      (lowmemDrops p1 p2 drop).2)
    ⟨v.1, v.2.1, v.2.2.1, v.2.2.2⟩

/-- `src/lowmem.rs` `align_paths_subproblem_lowmem` (lines 84-199) composed
with `traceback_lowmem` (lines 201-242).  The outer `none` models a panic
(index underflow or a bad traceback code), `Except.error` the returned
`InversionError`. -/
def align_paths_subproblem_lowmem (sl : SegLens) (p1 p2 : List Int)
    (drop : Nat) : Option (Except InversionError Alignment) :=
  errorToSome (initialize_matrices_lowmem sl p1 p2) (fun v =>
    errorToSome (lowmemRows sl p1 p2 drop v) (fun st =>
      lowmemFinish p1 p2 st))

/-! ## The driver (`src/align.rs` `align_paths`, lines 172-268) -/

/-- Map a path to the absolute values of its segments (the driver's sets all
hold absolute values). -/
def absList (p : List Int) : List Int := p.map (fun x => (x.natAbs : Int))

/-- `Iterator::position`: index of the first element satisfying the
predicate. -/
def position (p : List Int) (x : Int) : Option Nat :=
  match p with
  | [] => none
  | y :: rest => if y = x then some 0 else (position rest x).map (· + 1)

/-- The driver's `conflicting_segments`: absolute values of segments
traversed in the same direction by both paths (membership-equivalent to the
source's `HashSet` intersection). -/
def conflicting_segments (p1 p2 : List Int) : List Int :=
  absList (p1.filter (fun x => p2.contains x))

/-- The driver's `common_segments`: absolute values of segments traversed in
opposite directions by the two paths and not also conflicting. -/
def common_segments (p1 p2r : List Int) (conflicting : List Int) :
    List Int :=
  (absList (p1.filter (fun x => p2r.contains x))).filter
    (fun x => !conflicting.contains x)

/-- The subproblem extension loops (src/align.rs lines 201-207 and 214-220):
from `start`, take segments while they are neither conflicting nor used.
The extracted slice `p[start..end]` is exactly this `takeWhile`. -/
def subExtent (p : List Int) (conflicting used : List Int) (start : Nat) :
    List Int :=
  (p.drop start).takeWhile (fun s =>
    !conflicting.contains ((s.natAbs : Int)) &&
    !used.contains ((s.natAbs : Int)))

/-- The size dispatch of the driver (src/align.rs lines 223-243): full
aligner when both subranges are shorter than `maxH`, lowmem aligner when
both are shorter than `maxP`, otherwise no alignment (`some none`).
The outer `none` models an abort (panic of the full aligner, panic or
propagated error of the lowmem aligner, neither of which the driver of this
revision can represent). -/
def dispatchAlignment (sl : SegLens) (sub1 sub2 : List Int)
    (maxH maxDrop maxP : Nat) : Option (Option Alignment) :=
  if sub1.length < maxH ∧ sub2.length < maxH then
    (align_paths_subproblem sl sub1 sub2).map some
  else if sub1.length < maxP ∧ sub2.length < maxP then
    match align_paths_subproblem_lowmem sl sub1 sub2 maxDrop with
    | none => none
    | some (Except.error _) => none
    | some (Except.ok a) => some (some a)
  else
    some none

/-- State of the driver loop: the used-segments set and the accumulated
output alignments (in output order). -/
structure DriverState where
  used : List Int
  alignments : List Alignment
deriving Repr, DecidableEq

/-- Post-processing of an accepted subproblem alignment
(src/align.rs lines 245-263): insert the absolute values of the aligned
segments into the used set, reverse-complement the query side, and offset
the path1 indices by the subproblem start. -/
def driverAccept (st : DriverState) (idx : Nat) (al : Alignment) :
    DriverState :=
  ⟨st.used ++ absList al.alignment_path1 ++ absList al.alignment_path2,
   st.alignments ++
     [⟨al.alignment_path1,
       al.alignment_path2.reverse.map (fun x => -x),
       (idx : Int) + al.path1_start_index,
       (idx : Int) + al.path1_end_index⟩]⟩

/-- One iteration of the driver loop (src/align.rs lines 197-265) at
reference index `idx`: anchor test, subproblem extraction, dispatch, and
post-processing.  The `position(..).unwrap()` panic and the dispatch abort
propagate as `none` (via `bind`/`map`); a skipped subproblem leaves the
state unchanged. -/
def driverStep (sl : SegLens) (p1 p2r conflicting common : List Int)
    (maxH maxDrop maxP : Nat) (st : DriverState) (idx : Nat) :
    Option DriverState :=
  let anchor := p1.getD idx 0
  if common.contains ((anchor.natAbs : Int)) &&
     !st.used.contains ((anchor.natAbs : Int)) then
    (position p2r anchor).bind (fun jdx =>
      (dispatchAlignment sl (subExtent p1 conflicting st.used idx)
          (subExtent p2r conflicting st.used jdx) maxH maxDrop maxP).map
        (fun alOpt =>
          match alOpt with
          | none => st
          | some al => driverAccept st idx al))
  else some st

/-- `src/align.rs` `align_paths`: reverse-complement the query, build the
conflicting/common sets, and run the driver loop over all reference
indices. -/
def align_paths (sl : SegLens) (p1 p2 : List Int)
    (maxH maxDrop maxP : Nat) : Option (List Alignment) :=
  let p2r := (p2.map (fun x => -x)).reverse
  let conflicting := conflicting_segments p1 p2
  let common := common_segments p1 p2r conflicting
  ((List.range p1.length).foldlM
      (driverStep sl p1 p2r conflicting common maxH maxDrop maxP)
      ⟨[], []⟩).map DriverState.alignments

/-! ## GFA parsing and coordinate lookup (`src/gfa.rs`) -/

/-- `path_string.split(",")`: split on every comma, keeping empty pieces. -/
def splitComma : List Char → List (List Char)
  | [] => [[]]
  | c :: rest =>
    if c = ',' then [] :: splitComma rest
    else
      match splitComma rest with
      | t :: ts => (c :: t) :: ts
      | [] => [[c]]

/-- `Regex::new(r"(\d+)([+-])").captures(segment)`: the leftmost match of
the regex in the token, returning the two capture groups (the digit run and
the sign character).  At each start position the greedy `\d+` takes the
maximal digit run; if the following character is not `+`/`-`, backtracking
cannot help (every shorter run is followed by a digit), so the engine
advances the start position by one character. -/
def findCaps : List Char → Option (List Char × Char)
  | [] => none
  | c :: rest =>
    if c.isDigit then
      let run := (c :: rest).takeWhile Char.isDigit
      match (c :: rest).drop run.length with
      | s :: _ =>
        if s = '+' ∨ s = '-' then some (run, s) else findCaps rest
      | [] => findCaps rest
    else findCaps rest

/-- Value of a digit run (`str::parse` before the `i32` range check). -/
def digitsVal (ds : List Char) : Nat :=
  ds.foldl (fun n c => 10 * n + (c.toNat - 48)) 0

/-- `src/gfa.rs` `make_segment_error` (lines 53-55); `Char.ofNat 39` is the
ASCII single-quote around the offending token in the message. -/
def make_segment_error (segment : List Char) : InversionError :=
  InversionError.GfaParse
    ("Invalid segment format " ++ String.singleton (Char.ofNat 39) ++
      String.mk segment ++ String.singleton (Char.ofNat 39))

/-- `src/gfa.rs` `parse_gfa_path` (lines 27-51), on the character list of
the path field.  `parse::<i32>()` fails (→ `GfaParse`) when the digit run
exceeds the `i32` range. -/
def parse_gfa_path (path_string : List Char) :
    Except InversionError (List Int) :=
  (splitComma path_string).mapM (fun segment =>
    match findCaps segment with
    | none => Except.error (make_segment_error segment)
    | some (digits, sign) =>
      match sign with
      | '+' =>
        if 2147483647 < digitsVal digits then
          Except.error (make_segment_error segment)
        else Except.ok ((digitsVal digits : Int))
      | '-' =>
        if 2147483647 < digitsVal digits then
          Except.error (make_segment_error segment)
        else Except.ok (-(digitsVal digits : Int))
      | _ => Except.error (make_segment_error segment))

/-- The loop of `src/gfa.rs` `lookup_base_positions` (lines 157-172):
`i` is the index of the head of the remaining path, `cur` the running
base position, `acc` the accumulated result map (an association list;
keys are distinct path indices, newest first). -/
def lookupBasePositionsAux (sl : SegLens) (idxSet : List Int) :
    List Int → Nat → Int → List (Int × (Int × Int)) →
    Except InversionError (List (Int × (Int × Int)))
  | [], _, _, acc => Except.ok acc
  | s :: rest, i, cur, acc =>
    match segLen sl s with
    | none =>
      Except.error (InversionError.GfaParse
        ("Cannot find S-line in GFA for segment " ++ toString s.natAbs))
    | some len =>
      lookupBasePositionsAux sl idxSet rest (i + 1) (cur + len)
        (if idxSet.contains ((i : Int)) then
          ((i : Int), (cur + 1, cur + len)) :: acc
        else acc)

/-- `src/gfa.rs` `lookup_base_positions` (lines 149-174): map each requested
index of `path` to the 1-based inclusive base-pair range of that segment. -/
def lookup_base_positions (path : List Int) (sl : SegLens)
    (segment_indices : List Int) :
    Except InversionError (List (Int × (Int × Int))) :=
  lookupBasePositionsAux sl segment_indices path 0 0 []

/-! ## Concrete inputs used by the claims -/

/-- Scenario D length map `{2:100, 3:10, 4:10, 5:100, 7:10}`. -/
def slScenarioD : SegLens :=
  mapOf [(2, 100), (3, 10), (4, 10), (5, 100), (7, 10)]

/-- Every segment of Scenario A with length 100 (the map the claim text
states). -/
def slAll100 : SegLens :=
  mapOf [(1, 100), (2, 100), (3, 100), (4, 100), (5, 100), (6, 100),
         (7, 100)]

/-- The length map of the repository's own `test_align_paths` in
src/align.rs: segments appearing (up to orientation) in both paths get
length 100, the others length 10. -/
def slTest : SegLens :=
  mapOf [(1, 100), (2, 100), (3, 10), (4, 10), (5, 100), (6, 100), (7, 10)]

/-- Length map of the output-ordering counterexample. -/
def slOrder : SegLens :=
  mapOf [(2, 1), (9, 1), (6, 300), (7, 300), (3, 100)]

/-- Index of the first occurrence of `M` in a list (used only to *state*
properties of the scanning primitives). -/
def fidx : List Int → Int → Nat
  | [], _ => 0
  | x :: rest, M => if x = M then 0 else fidx rest M + 1

/-- The total length of a segment, `0` when its entry is missing (only used
under coverage hypotheses, where the default is never taken). -/
def segLenD (sl : SegLens) (s : Int) : Int := (segLen sl s).getD 0

/-- Sum of the lengths of the first `i` segments of a path ("running
position" after `i` segments). -/
def pathPrefixLen (sl : SegLens) (p : List Int) (i : Nat) : Int :=
  ((p.take i).map (segLenD sl)).sum

/-- The segment identities (absolute values) occurring in either side of an
alignment — the set the no-double-use property (spec P4) quantifies over. -/
def segIds (al : Alignment) : List Int :=
  absList (al.alignment_path1 ++ al.alignment_path2)

/-- Prefix of the row-major argmax scan of `matrixArgmax`: the fold state
after the first `r` rows. -/
def amFold (rows : List (List Int)) (r : Nat) : Int × Nat × Nat :=
  (List.range r).foldl
    (fun (st : Int × Nat × Nat) i =>
      let b := maxArgmaxAux (rows.getD i []) 0 (st.1, 0)
      if st.1 < b.1 then (b.1, i, b.2) else st)
    ((rows.headD []).headD 0, 0, 0)

/-! ## Claim C1 -/

/-- Claim C1: the DP boundary fill is length-weighted: for
`path1 = [2,3,4,-5]`, `path2 = [2,7,-5]` and segment lengths
`{2:100, 3:10, 4:10, 5:100, 7:10}`, `create_matrices` returns a score
matrix whose first row is `[100, 90, -10]` and whose first column is
`[100, 90, 80, -20]` (match scores add the segment length, mismatch
penalties subtract segment lengths, not a flat `-1`). -/
theorem create_matrices_length_weighted :
    (create_matrices slScenarioD [2, 3, 4, -5] [2, 7, -5]).map
      (fun rc => (rc.1.map Prod.fst, rc.2.map Prod.fst)) =
    some ([100, 90, -10], [100, 90, 80, -20]) := by decide

/-! ## Claim C2 -/

/-- Claim C2, counterexample: with *every* segment of length 100 (as the
claim states), `align_paths` on Scenario A does **not** return the single
alignment `⟨[2,3,4,5], [-5,-7,-2], 1, 4⟩`: all interior cells of the first
subproblem tie with the corner cell, the row-major argmax therefore starts
the traceback at `(0,0)`, and the driver returns two single-segment
alignments instead. -/
theorem align_paths_scenarioA_all100_refuted :
    align_paths slAll100 [1, 2, 3, 4, 5, 6] [1, -5, -7, -2, 6]
        10000 1000 100000 =
      some [⟨[2], [-2], 1, 1⟩, ⟨[5], [-5], 4, 4⟩] ∧
    align_paths slAll100 [1, 2, 3, 4, 5, 6] [1, -5, -7, -2, 6]
        10000 1000 100000 ≠
      some [⟨[2, 3, 4, 5], [-5, -7, -2], 1, 4⟩] := by
  constructor
  · decide
  · decide

/-- Claim C2, amended: on Scenario A with the repository test's length map
(length 100 for segments appearing in both paths, length 10 for segments
`3`, `4`, `7` appearing in only one), `align_paths` returns exactly one
alignment, with `alignment_path1 = [2,3,4,5]`,
`alignment_path2 = [-5,-7,-2]` (already reverse-complemented back into the
original query orientation), `path1_start_index = 1` and
`path1_end_index = 4`. -/
theorem align_paths_scenarioA_testmap :
    align_paths slTest [1, 2, 3, 4, 5, 6] [1, -5, -7, -2, 6]
        10000 1000 100000 =
      some [⟨[2, 3, 4, 5], [-5, -7, -2], 1, 4⟩] := by decide

/-! ## Claim C5 -/

/-- Claim C5: size dispatch and oversize skip.  For every subproblem:
if both subrange lengths are `< maxHighmemLength` the full-matrix aligner
is used; else if both are `< maxPathLength` the banded aligner is used;
else the subproblem contributes no alignment (`some none`) and the driver
continues without error — concretely, shrinking both thresholds to 1 on
Scenario A makes every subproblem oversize and `align_paths` returns an
empty list. -/
theorem dispatch_size_thresholds :
    (∀ (sl : SegLens) (sub1 sub2 : List Int) (maxH maxDrop maxP : Nat),
        sub1.length < maxH → sub2.length < maxH →
        dispatchAlignment sl sub1 sub2 maxH maxDrop maxP =
          (align_paths_subproblem sl sub1 sub2).map some) ∧
    (∀ (sl : SegLens) (sub1 sub2 : List Int) (maxH maxDrop maxP : Nat)
        (a : Alignment),
        ¬(sub1.length < maxH ∧ sub2.length < maxH) →
        sub1.length < maxP → sub2.length < maxP →
        align_paths_subproblem_lowmem sl sub1 sub2 maxDrop =
          some (Except.ok a) →
        dispatchAlignment sl sub1 sub2 maxH maxDrop maxP = some (some a)) ∧
    (∀ (sl : SegLens) (sub1 sub2 : List Int) (maxH maxDrop maxP : Nat),
        ¬(sub1.length < maxH ∧ sub2.length < maxH) →
        ¬(sub1.length < maxP ∧ sub2.length < maxP) →
        dispatchAlignment sl sub1 sub2 maxH maxDrop maxP = some none) ∧
    align_paths slTest [1, 2, 3, 4, 5, 6] [1, -5, -7, -2, 6] 1 1000 1 =
      some [] := by
  refine ⟨?_, ?_, ?_, by decide⟩
  · intro sl sub1 sub2 maxH maxDrop maxP h1 h2
    simp only [dispatchAlignment, if_pos (And.intro h1 h2)]
  · intro sl sub1 sub2 maxH maxDrop maxP a hn h1 h2 hlm
    simp only [dispatchAlignment, if_neg hn, if_pos (And.intro h1 h2), hlm]
  · intro sl sub1 sub2 maxH maxDrop maxP hn hp
    simp only [dispatchAlignment, if_neg hn, if_neg hp]

/-- Witness for `dispatch_size_thresholds`: its first branch applied at a
concrete small subproblem. -/
theorem dispatch_size_thresholds_witness :
    ([(2 : Int)].length < 5 ∧ [(2 : Int)].length < 5) ∧
    dispatchAlignment slScenarioD [2] [2] 5 1 9 =
      (align_paths_subproblem slScenarioD [2] [2]).map some :=
  ⟨by decide,
   dispatch_size_thresholds.1 slScenarioD [2] [2] 5 1 9 (by decide)
     (by decide)⟩

/-! ## Helper lemmas about the scoring primitives -/

lemma foldl_max_init (l : List Int) :
    ∀ i x : Int, l.foldl max (max i x) = max i (l.foldl max x) := by
  induction l with
  | nil => intro i x; rfl
  | cons y rest ih =>
    intro i x
    simp only [List.foldl, max_assoc]
    exact ih i (max x y)

lemma le_foldl_max_init (l : List Int) (i : Int) : i ≤ l.foldl max i := by
  induction l generalizing i with
  | nil => exact le_rfl
  | cons y rest ih =>
    exact le_trans (le_max_left i y) (ih (max i y))

lemma le_foldl_max (l : List Int) (i : Int) :
    ∀ y ∈ l, y ≤ l.foldl max i := by
  induction l generalizing i with
  | nil => intro y hy; cases hy
  | cons x rest ih =>
    intro y hy
    rcases List.mem_cons.mp hy with hy | hy
    · subst hy
      exact le_trans (le_max_right i y) (le_foldl_max_init rest (max i y))
    · exact ih (max i x) y hy

lemma foldl_max_mem (l : List Int) (i : Int) :
    l.foldl max i = i ∨ l.foldl max i ∈ l := by
  induction l generalizing i with
  | nil => exact Or.inl rfl
  | cons x rest ih =>
    simp only [List.foldl]
    rcases ih (max i x) with h | h
    · rcases le_total i x with hx | hx
      · rw [h, max_eq_right hx]; exact Or.inr (List.mem_cons_self x rest)
      · rw [h, max_eq_left hx]; exact Or.inl rfl
    · exact Or.inr (List.mem_cons_of_mem x h)

lemma foldl_max_of_le (l : List Int) (i : Int) (h : ∀ y ∈ l, y ≤ i) :
    l.foldl max i = i := by
  induction l with
  | nil => rfl
  | cons x rest ih =>
    simp only [List.foldl]
    rw [max_eq_left (h x (List.mem_cons_self x rest))]
    exact ih (fun y hy => h y (List.mem_cons_of_mem x hy))

lemma amax_cons (x : Int) (rest : List Int) :
    amax (x :: rest) = rest.foldl max x := by
  simp [amax, List.foldl]

lemma le_amax (a : List Int) (y : Int) (hy : y ∈ a) : y ≤ amax a := by
  cases a with
  | nil => cases hy
  | cons x rest =>
    rw [amax_cons]
    rcases List.mem_cons.mp hy with hy | hy
    · subst hy; exact le_foldl_max_init rest y
    · exact le_foldl_max rest x y hy

lemma amax_mem (a : List Int) (h : a ≠ []) : amax a ∈ a := by
  cases a with
  | nil => exact absurd rfl h
  | cons x rest =>
    rw [amax_cons]
    rcases foldl_max_mem rest x with h2 | h2
    · rw [h2]; exact List.mem_cons_self x rest
    · exact List.mem_cons_of_mem x h2

lemma fidx_lt_length {a : List Int} {M : Int} (h : M ∈ a) :
    fidx a M < a.length := by
  induction a with
  | nil => cases h
  | cons x rest ih =>
    simp only [fidx]
    by_cases hx : x = M
    · simp [hx]
    · rcases List.mem_cons.mp h with h | h
      · exact absurd h.symm hx
      · simpa [hx, Nat.succ_lt_succ_iff] using ih h

lemma getD_fidx {a : List Int} {M : Int} (h : M ∈ a) :
    a.getD (fidx a M) 0 = M := by
  induction a with
  | nil => cases h
  | cons x rest ih =>
    simp only [fidx]
    by_cases hx : x = M
    · simp [hx]
    · rcases List.mem_cons.mp h with h | h
      · exact absurd h.symm hx
      · simpa [hx] using ih h

lemma getD_lt_fidx {a : List Int} {M : Int} :
    ∀ k, k < fidx a M → a.getD k 0 ≠ M := by
  induction a with
  | nil => intro k hk; simp [fidx] at hk
  | cons x rest ih =>
    intro k hk
    simp only [fidx] at hk
    by_cases hx : x = M
    · simp [hx] at hk
    · cases k with
      | zero => simpa using hx
      | succ k =>
        have : k < fidx rest M := by
          rw [if_neg hx] at hk; omega
        simpa using ih k this

lemma maxArgmaxAux_val (a : List Int) :
    ∀ (k : Nat) (g : Int) (j : Nat),
      (maxArgmaxAux a k (g, j)).1 = a.foldl max g := by
  induction a with
  | nil => intro k g j; rfl
  | cons x rest ih =>
    intro k g j
    simp only [maxArgmaxAux, List.foldl]
    by_cases hx : g < x
    · rw [if_pos hx, ih, max_eq_right (le_of_lt hx)]
    · rw [if_neg hx, ih, max_eq_left (le_of_not_lt hx)]

lemma maxArgmaxAux_of_le (a : List Int) :
    ∀ (k : Nat) (g : Int) (j : Nat), (∀ x ∈ a, x ≤ g) →
      maxArgmaxAux a k (g, j) = (g, j) := by
  induction a with
  | nil => intro k g j _; rfl
  | cons x rest ih =>
    intro k g j h
    have hx : ¬ g < x := not_lt.2 (h x (List.mem_cons_self x rest))
    simp only [maxArgmaxAux, if_neg hx]
    exact ih (k + 1) g j (fun y hy => h y (List.mem_cons_of_mem x hy))

lemma maxArgmaxAux_of_lt (a : List Int) :
    ∀ (k : Nat) (g : Int) (j : Nat), (∃ x ∈ a, g < x) →
      maxArgmaxAux a k (g, j) =
        (a.foldl max g, k + fidx a (a.foldl max g)) := by
  induction a with
  | nil => intro k g j h; simp at h
  | cons x rest ih =>
    intro k g j h
    simp only [maxArgmaxAux, List.foldl, fidx]
    by_cases hx : g < x
    · rw [if_pos hx, max_eq_right (le_of_lt hx)]
      by_cases hr : ∀ y ∈ rest, y ≤ x
      · rw [maxArgmaxAux_of_le rest (k + 1) x k hr,
          foldl_max_of_le rest x hr, if_pos rfl]
        simp only [Prod.mk.injEq]
        exact ⟨by trivial, by omega⟩
      · push_neg at hr
        obtain ⟨y, hy, hxy⟩ := hr
        rw [ih (k + 1) x k ⟨y, hy, hxy⟩]
        have hne : x ≠ rest.foldl max x :=
          ne_of_lt (lt_of_lt_of_le hxy (le_foldl_max rest x y hy))
        rw [if_neg hne]
        simp only [Prod.mk.injEq]
        exact ⟨by trivial, by omega⟩
    · rw [if_neg hx, max_eq_left (le_of_not_lt hx)]
      obtain ⟨y, hy, hgy⟩ := h
      have hyr : y ∈ rest := by
        rcases List.mem_cons.mp hy with hy | hy
        · exact absurd hgy (by rw [hy]; exact hx)
        · exact hy
      rw [ih (k + 1) g j ⟨y, hyr, hgy⟩]
      have hne : x ≠ rest.foldl max g := by
        have : g < rest.foldl max g :=
          lt_of_lt_of_le hgy (le_foldl_max rest g y hyr)
        omega
      rw [if_neg hne]
      simp only [Prod.mk.injEq]
      exact ⟨by trivial, by omega⟩

lemma max_and_argmax_eq (a : List Int) (h : a ≠ []) :
    max_and_argmax a = (amax a, fidx a (amax a)) := by
  cases a with
  | nil => exact absurd rfl h
  | cons x rest =>
    simp only [max_and_argmax, List.headD, amax_cons]
    by_cases hr : ∀ y ∈ rest, y ≤ x
    · have h1 : ∀ y ∈ x :: rest, y ≤ x := by
        intro y hy
        rcases List.mem_cons.mp hy with hy | hy
        · exact le_of_eq hy
        · exact hr y hy
      rw [maxArgmaxAux_of_le (x :: rest) 0 x 0 h1,
        foldl_max_of_le rest x hr]
      simp [fidx]
    · push_neg at hr
      obtain ⟨y, hy, hxy⟩ := hr
      rw [maxArgmaxAux_of_lt (x :: rest) 0 x 0
        ⟨y, List.mem_cons_of_mem x hy, hxy⟩]
      simp only [List.foldl, max_self, Nat.zero_add]

lemma maxArgmaxAux_bridge (row : List Int) (h : row ≠ []) (g : Int) :
    maxArgmaxAux row 0 (g, 0) =
      if g < (max_and_argmax row).1 then max_and_argmax row else (g, 0) := by
  rw [max_and_argmax_eq row h]
  by_cases hg : g < amax row
  · rw [if_pos hg]
    obtain ⟨x, hx, hgx⟩ : ∃ x ∈ row, g < x := ⟨amax row, amax_mem row h, hg⟩
    rw [maxArgmaxAux_of_lt row 0 g 0 ⟨x, hx, hgx⟩]
    have hfold : row.foldl max g = amax row := by
      cases row with
      | nil => exact absurd rfl h
      | cons z rest =>
        rw [amax_cons, show (z :: rest).foldl max g = rest.foldl max (max g z)
          from rfl, foldl_max_init rest g z,
          max_eq_right]
        rw [amax_cons] at hg
        calc g ≤ max g z := le_max_left g z
        _ ≤ rest.foldl max (max g z) := le_foldl_max_init _ _
        _ = max g (rest.foldl max z) := foldl_max_init rest g z
        _ ≤ max (rest.foldl max z) (rest.foldl max z) := by
              apply max_le_max _ le_rfl
              exact le_of_lt hg
        _ = rest.foldl max z := max_self _
    rw [hfold]
    simp
  · rw [if_neg hg]
    exact maxArgmaxAux_of_le row 0 g 0
      (fun x hx => le_trans (le_amax row x hx) (le_of_not_lt hg))

/-! ## Claim C6 -/

/-- Claim C6, counterexample: the traceback-fill argmax primitive
`score_argmax` of src/lib.rs (Rust `max_by_key`, which keeps the **last**
of equally-maximal elements) returns index 1, not the lowest index 0, on
the tied tuple `[0, 0, -1, -1]`. -/
theorem score_argmax_tie_refuted :
    score_argmax [0, 0, -1, -1] = 1 ∧ score_argmax [0, 0, -1, -1] ≠ 0 := by
  constructor
  · decide
  · decide

/-- Claim C6, amended: both argmax primitives return an index of the
maximum, but their tie-breaking differs: `score_argmax` (src/lib.rs, used
to fill the traceback matrices there) breaks ties to the **highest** index,
while `max_and_argmax` (src/lowmem.rs, used for the running row argmax)
breaks ties to the lowest index. -/
theorem argmax_primitives_tie_break :
    (∀ a b c d : Int,
      score_argmax [a, b, c, d] < 4 ∧
      (∀ k, k < 4 →
        [a, b, c, d].getD k 0 ≤
          [a, b, c, d].getD (score_argmax [a, b, c, d]) 0) ∧
      (∀ k, score_argmax [a, b, c, d] < k → k < 4 →
        [a, b, c, d].getD k 0 <
          [a, b, c, d].getD (score_argmax [a, b, c, d]) 0)) ∧
    (∀ a : List Int, a ≠ [] →
      (max_and_argmax a).1 = amax a ∧
      (max_and_argmax a).2 < a.length ∧
      a.getD (max_and_argmax a).2 0 = amax a ∧
      (∀ k, k < (max_and_argmax a).2 → a.getD k 0 < amax a)) := by
  constructor
  · intro a b c d
    by_cases h1 : a ≤ b <;> by_cases h2 :
        [a, b, c, d].getD (score_argmax [a, b, c, d]) 0 = 0 <;>
      simp only [score_argmax, List.foldl, List.getD, List.get?] at * <;>
      split_ifs at * <;>
      refine ⟨by omega, ?_, ?_⟩ <;>
      · intro k
        intros
        interval_cases k <;> simp_all [List.getD] <;> omega
  · intro a ha
    rw [max_and_argmax_eq a ha]
    have hmem : amax a ∈ a := amax_mem a ha
    refine ⟨rfl, fidx_lt_length hmem, getD_fidx hmem, ?_⟩
    intro k hk
    have hne := getD_lt_fidx k hk
    have hle : a.getD k 0 ≤ amax a := by
      apply le_amax
      have : k < a.length := lt_trans hk (fidx_lt_length hmem)
      rw [List.getD_eq_getElem?_getD, List.getElem?_eq_getElem this]
      exact List.getElem_mem this
    omega

/-- Witness for `argmax_primitives_tie_break`: both parts applied at a
concrete tuple. -/
theorem argmax_primitives_tie_break_witness :
    (score_argmax [5, 9, 9, 2] < 4) ∧
    ([(5 : Int), 9, 9, 2] ≠ [] ∧
      (max_and_argmax [5, 9, 9, 2]).1 = amax [5, 9, 9, 2]) :=
  ⟨(argmax_primitives_tie_break.1 5 9 9 2).1,
   by decide,
   (argmax_primitives_tie_break.2 [5, 9, 9, 2] (by decide)).1⟩

/-! ## Claim C7, counterexample part -/

/-- Claim C7, counterexample: on a missing segment length the full-matrix
aligner of src/align.rs does **not** fail with a propagated
`SegmentNotFound` error — it has no error channel at all and aborts via
`Option::unwrap` (a panic, modelled by `none`), while the banded aligner on
the same input does return `SegmentNotFound`. -/
theorem full_aligner_missing_length_aborts :
    align_paths_subproblem (mapOf []) [1] [1] = none ∧
    align_paths_subproblem_lowmem (mapOf []) [1] [1] 1 =
      some (Except.error (InversionError.SegmentNotFound 1)) := by
  constructor
  · decide
  · decide

/-! ## Claim C8, counterexample part -/

/-- Claim C8, counterexample: the `path1_start_index` values of successive
alignments are **not** nondecreasing.  For `refPath = [2, 9, 6, 3]`,
`queryPath = [-9, -3, -7, -2]` and lengths
`{2:1, 9:1, 6:300, 7:300, 3:100}`, the first subproblem (anchored at the
cheap segment 2) aligns only the expensive segment 3 at reference index 3,
leaving segment 9 unused; the second subproblem then aligns 9 at reference
index 1, so the start indices are `3` followed by `1`. -/
theorem align_paths_start_order_refuted :
    align_paths slOrder [2, 9, 6, 3] [-9, -3, -7, -2] 10000 1000 100000 =
      some [⟨[3], [-3], 3, 3⟩, ⟨[9], [-9], 1, 1⟩] ∧
    ¬ ((3 : Int) ≤ 1) := by
  constructor
  · decide
  · decide

/-! ## Claim C9 -/

lemma pathPrefixLen_zero (sl : SegLens) (p : List Int) :
    pathPrefixLen sl p 0 = 0 := rfl

lemma pathPrefixLen_cons (sl : SegLens) (s : Int) (rest : List Int)
    (j : Nat) :
    pathPrefixLen sl (s :: rest) (j + 1) =
      segLenD sl s + pathPrefixLen sl rest j := by
  simp [pathPrefixLen, List.take, List.sum_cons]

lemma pathPrefixLen_succ (sl : SegLens) (path : List Int) (i : Nat)
    (hi : i < path.length) :
    pathPrefixLen sl path (i + 1) =
      pathPrefixLen sl path i + segLenD sl (path.getD i 0) := by
  unfold pathPrefixLen
  rw [List.take_succ, List.getElem?_eq_getElem hi, List.map_append,
    List.sum_append, List.getD_eq_getElem?_getD,
    List.getElem?_eq_getElem hi]
  simp

lemma lookupBasePositionsAux_spec (sl : SegLens) (idxSet : List Int) :
    ∀ (p : List Int) (i0 : Nat) (cur : Int)
      (acc : List (Int × (Int × Int))),
      covers sl p →
      ∃ r, lookupBasePositionsAux sl idxSet p i0 cur acc = Except.ok r ∧
        (∀ j, j < p.length →
          idxSet.contains (((i0 + j : Nat) : Int)) = true →
          r.lookup (((i0 + j : Nat) : Int)) =
            some (cur + pathPrefixLen sl p j + 1,
                  cur + pathPrefixLen sl p (j + 1))) ∧
        (∀ k : Int, (∀ j, j < p.length → k ≠ ((i0 + j : Nat) : Int)) →
          r.lookup k = acc.lookup k) := by
  intro p
  induction p with
  | nil =>
    intro i0 cur acc _
    refine ⟨acc, rfl, ?_, ?_⟩
    · intro j hj; cases hj
    · intro k _; rfl
  | cons s rest ih =>
    intro i0 cur acc hcov
    have hs : (segLen sl s).isSome := hcov s (List.mem_cons_self s rest)
    obtain ⟨len, hlen⟩ := Option.isSome_iff_exists.mp hs
    have hrest : covers sl rest :=
      fun x hx => hcov x (List.mem_cons_of_mem s hx)
    obtain ⟨r, hr, hmain, hpres⟩ :=
      ih (i0 + 1) (cur + len)
        (if idxSet.contains ((i0 : Nat) : Int) then
          (((i0 : Nat) : Int), (cur + 1, cur + len)) :: acc
        else acc) hrest
    refine ⟨r, ?_, ?_, ?_⟩
    · simp only [lookupBasePositionsAux, hlen]
      exact hr
    · intro j hj hcontains
      cases j with
      | zero =>
        have hkey : ∀ j, j < rest.length →
            ((i0 + 0 : Nat) : Int) ≠ ((i0 + 1 + j : Nat) : Int) := by
          intro j _
          intro hk
          have := Int.ofNat_inj.mp hk
          omega
        rw [hpres _ hkey]
        simp only [Nat.add_zero] at hcontains ⊢
        rw [if_pos hcontains]
        have : segLenD sl s = len := by simp [segLenD, hlen]
        simp [List.lookup, pathPrefixLen_zero, pathPrefixLen_cons, this]
      | succ j =>
        have hj2 : j < rest.length := by
          simpa [Nat.succ_lt_succ_iff] using hj
        have hkeyeq : ((i0 + (j + 1) : Nat) : Int) =
            ((i0 + 1 + j : Nat) : Int) := by
          congr 1; omega
        rw [hkeyeq]
        rw [hkeyeq] at hcontains
        rw [hmain j hj2 hcontains]
        have hlen2 : segLenD sl s = len := by simp [segLenD, hlen]
        rw [pathPrefixLen_cons, pathPrefixLen_cons, hlen2]
        congr 2 <;> ring
    · intro k hk
      have hk2 : ∀ j, j < rest.length → k ≠ ((i0 + 1 + j : Nat) : Int) := by
        intro j hj
        have := hk (j + 1) (by simpa [Nat.succ_lt_succ_iff] using hj)
        simpa [Nat.add_comm, Nat.add_assoc, Nat.add_left_comm] using this
      rw [hpres k hk2]
      by_cases hc : idxSet.contains ((i0 : Nat) : Int)
      · rw [if_pos hc]
        have hne : k ≠ ((i0 : Nat) : Int) := by
          have := hk 0 (Nat.succ_pos rest.length)
          simpa using this
        simp [List.lookup, beq_eq_false_iff_ne.mpr hne]
      · rw [if_neg hc]

lemma pathPrefixLen_const (sl : SegLens) (L : Int) :
    ∀ (p : List Int), (∀ s ∈ p, segLen sl s = some L) →
      ∀ i, i ≤ p.length → pathPrefixLen sl p i = (i : Int) * L := by
  intro p
  induction p with
  | nil =>
    intro _ i hi
    simp only [List.length_nil, Nat.le_zero] at hi
    subst hi
    simp [pathPrefixLen]
  | cons s rest ih =>
    intro hL i hi
    cases i with
    | zero => simp [pathPrefixLen_zero]
    | succ i =>
      rw [pathPrefixLen_cons]
      have h1 : segLenD sl s = L := by
        simp [segLenD, hL s (List.mem_cons_self s rest)]
      have h2 := ih (fun x hx => hL x (List.mem_cons_of_mem s hx)) i
        (by simpa [Nat.succ_le_succ_iff] using hi)
      rw [h1, h2]
      push_cast
      ring

/-- Claim C9: coordinate lookup.  Given a path, a covering length map and a
set of indices into the path, `lookup_base_positions` maps each requested
in-range index `i` to `(runningPos + 1, runningPos + segmentLength(|path[i]|))`
where `runningPos` is the total length of the segments before index `i`;
in particular, for a path whose segments all have length `L`, index `i`
maps to `(i·L + 1, (i+1)·L)`. -/
theorem lookup_base_positions_spec :
    (∀ (path : List Int) (sl : SegLens) (idxs : List Int) (i : Nat),
      covers sl path → i < path.length →
      idxs.contains ((i : Int)) = true →
      ∃ r, lookup_base_positions path sl idxs = Except.ok r ∧
        r.lookup ((i : Int)) =
          some (pathPrefixLen sl path i + 1,
                pathPrefixLen sl path i + segLenD sl (path.getD i 0))) ∧
    (∀ (path : List Int) (sl : SegLens) (idxs : List Int) (i : Nat)
      (L : Int),
      (∀ s ∈ path, segLen sl s = some L) → i < path.length →
      idxs.contains ((i : Int)) = true →
      ∃ r, lookup_base_positions path sl idxs = Except.ok r ∧
        r.lookup ((i : Int)) = some ((i : Int) * L + 1, ((i : Int) + 1) * L)) := by
  have main : ∀ (path : List Int) (sl : SegLens) (idxs : List Int) (i : Nat),
      covers sl path → i < path.length →
      idxs.contains ((i : Int)) = true →
      ∃ r, lookup_base_positions path sl idxs = Except.ok r ∧
        r.lookup ((i : Int)) =
          some (pathPrefixLen sl path i + 1, pathPrefixLen sl path (i + 1)) := by
    intro path sl idxs i hcov hi hc
    obtain ⟨r, hr, hmain, _⟩ :=
      lookupBasePositionsAux_spec sl idxs path 0 0 [] hcov
    refine ⟨r, hr, ?_⟩
    have := hmain i hi (by simpa using hc)
    simpa using this
  constructor
  · intro path sl idxs i hcov hi hc
    obtain ⟨r, hr, hl⟩ := main path sl idxs i hcov hi hc
    refine ⟨r, hr, ?_⟩
    rw [hl, pathPrefixLen_succ sl path i hi]
  · intro path sl idxs i L hL hi hc
    have hcov : covers sl path := by
      intro s hs; rw [hL s hs]; rfl
    obtain ⟨r, hr, hl⟩ := main path sl idxs i hcov hi hc
    refine ⟨r, hr, ?_⟩
    rw [hl, pathPrefixLen_const sl L path hL i (le_of_lt hi),
      pathPrefixLen_const sl L path hL (i + 1) hi]
    push_cast
    ring_nf

/-- Witness for `lookup_base_positions_spec`: both parts applied to the
path of the src/gfa.rs doc example with all lengths 100, index 3. -/
theorem lookup_base_positions_spec_witness :
    (covers (mapOf [(1, 100), (2, 100), (3, 100), (4, 100)])
        [1, -2, 3, 4] ∧
      3 < [(1 : Int), -2, 3, 4].length ∧
      [(3 : Int)].contains ((3 : Nat) : Int) = true) ∧
    (∃ r, lookup_base_positions [1, -2, 3, 4]
        (mapOf [(1, 100), (2, 100), (3, 100), (4, 100)]) [3] =
          Except.ok r ∧
      r.lookup (((3 : Nat) : Int)) =
        some (((3 : Nat) : Int) * 100 + 1, (((3 : Nat) : Int) + 1) * 100)) :=
  ⟨⟨by decide, by decide, by decide⟩,
   lookup_base_positions_spec.2 [1, -2, 3, 4]
     (mapOf [(1, 100), (2, 100), (3, 100), (4, 100)]) [3] 3 100
     (by decide) (by decide) (by decide)⟩

/-! ## Claim C10 -/

lemma takeWhile_all_append (p : Char → Bool) :
    ∀ (d : List Char) (s : Char) (t : List Char),
      (∀ c ∈ d, p c = true) → p s = false →
      (d ++ s :: t).takeWhile p = d := by
  intro d
  induction d with
  | nil =>
    intro s t _ hs
    simp [List.takeWhile, hs]
  | cons c rest ih =>
    intro s t hd hs
    have hc : p c = true := hd c (List.mem_cons_self c rest)
    show List.takeWhile p (c :: (rest ++ s :: t)) = c :: rest
    simp only [List.takeWhile, hc]
    rw [ih s t (fun x hx => hd x (List.mem_cons_of_mem c hx)) hs]

lemma sign_not_digit {s : Char} (hs : s = '+' ∨ s = '-') :
    s.isDigit = false := by
  rcases hs with hs | hs <;> subst hs <;> decide

lemma takeWhile_isPrefix (p : Char → Bool) (l : List Char) :
    l.takeWhile p ++ l.drop (l.takeWhile p).length = l := by
  induction l with
  | nil => rfl
  | cons c rest ih =>
    by_cases hc : p c
    · simp only [List.takeWhile, hc, List.length_cons, List.drop_succ_cons,
        List.cons_append]
      rw [ih]
    · simp only [List.takeWhile, hc]
      simp [Bool.not_eq_true] at hc
      simp [hc]

lemma takeWhile_digits {p : Char → Bool} :
    ∀ l : List Char, ∀ c ∈ l.takeWhile p, p c = true := by
  intro l
  induction l with
  | nil => intro c hc; cases hc
  | cons x rest ih =>
    intro c hc
    by_cases hx : p x
    · simp only [List.takeWhile, hx] at hc
      rcases List.mem_cons.mp hc with hc | hc
      · subst hc; exact hx
      · exact ih c hc
    · simp only [List.takeWhile] at hc
      rw [Bool.not_eq_true] at hx
      rw [hx] at hc
      cases hc

/-- Unfolding equation of `findCaps` on a nonempty token. -/
lemma findCaps_cons_eq (c : Char) (rest : List Char) :
    findCaps (c :: rest) =
      if c.isDigit then
        match (c :: rest).drop
            ((c :: rest).takeWhile Char.isDigit).length with
        | s :: _ =>
          if s = '+' ∨ s = '-' then
            some ((c :: rest).takeWhile Char.isDigit, s)
          else findCaps rest
        | [] => findCaps rest
      else findCaps rest := rfl

/-- Success characterisation of the regex search performed by
`parse_gfa_path`: `findCaps` succeeds on a token exactly when the token
contains a nonempty digit run immediately followed by a sign character. -/
lemma findCaps_some_iff :
    ∀ tok : List Char,
      (∃ caps, findCaps tok = some caps) ↔
      ∃ d s, d ≠ [] ∧ (∀ c ∈ d, c.isDigit = true) ∧
        (s = '+' ∨ s = '-') ∧ List.IsInfix (d ++ [s]) tok := by
  intro tok
  induction tok with
  | nil =>
    constructor
    · rintro ⟨caps, h⟩
      simp [findCaps] at h
    · rintro ⟨d, s, hd, _, _, hinf⟩
      have h0 := List.eq_nil_of_infix_nil hinf
      simp at h0
  | cons c rest ih =>
    constructor
    · rintro ⟨caps, h⟩
      by_cases hc : c.isDigit
      · rcases hdrop : (c :: rest).drop
            ((c :: rest).takeWhile Char.isDigit).length with _ | ⟨s, t⟩
        · have h2 : findCaps rest = some caps := by
            rw [findCaps_cons_eq, if_pos hc, hdrop] at h
            exact h
          obtain ⟨d, s2, p1, p2, p3, p4⟩ := ih.mp ⟨caps, h2⟩
          exact ⟨d, s2, p1, p2, p3, List.infix_cons p4⟩
        · by_cases hsign : s = '+' ∨ s = '-'
          · refine ⟨(c :: rest).takeWhile Char.isDigit, s, ?_,
              takeWhile_digits (c :: rest), hsign, [], t, ?_⟩
            · simp [List.takeWhile, hc]
            · have hpref := takeWhile_isPrefix Char.isDigit (c :: rest)
              rw [hdrop] at hpref
              simpa using hpref
          · have h2 : findCaps rest = some caps := by
              rw [findCaps_cons_eq, if_pos hc, hdrop] at h
              have h3 : (if s = '+' ∨ s = '-' then
                  some ((c :: rest).takeWhile Char.isDigit, s)
                else findCaps rest) = some caps := h
              rwa [if_neg hsign] at h3
            obtain ⟨d, s2, p1, p2, p3, p4⟩ := ih.mp ⟨caps, h2⟩
            exact ⟨d, s2, p1, p2, p3, List.infix_cons p4⟩
      · have h2 : findCaps rest = some caps := by
          rw [findCaps_cons_eq, if_neg hc] at h
          exact h
        obtain ⟨d, s2, p1, p2, p3, p4⟩ := ih.mp ⟨caps, h2⟩
        exact ⟨d, s2, p1, p2, p3, List.infix_cons p4⟩
    · rintro ⟨d, s, hd, hdig, hsign, pre, post, hsplit⟩
      by_cases hpre : pre = []
      · subst hpre
        simp only [List.nil_append] at hsplit
        cases d with
        | nil => exact absurd rfl hd
        | cons c0 d2 =>
          have hceq : c = c0 := by
            simpa using congrArg (fun l => l.headD c) hsplit.symm
          subst hceq
          have hrest : rest = d2 ++ s :: post := by
            simpa using congrArg List.tail hsplit.symm
          have hcd : c.isDigit = true := hdig c (List.mem_cons_self c d2)
          have htw : (c :: rest).takeWhile Char.isDigit = c :: d2 := by
            rw [hrest,
              show c :: (d2 ++ s :: post) = (c :: d2) ++ s :: post from rfl]
            exact takeWhile_all_append Char.isDigit (c :: d2) s post hdig
              (sign_not_digit hsign)
          have hdr : (c :: rest).drop
              ((c :: rest).takeWhile Char.isDigit).length = s :: post := by
            rw [htw, hrest,
              show c :: (d2 ++ s :: post) = (c :: d2) ++ s :: post from rfl]
            exact List.drop_left (c :: d2) (s :: post)
          refine ⟨((c :: rest).takeWhile Char.isDigit, s), ?_⟩
          rw [findCaps_cons_eq, if_pos hcd, hdr]
          exact if_pos hsign
      · obtain ⟨q, pre2, hq⟩ : ∃ q pre2, pre = q :: pre2 := by
          cases pre with
          | nil => exact absurd rfl hpre
          | cons q pre2 => exact ⟨q, pre2, rfl⟩
        subst hq
        have hrest : pre2 ++ (d ++ [s]) ++ post = rest := by
          simpa using congrArg List.tail hsplit
        obtain ⟨caps, hcaps⟩ := ih.mpr ⟨d, s, hd, hdig, hsign, pre2, post,
          hrest⟩
        rw [findCaps_cons_eq]
        by_cases hc : c.isDigit
        · rw [if_pos hc]
          rcases hdrop : (c :: rest).drop
              ((c :: rest).takeWhile Char.isDigit).length with _ | ⟨s2, t2⟩
          · exact ⟨caps, hcaps⟩
          · by_cases hsign2 : s2 = '+' ∨ s2 = '-'
            · exact ⟨((c :: rest).takeWhile Char.isDigit, s2), if_pos hsign2⟩
            · have : (if s2 = '+' ∨ s2 = '-' then
                  some ((c :: rest).takeWhile Char.isDigit, s2)
                else findCaps rest) = findCaps rest := if_neg hsign2
              exact ⟨caps, this.trans hcaps⟩
        · rw [if_neg hc]
          exact ⟨caps, hcaps⟩


/-- A token without commas splits to itself. -/
lemma splitComma_no_comma :
    ∀ tok : List Char, (∀ c ∈ tok, c ≠ ',') → splitComma tok = [tok] := by
  intro tok
  induction tok with
  | nil => intro _; rfl
  | cons c rest ih =>
    intro h
    have hc : c ≠ ',' := h c (List.mem_cons_self c rest)
    have hrest := ih (fun x hx => h x (List.mem_cons_of_mem c hx))
    unfold splitComma
    rw [if_neg hc, hrest]

/-- The sign character returned by the regex search is always `+` or `-`. -/
lemma findCaps_sign :
    ∀ (tok d : List Char) (s : Char), findCaps tok = some (d, s) →
      s = '+' ∨ s = '-' := by
  intro tok
  induction tok with
  | nil =>
    intro d s h
    exact Option.noConfusion h
  | cons c rest ih =>
    intro d s h
    rw [findCaps_cons_eq] at h
    by_cases hc : c.isDigit
    · rw [if_pos hc] at h
      rcases hdrop : (c :: rest).drop
          ((c :: rest).takeWhile Char.isDigit).length with _ | ⟨s2, t⟩
      · rw [hdrop] at h
        exact ih d s h
      · rw [hdrop] at h
        by_cases hsign : s2 = '+' ∨ s2 = '-'
        · have h3 : (if s2 = '+' ∨ s2 = '-' then
              some ((c :: rest).takeWhile Char.isDigit, s2)
            else findCaps rest) = some (d, s) := h
          rw [if_pos hsign] at h3
          injection h3 with h4
          have hseq : s2 = s := congrArg Prod.snd h4
          rw [← hseq]
          exact hsign
        · have h3 : (if s2 = '+' ∨ s2 = '-' then
              some ((c :: rest).takeWhile Char.isDigit, s2)
            else findCaps rest) = some (d, s) := h
          rw [if_neg hsign] at h3
          exact ih d s h3
    · rw [if_neg hc] at h
      exact ih d s h

/-- Evaluation of `parse_gfa_path` on a single comma-free token with no
regex match. -/
lemma parse_single_none (tok : List Char) (hs : splitComma tok = [tok])
    (hfc : findCaps tok = none) :
    parse_gfa_path tok = Except.error (make_segment_error tok) := by
  unfold parse_gfa_path
  rw [hs]
  simp only [List.mapM_cons, List.mapM_nil, hfc]
  rfl

/-- Evaluation of `parse_gfa_path` on a single comma-free token whose first
regex match has sign `+`: the result passes through the `i32` range
check. -/
lemma parse_single_plus (tok d : List Char) (hs : splitComma tok = [tok])
    (hfc : findCaps tok = some (d, '+')) :
    parse_gfa_path tok =
      (if 2147483647 < digitsVal d then
        Except.error (make_segment_error tok)
      else Except.ok [(digitsVal d : Int)]) := by
  unfold parse_gfa_path
  rw [hs]
  simp only [List.mapM_cons, List.mapM_nil, hfc]
  by_cases hover : 2147483647 < digitsVal d
  · simp only [if_pos hover]
    rfl
  · simp only [if_neg hover]
    rfl

/-- Evaluation of `parse_gfa_path` on a single comma-free token whose first
regex match has sign `-`. -/
lemma parse_single_minus (tok d : List Char) (hs : splitComma tok = [tok])
    (hfc : findCaps tok = some (d, '-')) :
    parse_gfa_path tok =
      (if 2147483647 < digitsVal d then
        Except.error (make_segment_error tok)
      else Except.ok [(-(digitsVal d : Int))]) := by
  unfold parse_gfa_path
  rw [hs]
  simp only [List.mapM_cons, List.mapM_nil, hfc]
  by_cases hover : 2147483647 < digitsVal d
  · simp only [if_pos hover]
    rfl
  · simp only [if_neg hover]
    rfl

/-- Claim C10, counterexample: the token `99999999999+` *contains* a
`<digits>[+-]` substring — the regex search finds it — and yet
`parse_gfa_path` reports a `GfaParse` error, because `parse::<i32>`
overflows on the digit run.  So the parser does **not** error only when no
such substring exists. -/
theorem parse_gfa_path_overflow_refuted :
    findCaps ("99999999999+".data) = some ("99999999999".data, '+') ∧
    parse_gfa_path ("99999999999+".data) =
      Except.error (make_segment_error ("99999999999+".data)) := by
  constructor
  · decide
  · decide

/-- Claim C10, amended: `parse_gfa_path` is permissive rather than strict —
a token that is not of the form `<digits>[+-]` as a whole but contains such
a substring (e.g. `x12+y`) parses to the value of the first embedded match
instead of reporting a `GfaParse` error; the regex search succeeds on a
token exactly when it contains a nonempty digit run immediately followed by
`+` or `-`; and a (comma-free) token errors **exactly** when no such
substring exists (e.g. `235`, missing its orientation suffix) **or** the
first match's digit run overflows `i32` (e.g. `99999999999+`). -/
theorem parse_gfa_path_permissive_amended :
    parse_gfa_path ("x12+y".data) = Except.ok [12] ∧
    parse_gfa_path ("1-,2+,3-,235".data) =
      Except.error (make_segment_error ("235".data)) ∧
    (∀ tok : List Char,
      (∃ caps, findCaps tok = some caps) ↔
      ∃ d s, d ≠ [] ∧ (∀ c ∈ d, c.isDigit = true) ∧
        (s = '+' ∨ s = '-') ∧ List.IsInfix (d ++ [s]) tok) ∧
    (∀ tok : List Char, (∀ c ∈ tok, c ≠ ',') →
      ((∃ e, parse_gfa_path tok = Except.error e) ↔
        (findCaps tok = none ∨
          ∃ d s, findCaps tok = some (d, s) ∧
            2147483647 < digitsVal d))) := by
  refine ⟨by decide, by decide, findCaps_some_iff, ?_⟩
  intro tok hnc
  have hs := splitComma_no_comma tok hnc
  rcases hfc : findCaps tok with _ | ⟨d, s⟩
  · constructor
    · intro _
      exact Or.inl rfl
    · intro _
      exact ⟨make_segment_error tok, parse_single_none tok hs hfc⟩
  · rcases findCaps_sign tok d s hfc with hsign | hsign
    · subst hsign
      by_cases hover : 2147483647 < digitsVal d
      · constructor
        · intro _
          exact Or.inr ⟨d, '+', rfl, hover⟩
        · intro _
          refine ⟨make_segment_error tok, ?_⟩
          rw [parse_single_plus tok d hs hfc, if_pos hover]
      · constructor
        · rintro ⟨e, he⟩
          rw [parse_single_plus tok d hs hfc, if_neg hover] at he
          exact Except.noConfusion he
        · rintro (hnone | ⟨d2, s2, hfc2, hover2⟩)
          · exact Option.noConfusion hnone
          · injection hfc2 with h3
            have hd2 : d = d2 := congrArg Prod.fst h3
            rw [← hd2] at hover2
            exact absurd hover2 hover
    · subst hsign
      by_cases hover : 2147483647 < digitsVal d
      · constructor
        · intro _
          exact Or.inr ⟨d, '-', rfl, hover⟩
        · intro _
          refine ⟨make_segment_error tok, ?_⟩
          rw [parse_single_minus tok d hs hfc, if_pos hover]
      · constructor
        · rintro ⟨e, he⟩
          rw [parse_single_minus tok d hs hfc, if_neg hover] at he
          exact Except.noConfusion he
        · rintro (hnone | ⟨d2, s2, hfc2, hover2⟩)
          · exact Option.noConfusion hnone
          · injection hfc2 with h3
            have hd2 : d = d2 := congrArg Prod.fst h3
            rw [← hd2] at hover2
            exact absurd hover2 hover

/-- Witness for `parse_gfa_path_permissive_amended`: its error
characterisation applied to the comma-free token `99999999999+`, whose
first match overflows `i32`. -/
theorem parse_gfa_path_permissive_amended_witness :
    (∀ c ∈ ("99999999999+".data), c ≠ ',') ∧
    ∃ e, parse_gfa_path ("99999999999+".data) = Except.error e :=
  ⟨by decide,
   (parse_gfa_path_permissive_amended.2.2.2 ("99999999999+".data)
      (by decide)).mpr
     (Or.inr ⟨"99999999999".data, '+', by decide, by decide⟩)⟩

/-! ## Claim C7, amended part: error behaviour of the banded aligner -/

lemma getD_mem {p : List Int} {i : Nat} (h : i < p.length) :
    p.getD i 0 ∈ p := by
  rw [List.getD_eq_getElem?_getD, List.getElem?_eq_getElem h]
  simpa using List.getElem_mem h

lemma ok_bind {α β : Type} (a : α)
    (f : α → Except InversionError β) : (Except.ok a >>= f) = f a := rfl

lemma error_bind {α β : Type} (e : InversionError)
    (f : α → Except InversionError β) :
    (Except.error e >>= f) = Except.error e := rfl

lemma errorToSome_ok {α β : Type} (a : α)
    (g : α → Option (Except InversionError β)) :
    errorToSome (Except.ok a) g = g a := rfl

lemma errorToSome_err {α β : Type} (e : InversionError)
    (g : α → Option (Except InversionError β)) :
    errorToSome (Except.error e) g = some (Except.error e) := rfl

lemma except_bind_error {α β : Type} (m : Except InversionError α)
    (f : α → Except InversionError β) (e : InversionError)
    (h : (m >>= f) = Except.error e) :
    m = Except.error e ∨ ∃ a, m = Except.ok a ∧ f a = Except.error e := by
  cases m with
  | error e2 =>
    left
    have h2 : (Except.error e2 : Except InversionError β) =
      Except.error e := h
    injection h2 with h3
    rw [h3]
  | ok a => exact Or.inr ⟨a, rfl, h⟩

lemma except_bind_ok {α β : Type} (m : Except InversionError α)
    (f : α → Except InversionError β) (b : β)
    (h : (m >>= f) = Except.ok b) :
    ∃ a, m = Except.ok a ∧ f a = Except.ok b := by
  cases m with
  | error e =>
    exact Except.noConfusion
      (show (Except.error e : Except InversionError β) = Except.ok b from h)
  | ok a => exact ⟨a, rfl, h⟩

lemma errorToSome_some_error {α β : Type} (m : Except InversionError α)
    (g : α → Option (Except InversionError β)) (e : InversionError)
    (h : errorToSome m g = some (Except.error e)) :
    m = Except.error e ∨ ∃ a, m = Except.ok a ∧ g a = some (Except.error e) := by
  cases m with
  | error e2 =>
    left
    have h2 : (some (Except.error e2) : Option (Except InversionError β)) =
      some (Except.error e) := h
    injection h2 with h3
    injection h3 with h4
    rw [h4]
  | ok a => exact Or.inr ⟨a, rfl, h⟩

lemma foldlM_except_ok {α β : Type} (f : β → α → Except InversionError β) :
    ∀ (l : List α) (b : β),
      (∀ b2 : β, ∀ x ∈ l, ∃ b3, f b2 x = Except.ok b3) →
      ∃ b4, l.foldlM f b = Except.ok b4 := by
  intro l
  induction l with
  | nil => intro b _; exact ⟨b, rfl⟩
  | cons x rest ih =>
    intro b h
    obtain ⟨b3, hb3⟩ := h b x (List.mem_cons_self x rest)
    obtain ⟨b4, hb4⟩ := ih b3
      (fun b2 y hy => h b2 y (List.mem_cons_of_mem x hy))
    refine ⟨b4, ?_⟩
    rw [List.foldlM_cons, hb3]
    exact hb4

lemma foldlM_except_error {α β : Type} (f : β → α → Except InversionError β) :
    ∀ (l : List α) (b : β) (x : α), x ∈ l →
      (∀ b2, ∃ e, f b2 x = Except.error e) →
      ∃ e, l.foldlM f b = Except.error e := by
  intro l
  induction l with
  | nil => intro b x hx; cases hx
  | cons y rest ih =>
    intro b x hx hf
    rcases List.mem_cons.mp hx with hx | hx
    · subst hx
      obtain ⟨e, he⟩ := hf b
      refine ⟨e, ?_⟩
      rw [List.foldlM_cons, he]
      rfl
    · cases hfb : f b y with
      | error e => exact ⟨e, by rw [List.foldlM_cons, hfb]; rfl⟩
      | ok b2 =>
        obtain ⟨e, he⟩ := ih b2 x hx hf
        exact ⟨e, by rw [List.foldlM_cons, hfb]; exact he⟩

lemma foldlM_except_error_form {α β : Type}
    (f : β → α → Except InversionError β) (P : InversionError → Prop)
    (hP : ∀ b x e, f b x = Except.error e → P e) :
    ∀ (l : List α) (b : β) (e : InversionError),
      l.foldlM f b = Except.error e → P e := by
  intro l
  induction l with
  | nil => intro b e h; exact Except.noConfusion h
  | cons y rest ih =>
    intro b e h
    rw [List.foldlM_cons] at h
    rcases except_bind_error _ _ _ h with h | ⟨b2, _, h⟩
    · exact hP b y e h
    · exact ih b2 e h

lemma foldlM_except_ok_forall {α β : Type}
    (f : β → α → Except InversionError β) :
    ∀ (l : List α) (b c : β), l.foldlM f b = Except.ok c →
      ∀ x ∈ l, ∃ b2 b3, f b2 x = Except.ok b3 := by
  intro l
  induction l with
  | nil => intro b c _ x hx; cases hx
  | cons y rest ih =>
    intro b c h x hx
    rw [List.foldlM_cons] at h
    obtain ⟨b2, hb2, h⟩ := except_bind_ok _ _ _ h
    rcases List.mem_cons.mp hx with hx | hx
    · subst hx; exact ⟨b, b2, hb2⟩
    · exact ih b2 c h x hx

lemma lookupLen_ok {sl : SegLens} {s : Int} (h : (segLen sl s).isSome)
    (payload : Int) :
    ∃ v, lookupLen sl s payload = Except.ok v ∧ segLen sl s = some v := by
  obtain ⟨v, hv⟩ := Option.isSome_iff_exists.mp h
  exact ⟨v, by simp [lookupLen, hv], hv⟩

lemma lookupLen_error {sl : SegLens} {s : Int}
    (h : ¬(segLen sl s).isSome = true) (payload : Int) :
    lookupLen sl s payload =
      Except.error (InversionError.SegmentNotFound payload) := by
  cases hv : segLen sl s with
  | none => simp [lookupLen, hv]
  | some v => exact absurd (by simp [hv]) h

lemma lookupLen_error_form {sl : SegLens} {s payload : Int}
    {e : InversionError}
    (h : lookupLen sl s payload = Except.error e) :
    e = InversionError.SegmentNotFound payload := by
  unfold lookupLen at h
  cases hv : segLen sl s with
  | none =>
    simp only [hv] at h
    injection h with h2
    rw [h2]
  | some v =>
    simp only [hv] at h
    exact Except.noConfusion h

lemma lookupLen_ok_isSome {sl : SegLens} {s payload : Int} {v : Int}
    (h : lookupLen sl s payload = Except.ok v) :
    (segLen sl s).isSome := by
  by_contra hm
  rw [lookupLen_error hm] at h
  exact Except.noConfusion h

lemma initRow0Step_ok (sl : SegLens) (p1 p2 : List Int) (k : Nat)
    (hk : k + 1 < p2.length) (hcov : covers sl p2) (st : List Int × TbMap) :
    ∃ st2, initRow0Step sl p1 p2 st k = Except.ok st2 := by
  obtain ⟨v, hv, _⟩ := lookupLen_ok (hcov _ (getD_mem hk))
    ((p2.getD (k + 1) 0).natAbs : Int)
  exact ⟨_, by simp only [initRow0Step, hv]; rfl⟩

lemma initRow0Step_error_form (sl : SegLens) (p1 p2 : List Int)
    (st : List Int × TbMap) (k : Nat) (e : InversionError)
    (h : initRow0Step sl p1 p2 st k = Except.error e) :
    ∃ s, e = InversionError.SegmentNotFound s := by
  unfold initRow0Step at h
  rcases except_bind_error _ _ _ h with h | ⟨lj, _, h⟩
  · exact ⟨_, lookupLen_error_form h⟩
  · exact Except.noConfusion h

lemma initRow0Step_ok_isSome (sl : SegLens) (p1 p2 : List Int)
    (st st2 : List Int × TbMap) (k : Nat)
    (h : initRow0Step sl p1 p2 st k = Except.ok st2) :
    (segLen sl (p2.getD (k + 1) 0)).isSome := by
  unfold initRow0Step at h
  obtain ⟨lj, hlj, _⟩ := except_bind_ok _ _ _ h
  exact lookupLen_ok_isSome hlj

lemma initRow0Step_error_always (sl : SegLens) (p1 p2 : List Int) (k : Nat)
    (h : ¬(segLen sl (p2.getD (k + 1) 0)).isSome = true)
    (st : List Int × TbMap) :
    ∃ e, initRow0Step sl p1 p2 st k = Except.error e := by
  refine ⟨InversionError.SegmentNotFound ((p2.getD (k + 1) 0).natAbs : Int),
    ?_⟩
  simp only [initRow0Step, lookupLen_error h, error_bind]

lemma lowmemCorner_ok (sl : SegLens) (p1 p2 : List Int)
    (h1 : p1 ≠ []) (h2 : p2 ≠ [])
    (hc1 : covers sl p1) (hc2 : covers sl p2) :
    ∃ v, lowmemCorner sl p1 p2 = Except.ok v := by
  have m1 : (segLen sl (p1.getD 0 0)).isSome :=
    hc1 _ (getD_mem (List.length_pos.mpr h1))
  have m2 : (segLen sl (p2.getD 0 0)).isSome :=
    hc2 _ (getD_mem (List.length_pos.mpr h2))
  obtain ⟨v1, hv1, _⟩ := lookupLen_ok m1 ((p1.getD 0 0).natAbs : Int)
  obtain ⟨v2, hv2, _⟩ := lookupLen_ok m2 ((p2.getD 0 0).natAbs : Int)
  unfold lowmemCorner
  by_cases he : p1.getD 0 0 = p2.getD 0 0
  · rw [if_pos he]; exact ⟨v1, hv1⟩
  · rw [if_neg he]
    exact ⟨-(v1 + v2), by simp only [hv1, hv2, ok_bind]; rfl⟩

lemma lowmemCorner_error_form (sl : SegLens) (p1 p2 : List Int)
    (e : InversionError)
    (h : lowmemCorner sl p1 p2 = Except.error e) :
    ∃ s, e = InversionError.SegmentNotFound s := by
  unfold lowmemCorner at h
  split_ifs at h
  · exact ⟨_, lookupLen_error_form h⟩
  · rcases except_bind_error _ _ _ h with h | ⟨v1, _, h⟩
    · exact ⟨_, lookupLen_error_form h⟩
    · rcases except_bind_error _ _ _ h with h | ⟨v2, _, h⟩
      · exact ⟨_, lookupLen_error_form h⟩
      · exact Except.noConfusion h

lemma lowmemCorner_ok_isSome (sl : SegLens) (p1 p2 : List Int) (v : Int)
    (h : lowmemCorner sl p1 p2 = Except.ok v) :
    (segLen sl (p1.getD 0 0)).isSome ∧ (segLen sl (p2.getD 0 0)).isSome := by
  unfold lowmemCorner at h
  split_ifs at h with he
  · have h1 := lookupLen_ok_isSome h
    refine ⟨h1, ?_⟩
    rw [← he]
    exact h1
  · obtain ⟨v1, hv1, h⟩ := except_bind_ok _ _ _ h
    obtain ⟨v2, hv2, _⟩ := except_bind_ok _ _ _ h
    exact ⟨lookupLen_ok_isSome hv1, lookupLen_ok_isSome hv2⟩

lemma initialize_ok (sl : SegLens) (p1 p2 : List Int)
    (h1 : p1 ≠ []) (h2 : p2 ≠ [])
    (hc1 : covers sl p1) (hc2 : covers sl p2) :
    ∃ v, initialize_matrices_lowmem sl p1 p2 = Except.ok v := by
  obtain ⟨cv, hcv⟩ := lowmemCorner_ok sl p1 p2 h1 h2 hc1 hc2
  obtain ⟨stv, hstv⟩ := foldlM_except_ok (initRow0Step sl p1 p2)
    (List.range (p2.length - 1)) ([cv], ([] : TbMap))
    (fun b2 x hx =>
      initRow0Step_ok sl p1 p2 x
        (by have := List.mem_range.mp hx; omega) hc2 b2)
  exact ⟨_, by
    simp only [initialize_matrices_lowmem, hcv, ok_bind, hstv]; rfl⟩

lemma initialize_decomp (sl : SegLens) (p1 p2 : List Int)
    (v : List Int × TbMap × Int × (Nat × Nat))
    (h : initialize_matrices_lowmem sl p1 p2 = Except.ok v) :
    (∃ cv, lowmemCorner sl p1 p2 = Except.ok cv ∧
      ∃ stv, (List.range (p2.length - 1)).foldlM (initRow0Step sl p1 p2)
        ([cv], ([] : TbMap)) = Except.ok stv) := by
  unfold initialize_matrices_lowmem at h
  obtain ⟨cv, hcv, h⟩ := except_bind_ok _ _ _ h
  obtain ⟨stv, hstv, _⟩ := except_bind_ok _ _ _ h
  exact ⟨cv, hcv, stv, hstv⟩

lemma initialize_error_form (sl : SegLens) (p1 p2 : List Int)
    (e : InversionError)
    (h : initialize_matrices_lowmem sl p1 p2 = Except.error e) :
    ∃ s, e = InversionError.SegmentNotFound s := by
  unfold initialize_matrices_lowmem at h
  rcases except_bind_error _ _ _ h with h | ⟨cv, _, h⟩
  · exact lowmemCorner_error_form sl p1 p2 e h
  · rcases except_bind_error _ _ _ h with h | ⟨st, _, h⟩
    · exact foldlM_except_error_form _ _
        (fun b x e2 h2 => initRow0Step_error_form sl p1 p2 b x e2 h2)
        _ _ _ h
    · exact Except.noConfusion h

lemma lowmemCellStep_ok (sl : SegLens) (p1 p2 : List Int)
    (prevRow : List Int) (i : Nat) (lenI : Int) (mrd mcd : Nat) (k2 : Nat)
    (hk : k2 + 1 < p2.length) (hcov : covers sl p2)
    (rst : List Int × TbMap) :
    ∃ r2, lowmemCellStep sl p1 p2 prevRow i lenI mrd mcd rst k2 =
      Except.ok r2 := by
  obtain ⟨v, hv, _⟩ := lookupLen_ok (hcov _ (getD_mem hk))
    (p2.getD (k2 + 1) 0)
  by_cases hb : (k2 + 1 < i ∧ mrd < i - (k2 + 1)) ∨
      (i < k2 + 1 ∧ mcd < (k2 + 1) - i)
  · exact ⟨_, by simp only [lowmemCellStep, hv, ok_bind, if_pos hb]; rfl⟩
  · exact ⟨_, by simp only [lowmemCellStep, hv, ok_bind, if_neg hb]; rfl⟩

lemma lowmemCellStep_error_form (sl : SegLens) (p1 p2 : List Int)
    (prevRow : List Int) (i : Nat) (lenI : Int) (mrd mcd : Nat)
    (rst : List Int × TbMap) (k2 : Nat) (e : InversionError)
    (h : lowmemCellStep sl p1 p2 prevRow i lenI mrd mcd rst k2 =
      Except.error e) :
    ∃ s, e = InversionError.SegmentNotFound s := by
  unfold lowmemCellStep at h
  rcases except_bind_error _ _ _ h with h | ⟨lj, _, h⟩
  · exact ⟨_, lookupLen_error_form h⟩
  · split_ifs at h <;> exact Except.noConfusion h

lemma lowmemRowStep_ok (sl : SegLens) (p1 p2 : List Int) (mrd mcd : Nat)
    (k : Nat) (hk : k + 1 < p1.length)
    (hc1 : covers sl p1) (hc2 : covers sl p2) (st : LowmemState) :
    ∃ st2, lowmemRowStep sl p1 p2 mrd mcd st k = Except.ok st2 := by
  obtain ⟨v, hv, _⟩ := lookupLen_ok (hc1 _ (getD_mem hk))
    (p1.getD (k + 1) 0)
  obtain ⟨rs, hrs⟩ := foldlM_except_ok
    (lowmemCellStep sl p1 p2 st.prevRow (k + 1) v mrd mcd)
    (List.range (p2.length - 1))
    ([amax [0, -1, st.prevRow.headD 0, -1] +
        (if p1.getD (k + 1) 0 = p2.getD 0 0 then v else -v)],
     if argmax [0, -1, st.prevRow.headD 0, -1] ≠ 0 then
       tbInsert st.tb (k + 1, 0) (argmax [0, -1, st.prevRow.headD 0, -1])
     else st.tb)
    (fun b2 x hx =>
      lowmemCellStep_ok sl p1 p2 st.prevRow (k + 1) v mrd mcd x
        (by have := List.mem_range.mp hx; omega) hc2 b2)
  exact ⟨_, by simp only [lowmemRowStep, hv, ok_bind, hrs]; rfl⟩

lemma lowmemRowStep_error_form (sl : SegLens) (p1 p2 : List Int)
    (mrd mcd : Nat) (st : LowmemState) (k : Nat) (e : InversionError)
    (h : lowmemRowStep sl p1 p2 mrd mcd st k = Except.error e) :
    ∃ s, e = InversionError.SegmentNotFound s := by
  unfold lowmemRowStep at h
  rcases except_bind_error _ _ _ h with h | ⟨tc, _, h⟩
  · exact ⟨_, lookupLen_error_form h⟩
  · rcases except_bind_error _ _ _ h with h | ⟨li, _, h⟩
    · exact ⟨_, lookupLen_error_form h⟩
    · rcases except_bind_error _ _ _ h with h | ⟨rs, _, h⟩
      · exact foldlM_except_error_form _ _
          (fun b x e2 h2 =>
            lowmemCellStep_error_form sl p1 p2 _ _ _ _ _ b x e2 h2)
          _ _ _ h
      · exact Except.noConfusion h

lemma lowmemRowStep_error_always (sl : SegLens) (p1 p2 : List Int)
    (mrd mcd : Nat) (k : Nat)
    (h : ¬(segLen sl (p1.getD (k + 1) 0)).isSome = true)
    (st : LowmemState) :
    ∃ e, lowmemRowStep sl p1 p2 mrd mcd st k = Except.error e := by
  refine ⟨InversionError.SegmentNotFound (p1.getD (k + 1) 0), ?_⟩
  simp only [lowmemRowStep, lookupLen_error h, error_bind]

lemma lowmemFinish_not_error (p1 p2 : List Int) (st : LowmemState)
    (e : InversionError) :
    lowmemFinish p1 p2 st ≠ some (Except.error e) := by
  unfold lowmemFinish
  cases tracebackWalk p1 p2 (fun i j => (tbGet st.tb (i, j)).getD 0)
      (st.argmaxScore.1 + st.argmaxScore.2 + 1)
      st.argmaxScore.1 st.argmaxScore.2 [] [] with
  | none => simp
  | some w => simp

/-- Claim C7, amended: the **banded** aligner propagates `SegmentNotFound`:
on nonempty inputs it never returns an error when the length map covers
both paths, and returns `SegmentNotFound` whenever some segment of either
path lacks an entry; the **full-matrix** aligner of src/align.rs instead
aborts (panics via `unwrap`, modelled `none`) on a missing entry. -/
theorem lowmem_segment_not_found :
    (∀ (sl : SegLens) (p1 p2 : List Int) (drop : Nat),
      p1 ≠ [] → p2 ≠ [] → covers sl p1 → covers sl p2 →
      ∀ e, align_paths_subproblem_lowmem sl p1 p2 drop ≠
        some (Except.error e)) ∧
    (∀ (sl : SegLens) (p1 p2 : List Int) (drop : Nat),
      p1 ≠ [] → p2 ≠ [] → ¬(covers sl p1 ∧ covers sl p2) →
      ∃ s, align_paths_subproblem_lowmem sl p1 p2 drop =
        some (Except.error (InversionError.SegmentNotFound s))) ∧
    align_paths_subproblem (mapOf []) [1] [1] = none := by
  refine ⟨?_, ?_, by decide⟩
  · intro sl p1 p2 drop h1 h2 hc1 hc2 e hcontra
    rcases errorToSome_some_error _ _ _ hcontra with hbad | ⟨v, hv, hcontra⟩
    · obtain ⟨w, hw⟩ := initialize_ok sl p1 p2 h1 h2 hc1 hc2
      rw [hw] at hbad
      exact Except.noConfusion hbad
    · rcases errorToSome_some_error _ _ _ hcontra with hbad | ⟨st, _, hcontra⟩
      · obtain ⟨st2, hst2⟩ := foldlM_except_ok
          (lowmemRowStep sl p1 p2 (lowmemDrops p1 p2 drop).1
            (lowmemDrops p1 p2 drop).2)
          (List.range (p1.length - 1)) ⟨v.1, v.2.1, v.2.2.1, v.2.2.2⟩
          (fun b2 x hx =>
            lowmemRowStep_ok sl p1 p2 _ _ x
              (by have := List.mem_range.mp hx; omega) hc1 hc2 b2)
        unfold lowmemRows at hbad
        rw [hst2] at hbad
        exact Except.noConfusion hbad
      · exact lowmemFinish_not_error p1 p2 st e hcontra
  · intro sl p1 p2 drop h1 h2 hnc
    cases hinit : initialize_matrices_lowmem sl p1 p2 with
    | error e =>
      obtain ⟨s, hs⟩ := initialize_error_form sl p1 p2 e hinit
      refine ⟨s, ?_⟩
      unfold align_paths_subproblem_lowmem
      rw [hinit, ← hs]
      rfl
    | ok v =>
      obtain ⟨cv, hcv, stv, hstv⟩ := initialize_decomp sl p1 p2 v hinit
      have hp10 : (segLen sl (p1.getD 0 0)).isSome :=
        (lowmemCorner_ok_isSome sl p1 p2 cv hcv).1
      have hp20 : (segLen sl (p2.getD 0 0)).isSome :=
        (lowmemCorner_ok_isSome sl p1 p2 cv hcv).2
      have hp2j : ∀ j, j < p2.length → (segLen sl (p2.getD j 0)).isSome := by
        intro j hj
        cases j with
        | zero => exact hp20
        | succ j =>
          obtain ⟨b2, b3, hb⟩ := foldlM_except_ok_forall _ _ _ _ hstv j
            (List.mem_range.mpr (by omega))
          exact initRow0Step_ok_isSome sl p1 p2 b2 b3 j hb
      have hc2 : covers sl p2 := by
        intro s hs
        obtain ⟨j, hj, hgj⟩ := List.mem_iff_getElem.mp hs
        have : p2.getD j 0 = s := by
          rw [List.getD_eq_getElem?_getD, List.getElem?_eq_getElem hj]
          simpa using hgj
        rw [← this]
        exact hp2j j hj
      have hnc1 : ¬ covers sl p1 := by
        intro hcc
        exact hnc ⟨hcc, hc2⟩
      obtain ⟨s, hsmem, hsmiss⟩ : ∃ s ∈ p1, ¬(segLen sl s).isSome = true := by
        by_contra hno
        push_neg at hno
        exact hnc1 (fun s hs => hno s hs)
      obtain ⟨i, hi, hgi⟩ := List.mem_iff_getElem.mp hsmem
      have hgd : p1.getD i 0 = s := by
        rw [List.getD_eq_getElem?_getD, List.getElem?_eq_getElem hi]
        simpa using hgi
      have hipos : i ≠ 0 := by
        intro h0
        subst h0
        rw [hgd] at hp10
        exact hsmiss hp10
      obtain ⟨e2, he2⟩ := foldlM_except_error
        (lowmemRowStep sl p1 p2 (lowmemDrops p1 p2 drop).1
          (lowmemDrops p1 p2 drop).2)
        (List.range (p1.length - 1)) ⟨v.1, v.2.1, v.2.2.1, v.2.2.2⟩
        (i - 1) (List.mem_range.mpr (by omega))
        (fun b2 =>
          lowmemRowStep_error_always sl p1 p2 _ _ (i - 1)
            (by
              have : i - 1 + 1 = i := by omega
              rw [this, hgd]
              exact hsmiss) b2)
      obtain ⟨s2, hs2⟩ := foldlM_except_error_form _ _
        (fun b x e3 h3 => lowmemRowStep_error_form sl p1 p2 _ _ b x e3 h3)
        _ _ _ he2
      refine ⟨s2, ?_⟩
      unfold align_paths_subproblem_lowmem
      rw [hinit, errorToSome_ok]
      unfold lowmemRows
      rw [he2, hs2]
      rfl

/-- Witness for `lowmem_segment_not_found`: its second part applied to
`p1 = p2 = [1]` with an empty length map. -/
theorem lowmem_segment_not_found_witness :
    (([(1 : Int)] : List Int) ≠ [] ∧
      ¬(covers (mapOf []) [1] ∧ covers (mapOf []) [1])) ∧
    ∃ s, align_paths_subproblem_lowmem (mapOf []) [1] [1] 1 =
      some (Except.error (InversionError.SegmentNotFound s)) :=
  ⟨⟨by decide, by decide⟩,
   lowmem_segment_not_found.2.1 (mapOf []) [1] [1] 1 (by decide) (by decide)
     (by decide)⟩

/-! ## Claim C8, amended part: the traceback only moves towards the start -/

lemma option_bind_some {α β : Type} (m : Option α) (f : α → Option β)
    (b : β) (h : (m >>= f) = some b) :
    ∃ a, m = some a ∧ f a = some b := by
  cases m with
  | none => exact Option.noConfusion h
  | some a => exact ⟨a, rfl, h⟩

lemma errorToSome_some_ok {α β : Type} (m : Except InversionError α)
    (g : α → Option (Except InversionError β)) (b : β)
    (h : errorToSome m g = some (Except.ok b)) :
    ∃ a, m = Except.ok a ∧ g a = some (Except.ok b) := by
  cases m with
  | error e =>
    have h2 : (some (Except.error e) : Option (Except InversionError β)) =
      some (Except.ok b) := h
    injection h2 with h3
    exact Except.noConfusion h3
  | ok a => exact ⟨a, rfl, h⟩

/-- Along a traceback walk the row index never increases, so the row where
the walk stops is at most the row where it starts. -/
lemma tracebackWalk_start_le (p1 p2 : List Int) (tb : Nat → Nat → Nat) :
    ∀ (fuel i j : Nat) (a1 a2 : List Int)
      (r : List Int × List Int × Nat),
      tracebackWalk p1 p2 tb fuel i j a1 a2 = some r → r.2.2 ≤ i := by
  intro fuel
  induction fuel with
  | zero => intro i j a1 a2 r h; exact Option.noConfusion h
  | succ fuel ih =>
    intro i j a1 a2 r h
    simp only [tracebackWalk] at h
    split_ifs at h <;>
      first
        | exact Option.noConfusion h
        | (injection h with h2; rw [← h2])
        | exact le_trans (ih _ _ _ _ _ h) (Nat.sub_le i 1)
        | exact ih _ _ _ _ _ h

lemma align_paths_subproblem_start_le (sl : SegLens) (p1 p2 : List Int)
    (al : Alignment) (h : align_paths_subproblem sl p1 p2 = some al) :
    al.path1_start_index ≤ al.path1_end_index := by
  unfold align_paths_subproblem at h
  obtain ⟨mat, hmat, h⟩ := option_bind_some _ _ _ h
  obtain ⟨w, hw, h⟩ := option_bind_some _ _ _ h
  have h2 : (⟨w.1, w.2.1, (w.2.2 : Int),
      (((matrixArgmax (mat.map (fun r => r.map Prod.fst))).1 : Nat) : Int)⟩ :
      Alignment) = al := by
    injection h
  rw [← h2]
  exact Int.ofNat_le.mpr (tracebackWalk_start_le p1 p2 _ _ _ _ _ _ _ hw)

lemma lowmem_start_le (sl : SegLens) (p1 p2 : List Int) (drop : Nat)
    (al : Alignment)
    (h : align_paths_subproblem_lowmem sl p1 p2 drop =
      some (Except.ok al)) :
    al.path1_start_index ≤ al.path1_end_index := by
  obtain ⟨v, hv, h⟩ := errorToSome_some_ok _ _ _ h
  obtain ⟨st, hst, h⟩ := errorToSome_some_ok _ _ _ h
  unfold lowmemFinish at h
  obtain ⟨w, hw, hmap⟩ := Option.map_eq_some'.mp h
  have h2 : (⟨w.1, w.2.1, (w.2.2 : Int), (st.argmaxScore.1 : Int)⟩ :
      Alignment) = al := by
    injection hmap
  rw [← h2]
  exact Int.ofNat_le.mpr (tracebackWalk_start_le p1 p2 _ _ _ _ _ _ _ hw)

lemma dispatch_start_le (sl : SegLens) (sub1 sub2 : List Int)
    (maxH maxDrop maxP : Nat) (al : Alignment)
    (h : dispatchAlignment sl sub1 sub2 maxH maxDrop maxP =
      some (some al)) :
    al.path1_start_index ≤ al.path1_end_index := by
  unfold dispatchAlignment at h
  split_ifs at h with h1 h2
  · obtain ⟨a2, ha2, he⟩ := Option.map_eq_some'.mp h
    injection he with he2
    rw [← he2]
    exact align_paths_subproblem_start_le sl sub1 sub2 a2 ha2
  · cases hlm : align_paths_subproblem_lowmem sl sub1 sub2 maxDrop with
    | none =>
      rw [hlm] at h
      exact Option.noConfusion h
    | some r =>
      cases r with
      | error e =>
        rw [hlm] at h
        exact Option.noConfusion
          (show (none : Option (Option Alignment)) = some (some al) from h)
      | ok a =>
        rw [hlm] at h
        have h3 : (some (some a) : Option (Option Alignment)) =
          some (some al) := h
        injection h3 with h4
        injection h4 with h5
        rw [← h5]
        exact lowmem_start_le sl sub1 sub2 maxDrop a hlm
  · injection h with h2
    exact Option.noConfusion h2

lemma foldlM_option_inv {α β : Type} (f : β → α → Option β) (P : β → Prop)
    (hstep : ∀ b a b2, P b → f b a = some b2 → P b2) :
    ∀ (l : List α) (b c : β), P b → l.foldlM f b = some c → P c := by
  intro l
  induction l with
  | nil =>
    intro b c hP h
    have h2 : (some b : Option β) = some c := h
    injection h2 with h3
    rw [← h3]
    exact hP
  | cons x rest ih =>
    intro b c hP h
    rw [List.foldlM_cons] at h
    obtain ⟨b2, hb2, h⟩ := option_bind_some _ _ _ h
    exact ih b2 c (hstep b x b2 hP hb2) h

lemma driverStep_start_le (sl : SegLens)
    (p1 p2r conflicting common : List Int) (maxH maxDrop maxP : Nat)
    (st : DriverState) (idx : Nat) (st2 : DriverState)
    (h : driverStep sl p1 p2r conflicting common maxH maxDrop maxP st idx =
      some st2)
    (hP : ∀ al ∈ st.alignments,
      al.path1_start_index ≤ al.path1_end_index) :
    ∀ al ∈ st2.alignments,
      al.path1_start_index ≤ al.path1_end_index := by
  simp only [driverStep] at h
  split_ifs at h with hcond
  · obtain ⟨jdx, hjdx, h⟩ := option_bind_some _ _ _ h
    obtain ⟨alOpt, halOpt, hmap⟩ := Option.map_eq_some'.mp h
    cases alOpt with
    | none =>
      have h2 : st = st2 := hmap
      rw [← h2]
      exact hP
    | some al =>
      have h2 : driverAccept st idx al = st2 := hmap
      rw [← h2]
      intro a ha
      unfold driverAccept at ha
      simp only [List.mem_append, List.mem_singleton] at ha
      rcases ha with ha | ha
      · exact hP a ha
      · rw [ha]
        exact add_le_add_left
          (dispatch_start_le sl _ _ maxH maxDrop maxP al halOpt) _
  · have h2 : st = st2 := by injection h
    rw [← h2]
    exact hP

/-- Claim C8, amended: alignments are emitted in the order their
subproblems are enumerated, but the `path1_start_index` sequence across
successive alignments is **not** necessarily nondecreasing (it can
decrease, see the counterexample).  What does hold for every alignment of
every `align_paths` result is that its own indices are ordered:
`path1_start_index ≤ path1_end_index`. -/
theorem align_paths_start_le_end :
    ∀ (sl : SegLens) (p1 p2 : List Int) (maxH maxDrop maxP : Nat)
      (als : List Alignment),
      align_paths sl p1 p2 maxH maxDrop maxP = some als →
      ∀ al ∈ als, al.path1_start_index ≤ al.path1_end_index := by
  intro sl p1 p2 maxH maxDrop maxP als h
  unfold align_paths at h
  obtain ⟨stf, hstf, h2⟩ := Option.map_eq_some'.mp h
  rw [← h2]
  exact foldlM_option_inv _
    (fun st => ∀ al ∈ st.alignments,
      al.path1_start_index ≤ al.path1_end_index)
    (fun b a b2 hP hs =>
      driverStep_start_le sl p1 _ _ _ maxH maxDrop maxP b a b2 hs hP)
    _ _ _ (fun al hal => absurd hal (List.not_mem_nil al)) hstf

/-- Witness for `align_paths_start_le_end`: applied to the Scenario A run
with the repository test lengths. -/
theorem align_paths_start_le_end_witness :
    (align_paths slTest [1, 2, 3, 4, 5, 6] [1, -5, -7, -2, 6]
        10000 1000 100000 = some [⟨[2, 3, 4, 5], [-5, -7, -2], 1, 4⟩]) ∧
    (⟨[2, 3, 4, 5], [-5, -7, -2], 1, 4⟩ : Alignment).path1_start_index ≤
      (⟨[2, 3, 4, 5], [-5, -7, -2], 1, 4⟩ : Alignment).path1_end_index :=
  ⟨by decide,
   align_paths_start_le_end slTest [1, 2, 3, 4, 5, 6] [1, -5, -7, -2, 6]
     10000 1000 100000 [⟨[2, 3, 4, 5], [-5, -7, -2], 1, 4⟩] (by decide)
     ⟨[2, 3, 4, 5], [-5, -7, -2], 1, 4⟩ (by decide)⟩

/-! ## Claim C4: generic fold invariants and matrix dimensions -/

lemma getD_mem_of_lt {α : Type} {p : List α} {i : Nat} (d : α)
    (h : i < p.length) : p.getD i d ∈ p := by
  rw [List.getD_eq_getElem?_getD, List.getElem?_eq_getElem h]
  simpa using List.getElem_mem h

lemma foldl_inv {α β : Type} (f : β → α → β) (P : β → Prop) :
    ∀ (l : List α) (b : β), P b →
      (∀ b2 a, a ∈ l → P b2 → P (f b2 a)) → P (l.foldl f b) := by
  intro l
  induction l with
  | nil => intro b hb _; exact hb
  | cons x rest ih =>
    intro b hb hf
    exact ih (f b x) (hf b x (List.mem_cons_self x rest) hb)
      (fun b2 a ha => hf b2 a (List.mem_cons_of_mem x ha))

lemma foldlM_option_grow {α β : Type} (f : β → α → Option β)
    (len : β → Nat)
    (hf : ∀ b a b2, f b a = some b2 → len b2 = len b + 1) :
    ∀ (l : List α) (b c : β), l.foldlM f b = some c →
      len c = len b + l.length := by
  intro l
  induction l with
  | nil =>
    intro b c h
    have h2 : (some b : Option β) = some c := h
    injection h2 with h3
    rw [← h3]
    simp
  | cons x rest ih =>
    intro b c h
    rw [List.foldlM_cons] at h
    obtain ⟨b2, hb2, h⟩ := option_bind_some _ _ _ h
    rw [ih b2 c h, hf b x b2 hb2, List.length_cons]
    omega

lemma foldlM_except_grow {α β : Type}
    (f : β → α → Except InversionError β) (len : β → Nat)
    (hf : ∀ b a b2, f b a = Except.ok b2 → len b2 = len b + 1) :
    ∀ (l : List α) (b c : β), l.foldlM f b = Except.ok c →
      len c = len b + l.length := by
  intro l
  induction l with
  | nil =>
    intro b c h
    have h2 : (Except.ok b : Except InversionError β) = Except.ok c := h
    injection h2 with h3
    rw [← h3]
    simp
  | cons x rest ih =>
    intro b c h
    rw [List.foldlM_cons] at h
    obtain ⟨b2, hb2, h⟩ := except_bind_ok _ _ _ h
    rw [ih b2 c h, hf b x b2 hb2, List.length_cons]
    omega

lemma foldlM_except_inv {α β : Type}
    (f : β → α → Except InversionError β) (P : β → Prop) :
    ∀ (l : List α) (b c : β),
      (∀ b2 a b3, a ∈ l → P b2 → f b2 a = Except.ok b3 → P b3) →
      P b → l.foldlM f b = Except.ok c → P c := by
  intro l
  induction l with
  | nil =>
    intro b c _ hb h
    have h2 : (Except.ok b : Except InversionError β) = Except.ok c := h
    injection h2 with h3
    rw [← h3]
    exact hb
  | cons x rest ih =>
    intro b c hstep hb h
    rw [List.foldlM_cons] at h
    obtain ⟨b2, hb2, h⟩ := except_bind_ok _ _ _ h
    exact ih b2 c
      (fun b3 a b4 ha => hstep b3 a b4 (List.mem_cons_of_mem x ha))
      (hstep b x b2 (List.mem_cons_self x rest) hb hb2) h

lemma maxArgmaxAux_idx_bound (a : List Int) :
    ∀ (k : Nat) (g : Int) (j : Nat),
      (maxArgmaxAux a k (g, j)).2 = j ∨
      (k ≤ (maxArgmaxAux a k (g, j)).2 ∧
        (maxArgmaxAux a k (g, j)).2 < k + a.length) := by
  induction a with
  | nil => intro k g j; exact Or.inl rfl
  | cons x rest ih =>
    intro k g j
    simp only [maxArgmaxAux]
    by_cases hx : g < x
    · rw [if_pos hx]
      rcases ih (k + 1) x k with h | h
      · right
        rw [h]
        simp only [List.length_cons]
        omega
      · right
        simp only [List.length_cons]
        omega
    · rw [if_neg hx]
      rcases ih (k + 1) g j with h | h
      · exact Or.inl h
      · right
        simp only [List.length_cons]
        omega

lemma max_and_argmax_idx_lt (a : List Int) (h : a ≠ []) :
    (max_and_argmax a).2 < a.length := by
  rw [max_and_argmax_eq a h]
  exact fidx_lt_length (amax_mem a h)

lemma matrixArgmax_range (rows : List (List Int)) (m : Nat)
    (hn : rows ≠ []) (hm : 0 < m)
    (hrows : ∀ r ∈ rows, r.length = m) :
    (matrixArgmax rows).1 < rows.length ∧ (matrixArgmax rows).2 < m := by
  unfold matrixArgmax
  have := foldl_inv
    (fun (st : Int × Nat × Nat) i =>
      let b := maxArgmaxAux (rows.getD i []) 0 (st.1, 0)
      if st.1 < b.1 then (b.1, i, b.2) else st)
    (fun st => st.2.1 < rows.length ∧ st.2.2 < m)
    (List.range rows.length)
    ((rows.headD []).headD 0, 0, 0)
    ⟨List.length_pos.mpr hn, hm⟩
    ?_
  · exact this
  · intro st i hi hP
    simp only []
    by_cases hup : st.1 < (maxArgmaxAux (rows.getD i []) 0 (st.1, 0)).1
    · rw [if_pos hup]
      refine ⟨List.mem_range.mp hi, ?_⟩
      show (maxArgmaxAux (rows.getD i []) 0 (st.1, 0)).2 < m
      rcases maxArgmaxAux_idx_bound (rows.getD i []) 0 st.1 0 with h | h
      · rw [h]; exact hm
      · have hlen : (rows.getD i []).length = m :=
          hrows _ (getD_mem_of_lt [] (List.mem_range.mp hi))
        omega
    · rw [if_neg hup]
      exact hP

lemma col0Step_grow (sl : SegLens) (p1 p2 : List Int)
    (acc : List (Int × Nat)) (k : Nat) (b2 : List (Int × Nat))
    (h : col0Step sl p1 p2 acc k = some b2) :
    b2.length = acc.length + 1 := by
  unfold col0Step at h
  obtain ⟨c, hc, h⟩ := option_bind_some _ _ _ h
  have h2 : (c :: acc : List (Int × Nat)) = b2 := by injection h
  rw [← h2, List.length_cons]

lemma row0Step_grow (sl : SegLens) (p1 p2 : List Int)
    (acc : List (Int × Nat)) (k : Nat) (b2 : List (Int × Nat))
    (h : row0Step sl p1 p2 acc k = some b2) :
    b2.length = acc.length + 1 := by
  unfold row0Step at h
  obtain ⟨c, hc, h⟩ := option_bind_some _ _ _ h
  have h2 : (c :: acc : List (Int × Nat)) = b2 := by injection h
  rw [← h2, List.length_cons]

lemma create_matrices_dims (sl : SegLens) (p1 p2 : List Int)
    (h1 : p1 ≠ []) (h2 : p2 ≠ [])
    (r0 c0 : List (Int × Nat))
    (h : create_matrices sl p1 p2 = some (r0, c0)) :
    r0.length = p2.length ∧ c0.length = p1.length := by
  unfold create_matrices at h
  obtain ⟨corner, hcorner, h⟩ := option_bind_some _ _ _ h
  obtain ⟨colRev, hcol, h⟩ := option_bind_some _ _ _ h
  obtain ⟨rowRev, hrow, h⟩ := option_bind_some _ _ _ h
  have h3 : ((rowRev.reverse, colRev.reverse) :
      List (Int × Nat) × List (Int × Nat)) = (r0, c0) := by injection h
  have hcl := foldlM_option_grow (col0Step sl p1 p2) List.length
    (col0Step_grow sl p1 p2) _ _ _ hcol
  have hrl := foldlM_option_grow (row0Step sl p1 p2) List.length
    (row0Step_grow sl p1 p2) _ _ _ hrow
  simp only [List.length_cons, List.length_nil, List.length_range] at hcl hrl
  have e1 : r0 = rowRev.reverse := by
    have := congrArg Prod.fst h3
    simpa using this.symm
  have e2 : c0 = colRev.reverse := by
    have := congrArg Prod.snd h3
    simpa using this.symm
  have hp1 : 0 < p1.length := List.length_pos.mpr h1
  have hp2 : 0 < p2.length := List.length_pos.mpr h2
  constructor
  · rw [e1, List.length_reverse, hrl]; omega
  · rw [e2, List.length_reverse, hcl]; omega

lemma fullCellStep_grow (sl : SegLens) (p1 p2 : List Int) (i : Nat)
    (prevRow : List (Int × Nat)) (acc : List (Int × Nat)) (k : Nat)
    (b2 : List (Int × Nat))
    (h : fullCellStep sl p1 p2 i prevRow acc k = some b2) :
    b2.length = acc.length + 1 := by
  unfold fullCellStep at h
  obtain ⟨c, hc, h⟩ := option_bind_some _ _ _ h
  have h2 : (c :: acc : List (Int × Nat)) = b2 := by injection h
  rw [← h2, List.length_cons]

lemma buildRow_length (sl : SegLens) (p1 p2 : List Int) (i : Nat)
    (c0 : Int × Nat) (prevRow : List (Int × Nat)) (row : List (Int × Nat))
    (h2 : p2 ≠ [])
    (h : buildRow sl p1 p2 i c0 prevRow = some row) :
    row.length = p2.length := by
  unfold buildRow at h
  obtain ⟨cellsRev, hcells, h⟩ := option_bind_some _ _ _ h
  have h3 : cellsRev.reverse = row := by injection h
  have hg := foldlM_option_grow (fullCellStep sl p1 p2 i prevRow)
    List.length (fullCellStep_grow sl p1 p2 i prevRow) _ _ _ hcells
  simp only [List.length_cons, List.length_nil, List.length_range] at hg
  have hp2 : 0 < p2.length := List.length_pos.mpr h2
  rw [← h3, List.length_reverse, hg]
  omega

lemma buildMatrix_dims (sl : SegLens) (p1 p2 : List Int)
    (h1 : p1 ≠ []) (h2 : p2 ≠ []) (M : List (List (Int × Nat)))
    (h : buildMatrix sl p1 p2 = some M) :
    M.length = p1.length ∧ ∀ row ∈ M, row.length = p2.length := by
  unfold buildMatrix at h
  obtain ⟨rc, hrc, h⟩ := option_bind_some _ _ _ h
  obtain ⟨rowsRev, hrows, h⟩ := option_bind_some _ _ _ h
  have h3 : rowsRev.reverse = M := by injection h
  have hd := create_matrices_dims sl p1 p2 h1 h2 rc.1 rc.2 (by
    rw [hrc])
  have hlen := foldlM_option_grow (fullRowStep sl p1 p2 rc.2) List.length
    (fun b a b2 hb => by
      unfold fullRowStep at hb
      obtain ⟨row, hrow, hb⟩ := option_bind_some _ _ _ hb
      have h4 : (row :: b : List (List (Int × Nat))) = b2 := by injection hb
      rw [← h4, List.length_cons]) _ _ _ hrows
  simp only [List.length_cons, List.length_nil, List.length_range] at hlen
  have hp1 : 0 < p1.length := List.length_pos.mpr h1
  have hinv := foldlM_option_inv (fullRowStep sl p1 p2 rc.2)
    (fun acc => ∀ row ∈ acc, row.length = p2.length)
    (fun b a b2 hP hs => by
      unfold fullRowStep at hs
      obtain ⟨row, hrow, hs⟩ := option_bind_some _ _ _ hs
      have h4 : (row :: b : List (List (Int × Nat))) = b2 := by injection hs
      rw [← h4]
      intro r hr
      rcases List.mem_cons.mp hr with hr | hr
      · rw [hr]
        exact buildRow_length sl p1 p2 _ _ _ _ h2 hrow
      · exact hP r hr)
    (List.range (p1.length - 1)) [rc.1] rowsRev
    (fun r hr => by
      rcases List.mem_cons.mp hr with hr | hr
      · rw [hr]; exact hd.1
      · cases hr)
    hrows
  constructor
  · rw [← h3, List.length_reverse, hlen]; omega
  · intro row hrow2
    rw [← h3] at hrow2
    exact hinv row (List.mem_reverse.mp hrow2)

lemma mem_segIds (l1 l2 : List Int) (a b : Int) (s : Int) :
    s ∈ segIds ⟨l1, l2, a, b⟩ ↔ s ∈ absList l1 ∨ s ∈ absList l2 := by
  simp [segIds, absList, List.mem_append]

lemma absList_revneg_mem (l : List Int) (s : Int) :
    s ∈ absList (l.reverse.map (fun x => -x)) ↔ s ∈ absList l := by
  simp [absList, Int.natAbs_neg]

lemma contains_true_iff (l : List Int) (x : Int) :
    l.contains x = true ↔ x ∈ l :=
  ⟨fun h => List.elem_iff.mp h, fun h => List.elem_iff.mpr h⟩

lemma position_spec (x : Int) :
    ∀ (p : List Int) (j : Nat), position p x = some j →
      j < p.length ∧ p.getD j 0 = x := by
  intro p
  induction p with
  | nil => intro j h; exact Option.noConfusion h
  | cons y rest ih =>
    intro j h
    unfold position at h
    split_ifs at h with hy
    · injection h with h2
      rw [← h2]
      exact ⟨Nat.succ_pos _, hy⟩
    · obtain ⟨j0, hj0, hmap⟩ := Option.map_eq_some'.mp h
      obtain ⟨hlt, hget⟩ := ih j0 hj0
      rw [← hmap]
      constructor
      · simp only [List.length_cons]; omega
      · simpa using hget

lemma subExtent_ne_nil (p conflicting used : List Int) (start : Nat)
    (hs : start < p.length)
    (hc : conflicting.contains (((p.getD start 0).natAbs : Int)) = false)
    (hu : used.contains (((p.getD start 0).natAbs : Int)) = false) :
    subExtent p conflicting used start ≠ [] := by
  unfold subExtent
  have hd : p.drop start = p.getD start 0 :: p.drop (start + 1) := by
    rw [List.drop_eq_getElem_cons hs, List.getD_eq_getElem?_getD,
      List.getElem?_eq_getElem hs]
    simp
  have hcond : (!conflicting.contains (((p.getD start 0).natAbs : Int)) &&
      !used.contains (((p.getD start 0).natAbs : Int))) = true := by
    rw [hc, hu]
    rfl
  rw [hd, List.takeWhile_cons, if_pos hcond]
  exact List.cons_ne_nil _ _

lemma subExtent_not_mem_used (p conflicting used : List Int) (start : Nat)
    (x : Int) (hx : x ∈ subExtent p conflicting used start) :
    ((x.natAbs : Int)) ∉ used := by
  unfold subExtent at hx
  have hpred := List.mem_takeWhile_imp hx
  simp only [Bool.and_eq_true, Bool.not_eq_true'] at hpred
  intro hmem
  have h2 := (contains_true_iff used ((x.natAbs : Int))).mpr hmem
  rw [hpred.2] at h2
  exact Bool.noConfusion h2

lemma common_not_conflicting (p1 p2r conflicting : List Int) (x : Int)
    (h : x ∈ common_segments p1 p2r conflicting) :
    conflicting.contains x = false := by
  unfold common_segments at h
  have h2 := (List.mem_filter.mp h).2
  simp only [Bool.not_eq_true'] at h2
  exact h2

/-- Every element the traceback walk emits is an element of the
corresponding input path (or was already in the accumulator): the walk only
ever conses `p1[i]` / `p2[j]` with in-range indices, since `i` and `j` never
increase. -/
lemma tracebackWalk_mem (p1 p2 : List Int) (tb : Nat → Nat → Nat) :
    ∀ (fuel i j : Nat) (a1 a2 : List Int)
      (r : List Int × List Int × Nat),
      i < p1.length → j < p2.length →
      (∀ x ∈ a1, x ∈ p1) → (∀ x ∈ a2, x ∈ p2) →
      tracebackWalk p1 p2 tb fuel i j a1 a2 = some r →
      (∀ x ∈ r.1, x ∈ p1) ∧ (∀ x ∈ r.2.1, x ∈ p2) := by
  intro fuel
  induction fuel with
  | zero => intro i j a1 a2 r _ _ _ _ h; exact Option.noConfusion h
  | succ fuel ih =>
    intro i j a1 a2 r hi hj ha1 ha2 h
    simp only [tracebackWalk] at h
    have hs1 : p1.getD i 0 ∈ p1 := getD_mem_of_lt 0 hi
    have hs2 : p2.getD j 0 ∈ p2 := getD_mem_of_lt 0 hj
    have hb1 : ∀ x ∈ (if a1.head? = some (p1.getD i 0) then a1
        else p1.getD i 0 :: a1), x ∈ p1 := by
      split_ifs
      · exact ha1
      · intro x hx
        rcases List.mem_cons.mp hx with hx | hx
        · exact hx ▸ hs1
        · exact ha1 x hx
    have hb2 : ∀ x ∈ (if a2.head? = some (p2.getD j 0) then a2
        else p2.getD j 0 :: a2), x ∈ p2 := by
      split_ifs
      · exact ha2
      · intro x hx
        rcases List.mem_cons.mp hx with hx | hx
        · exact hx ▸ hs2
        · exact ha2 x hx
    by_cases ht0 : tb i j = 0
    · rw [if_pos ht0] at h
      injection h with h2
      rw [← h2]
      exact ⟨hb1, hb2⟩
    · rw [if_neg ht0] at h
      by_cases ht1 : tb i j = 1
      · rw [if_pos ht1] at h
        by_cases hz : i = 0 ∨ j = 0
        · rw [if_pos hz] at h
          exact Option.noConfusion h
        · rw [if_neg hz] at h
          exact ih (i - 1) (j - 1) _ _ r
            (Nat.lt_of_le_of_lt (Nat.sub_le i 1) hi)
            (Nat.lt_of_le_of_lt (Nat.sub_le j 1) hj) hb1 hb2 h
      · rw [if_neg ht1] at h
        by_cases ht2 : tb i j = 2
        · rw [if_pos ht2] at h
          by_cases hz : i = 0
          · rw [if_pos hz] at h
            exact Option.noConfusion h
          · rw [if_neg hz] at h
            exact ih (i - 1) j _ _ r
              (Nat.lt_of_le_of_lt (Nat.sub_le i 1) hi) hj hb1 hb2 h
        · rw [if_neg ht2] at h
          by_cases ht3 : tb i j = 3
          · rw [if_pos ht3] at h
            by_cases hz : j = 0
            · rw [if_pos hz] at h
              exact Option.noConfusion h
            · rw [if_neg hz] at h
              exact ih i (j - 1) _ _ r hi
                (Nat.lt_of_le_of_lt (Nat.sub_le j 1) hj) hb1 hb2 h
          · rw [if_neg ht3] at h
            exact Option.noConfusion h

lemma foldlM_option_inv_mem {α β : Type} (f : β → α → Option β)
    (P : β → Prop) :
    ∀ (l : List α) (b c : β),
      (∀ b2 a b3, a ∈ l → P b2 → f b2 a = some b3 → P b3) →
      P b → l.foldlM f b = some c → P c := by
  intro l
  induction l with
  | nil =>
    intro b c _ hb h
    have h2 : (some b : Option β) = some c := h
    injection h2 with h3
    rw [← h3]
    exact hb
  | cons x rest ih =>
    intro b c hstep hb h
    rw [List.foldlM_cons] at h
    obtain ⟨b2, hb2, h⟩ := option_bind_some _ _ _ h
    exact ih b2 c
      (fun b3 a b4 ha => hstep b3 a b4 (List.mem_cons_of_mem x ha))
      (hstep b x b2 (List.mem_cons_self x rest) hb hb2) h

/-- The full-matrix aligner only outputs segments of its input paths. -/
lemma align_paths_subproblem_subset (sl : SegLens) (p1 p2 : List Int)
    (h1 : p1 ≠ []) (h2 : p2 ≠ []) (al : Alignment)
    (h : align_paths_subproblem sl p1 p2 = some al) :
    (∀ x ∈ al.alignment_path1, x ∈ p1) ∧
    (∀ x ∈ al.alignment_path2, x ∈ p2) := by
  unfold align_paths_subproblem at h
  obtain ⟨mat, hmat, h⟩ := option_bind_some _ _ _ h
  obtain ⟨w, hw, h⟩ := option_bind_some _ _ _ h
  obtain ⟨hml, hrow⟩ := buildMatrix_dims sl p1 p2 h1 h2 mat hmat
  have hsl : (mat.map (fun r => r.map Prod.fst)).length = p1.length := by
    rw [List.length_map, hml]
  have hsrows : ∀ r ∈ mat.map (fun r => r.map Prod.fst),
      r.length = p2.length := by
    intro r hr
    obtain ⟨row, hrowm, hreq⟩ := List.mem_map.mp hr
    rw [← hreq, List.length_map]
    exact hrow row hrowm
  have hp1 : 0 < p1.length := List.length_pos.mpr h1
  have hp2 : 0 < p2.length := List.length_pos.mpr h2
  have hne : mat.map (fun r => r.map Prod.fst) ≠ [] := by
    intro hc
    rw [hc] at hsl
    simp only [List.length_nil] at hsl
    omega
  have ham := matrixArgmax_range (mat.map (fun r => r.map Prod.fst))
    p2.length hne hp2 hsrows
  rw [hsl] at ham
  have hmem := tracebackWalk_mem p1 p2
    (fun i j => ((mat.getD i []).getD j (0, 0)).2) _ _ _ [] [] w
    ham.1 ham.2 (fun x hx => absurd hx (List.not_mem_nil x))
    (fun x hx => absurd hx (List.not_mem_nil x)) hw
  have h3 : (⟨w.1, w.2.1, (w.2.2 : Int),
      (((matrixArgmax (mat.map (fun r => r.map Prod.fst))).1 : Nat) :
        Int)⟩ : Alignment) = al := by
    injection h
  rw [← h3]
  exact hmem

lemma initRow0Step_grow (sl : SegLens) (p1 p2 : List Int)
    (st : List Int × TbMap) (k : Nat) (st2 : List Int × TbMap)
    (h : initRow0Step sl p1 p2 st k = Except.ok st2) :
    st2.1.length = st.1.length + 1 := by
  unfold initRow0Step at h
  obtain ⟨lj, hlj, h⟩ := except_bind_ok _ _ _ h
  injection h with h3
  rw [← h3]
  simp

lemma lowmemCellStep_grow (sl : SegLens) (p1 p2 : List Int)
    (prevRow : List Int) (i : Nat) (lenI : Int) (mrd mcd : Nat)
    (rst : List Int × TbMap) (k2 : Nat) (r2 : List Int × TbMap)
    (h : lowmemCellStep sl p1 p2 prevRow i lenI mrd mcd rst k2 =
      Except.ok r2) :
    r2.1.length = rst.1.length + 1 := by
  unfold lowmemCellStep at h
  obtain ⟨lj, hlj, h⟩ := except_bind_ok _ _ _ h
  split_ifs at h <;>
    (injection h with h3
     rw [← h3]
     simp)

/-- When `initialize_matrices_lowmem` succeeds on nonempty paths, the
tracked argmax is an in-range cell address. -/
lemma initialize_argmax_range (sl : SegLens) (p1 p2 : List Int)
    (h1 : p1 ≠ []) (h2 : p2 ≠ [])
    (v : List Int × TbMap × Int × (Nat × Nat))
    (h : initialize_matrices_lowmem sl p1 p2 = Except.ok v) :
    v.2.2.2.1 < p1.length ∧ v.2.2.2.2 < p2.length := by
  unfold initialize_matrices_lowmem at h
  obtain ⟨cv, hcv, h⟩ := except_bind_ok _ _ _ h
  obtain ⟨stv, hstv, h⟩ := except_bind_ok _ _ _ h
  injection h with h3
  have hp2 : 0 < p2.length := List.length_pos.mpr h2
  have hlen : stv.1.length = p2.length := by
    have hg := foldlM_except_grow (initRow0Step sl p1 p2)
      (fun st => st.1.length)
      (fun b a b2 hb => initRow0Step_grow sl p1 p2 b a b2 hb)
      (List.range (p2.length - 1)) ([cv], ([] : TbMap)) stv hstv
    simp only [List.length_cons, List.length_nil, List.length_range] at hg
    omega
  have hne : stv.1.reverse ≠ [] := by
    intro hcontra
    have hl2 := congrArg List.length hcontra
    rw [List.length_reverse, hlen] at hl2
    simp only [List.length_nil] at hl2
    omega
  have hmm := max_and_argmax_idx_lt (stv.1.reverse) hne
  rw [List.length_reverse, hlen] at hmm
  rw [← h3]
  exact ⟨List.length_pos.mpr h1, hmm⟩

/-- One lowmem row step keeps the tracked argmax in range. -/
lemma lowmemRowStep_argmax_range (sl : SegLens) (p1 p2 : List Int)
    (mrd mcd : Nat) (st : LowmemState) (k : Nat) (st2 : LowmemState)
    (hk : k + 1 < p1.length) (h2 : p2 ≠ [])
    (h : lowmemRowStep sl p1 p2 mrd mcd st k = Except.ok st2)
    (hP : st.argmaxScore.1 < p1.length ∧ st.argmaxScore.2 < p2.length) :
    st2.argmaxScore.1 < p1.length ∧ st2.argmaxScore.2 < p2.length := by
  unfold lowmemRowStep at h
  obtain ⟨tc, htc, h⟩ := except_bind_ok _ _ _ h
  obtain ⟨lenI, hlenI, h⟩ := except_bind_ok _ _ _ h
  obtain ⟨rowSt, hrow, h⟩ := except_bind_ok _ _ _ h
  injection h with h3
  have hp2 : 0 < p2.length := List.length_pos.mpr h2
  have hlen : rowSt.1.length = p2.length := by
    have hg := foldlM_except_grow
      (lowmemCellStep sl p1 p2 st.prevRow (k + 1) lenI mrd mcd)
      (fun r => r.1.length)
      (fun b a b2 hb => lowmemCellStep_grow sl p1 p2 _ _ _ _ _ b a b2 hb)
      (List.range (p2.length - 1)) _ rowSt hrow
    simp only [List.length_cons, List.length_nil, List.length_range] at hg
    omega
  have hne : rowSt.1.reverse ≠ [] := by
    intro hcontra
    have hl2 := congrArg List.length hcontra
    rw [List.length_reverse, hlen] at hl2
    simp only [List.length_nil] at hl2
    omega
  have hmm := max_and_argmax_idx_lt (rowSt.1.reverse) hne
  rw [List.length_reverse, hlen] at hmm
  have h4 : st2.argmaxScore =
      (if st.maxScore < (max_and_argmax rowSt.1.reverse).1
        then (k + 1, (max_and_argmax rowSt.1.reverse).2)
        else st.argmaxScore) := by
    rw [← h3]
  rw [h4]
  split_ifs with hcmp
  · exact ⟨hk, hmm⟩
  · exact hP

/-- The banded aligner only outputs segments of its input paths. -/
lemma lowmem_subset (sl : SegLens) (p1 p2 : List Int) (drop : Nat)
    (h1 : p1 ≠ []) (h2 : p2 ≠ []) (al : Alignment)
    (h : align_paths_subproblem_lowmem sl p1 p2 drop =
      some (Except.ok al)) :
    (∀ x ∈ al.alignment_path1, x ∈ p1) ∧
    (∀ x ∈ al.alignment_path2, x ∈ p2) := by
  obtain ⟨v, hv, h⟩ := errorToSome_some_ok _ _ _ h
  obtain ⟨st, hst, h⟩ := errorToSome_some_ok _ _ _ h
  have hinit := initialize_argmax_range sl p1 p2 h1 h2 v hv
  have hrows : st.argmaxScore.1 < p1.length ∧
      st.argmaxScore.2 < p2.length := by
    unfold lowmemRows at hst
    refine foldlM_except_inv _
      (fun s => s.argmaxScore.1 < p1.length ∧ s.argmaxScore.2 < p2.length)
      (List.range (p1.length - 1)) _ st
      (fun b2 a b3 ha hP hstep =>
        lowmemRowStep_argmax_range sl p1 p2 _ _ b2 a b3
          (by have := List.mem_range.mp ha; omega) h2 hstep hP)
      ?_ hst
    exact hinit
  unfold lowmemFinish at h
  obtain ⟨w, hw, hmap⟩ := Option.map_eq_some'.mp h
  have hal : (⟨w.1, w.2.1, (w.2.2 : Int), (st.argmaxScore.1 : Int)⟩ :
      Alignment) = al := by
    injection hmap
  have hmem := tracebackWalk_mem p1 p2
    (fun i j => (tbGet st.tb (i, j)).getD 0) _ _ _ [] [] w
    hrows.1 hrows.2 (fun x hx => absurd hx (List.not_mem_nil x))
    (fun x hx => absurd hx (List.not_mem_nil x)) hw
  rw [← hal]
  exact hmem

/-- The dispatcher only outputs segments of the subproblem paths. -/
lemma dispatch_subset (sl : SegLens) (sub1 sub2 : List Int)
    (maxH maxDrop maxP : Nat) (al : Alignment)
    (h1 : sub1 ≠ []) (h2 : sub2 ≠ [])
    (h : dispatchAlignment sl sub1 sub2 maxH maxDrop maxP =
      some (some al)) :
    (∀ x ∈ al.alignment_path1, x ∈ sub1) ∧
    (∀ x ∈ al.alignment_path2, x ∈ sub2) := by
  unfold dispatchAlignment at h
  split_ifs at h with hs1 hs2
  · obtain ⟨a2, ha2, he⟩ := Option.map_eq_some'.mp h
    injection he with he2
    rw [← he2]
    exact align_paths_subproblem_subset sl sub1 sub2 h1 h2 a2 ha2
  · cases hlm : align_paths_subproblem_lowmem sl sub1 sub2 maxDrop with
    | none =>
      rw [hlm] at h
      exact Option.noConfusion h
    | some r =>
      cases r with
      | error e =>
        rw [hlm] at h
        exact Option.noConfusion
          (show (none : Option (Option Alignment)) = some (some al) from h)
      | ok a =>
        rw [hlm] at h
        have h3 : (some (some a) : Option (Option Alignment)) =
          some (some al) := h
        injection h3 with h4
        injection h4 with h5
        rw [← h5]
        exact lowmem_subset sl sub1 sub2 maxDrop h1 h2 a hlm
  · injection h with hx
    exact Option.noConfusion hx

/-- One driver iteration preserves the no-double-use invariant: every
emitted alignment's segment identities are recorded in the used set, and
the emitted alignments are pairwise segment-disjoint. -/
lemma driverStep_no_double_use (sl : SegLens)
    (p1 p2r conflicting common : List Int) (maxH maxDrop maxP : Nat)
    (st : DriverState) (idx : Nat) (st2 : DriverState)
    (hidx : idx < p1.length)
    (hcc : ∀ x ∈ common, conflicting.contains x = false)
    (h : driverStep sl p1 p2r conflicting common maxH maxDrop maxP st idx =
      some st2)
    (hP : (∀ al ∈ st.alignments, ∀ s ∈ segIds al, s ∈ st.used) ∧
      st.alignments.Pairwise (fun a b => ∀ s ∈ segIds a, s ∉ segIds b)) :
    (∀ al ∈ st2.alignments, ∀ s ∈ segIds al, s ∈ st2.used) ∧
    st2.alignments.Pairwise (fun a b => ∀ s ∈ segIds a, s ∉ segIds b) := by
  simp only [driverStep] at h
  split_ifs at h with hcond
  · obtain ⟨jdx, hjdx, h⟩ := option_bind_some _ _ _ h
    obtain ⟨alOpt, halOpt, hmap⟩ := Option.map_eq_some'.mp h
    cases alOpt with
    | none =>
      have h2 : st = st2 := hmap
      rw [← h2]
      exact hP
    | some al =>
      have h2 : driverAccept st idx al = st2 := hmap
      simp only [Bool.and_eq_true, Bool.not_eq_true'] at hcond
      have hanchor_confl := hcc _ ((contains_true_iff _ _).mp hcond.1)
      have hsub1ne : subExtent p1 conflicting st.used idx ≠ [] :=
        subExtent_ne_nil p1 conflicting st.used idx hidx hanchor_confl
          hcond.2
      obtain ⟨hjlt, hjget⟩ := position_spec _ p2r jdx hjdx
      have hsub2ne : subExtent p2r conflicting st.used jdx ≠ [] := by
        apply subExtent_ne_nil p2r conflicting st.used jdx hjlt
        · rw [hjget]
          exact hanchor_confl
        · rw [hjget]
          exact hcond.2
      have hsubs := dispatch_subset sl _ _ maxH maxDrop maxP al hsub1ne
        hsub2ne halOpt
      have hnew_not_used : ∀ s ∈ segIds ⟨al.alignment_path1,
          al.alignment_path2.reverse.map (fun x => -x),
          (idx : Int) + al.path1_start_index,
          (idx : Int) + al.path1_end_index⟩, s ∉ st.used := by
        intro s hs
        rcases (mem_segIds _ _ _ _ s).mp hs with hs | hs
        · obtain ⟨x, hx, hxeq⟩ := List.mem_map.mp hs
          rw [← hxeq]
          exact subExtent_not_mem_used p1 conflicting st.used idx x
            (hsubs.1 x hx)
        · rw [absList_revneg_mem] at hs
          obtain ⟨x, hx, hxeq⟩ := List.mem_map.mp hs
          rw [← hxeq]
          exact subExtent_not_mem_used p2r conflicting st.used jdx x
            (hsubs.2 x hx)
      rw [← h2]
      simp only [driverAccept]
      constructor
      · intro al0 hal0 s hs
        simp only [List.mem_append, List.mem_singleton] at hal0
        rcases hal0 with hal0 | hal0
        · simp only [List.mem_append]
          exact Or.inl (Or.inl (hP.1 al0 hal0 s hs))
        · rw [hal0] at hs
          rcases (mem_segIds _ _ _ _ s).mp hs with hs2 | hs2
          · simp only [List.mem_append]
            exact Or.inl (Or.inr hs2)
          · rw [absList_revneg_mem] at hs2
            simp only [List.mem_append]
            exact Or.inr hs2
      · rw [List.pairwise_append]
        refine ⟨hP.2, by simp, ?_⟩
        intro a ha b hb s hsa hsb
        rw [List.mem_singleton] at hb
        rw [hb] at hsb
        exact hnew_not_used s hsb (hP.1 a ha s hsa)
  · have h2 : st = st2 := by injection h
    rw [← h2]
    exact hP

/-- Claim C4: no double-use.  Across the alignments returned by one
`align_paths` call, no segment identity (absolute value) occurs in the
`alignment_path1` or `alignment_path2` of more than one returned alignment:
the used-segments set inserted after each accepted alignment, together with
the "not used" condition during subproblem extension, makes the alignments
pairwise segment-disjoint. -/
theorem align_paths_no_double_use (sl : SegLens) (p1 p2 : List Int)
    (maxH maxDrop maxP : Nat) (als : List Alignment)
    (h : align_paths sl p1 p2 maxH maxDrop maxP = some als) :
    als.Pairwise (fun a b => ∀ s ∈ segIds a, s ∉ segIds b) := by
  unfold align_paths at h
  obtain ⟨stf, hstf, hmap⟩ := Option.map_eq_some'.mp h
  have hinv := foldlM_option_inv_mem
    (driverStep sl p1 ((p2.map (fun x => -x)).reverse)
      (conflicting_segments p1 p2)
      (common_segments p1 ((p2.map (fun x => -x)).reverse)
        (conflicting_segments p1 p2)) maxH maxDrop maxP)
    (fun st => (∀ al ∈ st.alignments, ∀ s ∈ segIds al, s ∈ st.used) ∧
      st.alignments.Pairwise (fun a b => ∀ s ∈ segIds a, s ∉ segIds b))
    (List.range p1.length) ⟨[], []⟩ stf
    (fun b2 a b3 ha hPa hstep =>
      driverStep_no_double_use sl p1 _ _ _ maxH maxDrop maxP b2 a b3
        (List.mem_range.mp ha)
        (fun x hx => common_not_conflicting _ _ _ x hx) hstep hPa)
    ⟨fun al hal => absurd hal (List.not_mem_nil al), List.Pairwise.nil⟩
    hstf
  rw [← hmap]
  exact hinv.2

/-- Witness for `align_paths_no_double_use`: the Scenario A driver run with
the repository test's length map, whose single output alignment is
trivially pairwise disjoint. -/
theorem align_paths_no_double_use_witness :
    align_paths slTest [1, 2, 3, 4, 5, 6] [1, -5, -7, -2, 6]
        10000 1000 100000 =
      some [⟨[2, 3, 4, 5], [-5, -7, -2], 1, 4⟩] ∧
    ([⟨[2, 3, 4, 5], [-5, -7, -2], 1, 4⟩] : List Alignment).Pairwise
      (fun a b => ∀ s ∈ segIds a, s ∉ segIds b) :=
  ⟨by decide,
   align_paths_no_double_use slTest [1, 2, 3, 4, 5, 6] [1, -5, -7, -2, 6]
     10000 1000 100000 [⟨[2, 3, 4, 5], [-5, -7, -2], 1, 4⟩] (by decide)⟩

/-! ## Claim C3: the banded aligner with `drop = max(|p1|,|p2|)` refines the
full-matrix aligner.  The two fills are related cell by cell: the lowmem
score rows are the `Prod.fst` projections of the full matrix rows, the
sparse traceback map agrees with the full traceback codes (absent key =
code 0), and the incrementally tracked max/argmax equals the row-major
`matrixArgmax` of the full score matrix. -/

lemma map_fst_headD (l : List (Int × Nat)) :
    (l.map Prod.fst).headD 0 = (l.headD (0, 0)).1 := by
  cases l <;> rfl

lemma map_fst_getD (l : List (Int × Nat)) :
    ∀ k : Nat, (l.map Prod.fst).getD k 0 = (l.getD k (0, 0)).1 := by
  induction l with
  | nil => intro k; rfl
  | cons x rest ih =>
    intro k
    cases k with
    | zero => rfl
    | succ k2 =>
      simp only [List.map_cons, List.getD_cons_succ]
      exact ih k2

lemma getD_reverse {α : Type} (l : List α) (i : Nat) (d : α)
    (h : i < l.length) :
    l.reverse.getD i d = l.getD (l.length - 1 - i) d := by
  rw [List.getD_eq_getElem?_getD, List.getD_eq_getElem?_getD,
    List.getElem?_eq_getElem (by simpa using h),
    List.getElem?_eq_getElem (by omega : l.length - 1 - i < l.length)]
  simp [List.getElem_reverse]

lemma tbGet_nil (k : Nat × Nat) : tbGet ([] : TbMap) k = none := rfl

lemma tbGet_insert_self (m : TbMap) (k : Nat × Nat) (v : Nat) :
    tbGet (tbInsert m k v) k = some v := by
  simp [tbGet, tbInsert, List.lookup]

lemma tbGet_insert_ne (m : TbMap) (k k2 : Nat × Nat) (v : Nat)
    (h : k2 ≠ k) : tbGet (tbInsert m k v) k2 = tbGet m k2 := by
  simp [tbGet, tbInsert, List.lookup, beq_eq_false_iff_ne.mpr h]

/-- The lowmem corner computation returns exactly the score component of
the full aligner's corner cell (whose traceback code is 0). -/
lemma corner_corresp (sl : SegLens) (p1 p2 : List Int) (corner : Int × Nat)
    (h : cornerCell sl p1 p2 = some corner) :
    lowmemCorner sl p1 p2 = Except.ok corner.1 ∧ corner.2 = 0 := by
  unfold cornerCell at h
  unfold lowmemCorner
  split_ifs at h ⊢ with he
  · obtain ⟨l, hl, hc⟩ := Option.map_eq_some'.mp h
    rw [← hc]
    constructor
    · unfold lookupLen
      rw [hl]
    · rfl
  · obtain ⟨l1, hl1, h⟩ := option_bind_some _ _ _ h
    obtain ⟨l2, hl2, h⟩ := option_bind_some _ _ _ h
    injection h with h2
    rw [← h2]
    constructor
    · unfold lookupLen
      rw [hl1, hl2]
      rfl
    · rfl

/-- With `drop = max(|p1|,|p2|)` the band condition of the lowmem cell
fill never holds at an in-range cell. -/
lemma band_never (p1 p2 : List Int) (i j : Nat)
    (hi : i < p1.length) (hj : j < p2.length) :
    ¬((j < i ∧ (lowmemDrops p1 p2 (max p1.length p2.length)).1 < i - j) ∨
      (i < j ∧ (lowmemDrops p1 p2 (max p1.length p2.length)).2 < j - i)) := by
  unfold lowmemDrops
  split_ifs with hlen
  · simp only []
    omega
  · simp only []
    omega

/-- Parallel simulation of the row-0 fills: whenever the full aligner's
row-0 fold (src/align.rs lines 64-74) succeeds, the lowmem row-0 fold
(src/lowmem.rs lines 46-63) succeeds with the score projections of the same
cells, and its sparse traceback entries are exactly the nonzero traceback
codes of those cells. -/
lemma row0_parallel (sl : SegLens) (p1 p2 : List Int) (corner : Int × Nat) :
    ∀ (r : Nat) (acc : List (Int × Nat)),
      (List.range r).foldlM (row0Step sl p1 p2) [corner] = some acc →
      ∃ st : List Int × TbMap,
        (List.range r).foldlM (initRow0Step sl p1 p2)
          ([corner.1], ([] : TbMap)) = Except.ok st ∧
        st.1 = acc.map Prod.fst ∧
        acc.length = r + 1 ∧
        acc.getD r (0, 0) = corner ∧
        (∀ a b : Nat, tbGet st.2 (a, b) ≠ none → a = 0 ∧ 1 ≤ b ∧ b ≤ r) ∧
        (∀ j : Nat, 1 ≤ j → j ≤ r →
          (tbGet st.2 (0, j)).getD 0 = (acc.getD (r - j) (0, 0)).2) := by
  intro r
  induction r with
  | zero =>
    intro acc hacc
    have h2 : (some [corner] : Option (List (Int × Nat))) = some acc := hacc
    injection h2 with h3
    refine ⟨([corner.1], ([] : TbMap)), rfl, ?_, ?_, ?_, ?_, ?_⟩
    · rw [← h3]; rfl
    · rw [← h3]; rfl
    · rw [← h3]; rfl
    · intro a b hab
      exact absurd (tbGet_nil (a, b)) hab
    · intro j hj1 hj2
      omega
  | succ r ih =>
    intro acc hacc
    rw [List.range_succ, List.foldlM_append] at hacc
    obtain ⟨accr, haccr, hstep⟩ := option_bind_some _ _ _ hacc
    simp only [List.foldlM_cons, List.foldlM_nil] at hstep
    obtain ⟨acc2, hstep2, hpure⟩ := option_bind_some _ _ _ hstep
    have hacc2 : acc2 = acc := by injection hpure
    obtain ⟨st, hfold, hmapf, hlen, hcorner, hdom, hcode⟩ := ih accr haccr
    unfold row0Step at hstep2
    obtain ⟨c, hcell, hcons⟩ := option_bind_some _ _ _ hstep2
    have hconsacc : c :: accr = acc := by
      rw [← hacc2]; injection hcons
    unfold row0Cell at hcell
    obtain ⟨lj, hlj, hcval⟩ := Option.map_eq_some'.mp hcell
    have hhead : st.1.headD 0 = (accr.headD (0, 0)).1 := by
      rw [hmapf, map_fst_headD]
    have hcval2 : ((amax [0, -1, -1, (accr.headD (0, 0)).1] +
        (if p2.getD (r + 1) 0 = p1.getD 0 0 then lj else -lj)),
        argmax [0, -1, -1, (accr.headD (0, 0)).1]) = c := hcval
    have hlk : lookupLen sl (p2.getD (r + 1) 0)
        (((p2.getD (r + 1) 0).natAbs : Int)) = Except.ok lj := by
      unfold lookupLen
      rw [hlj]
    have hstep3 : initRow0Step sl p1 p2 st r = Except.ok
        ((c.1 :: st.1,
          if c.2 ≠ 0 then tbInsert st.2 (0, r + 1) c.2 else st.2)) := by
      simp only [initRow0Step, hlk, ok_bind, hhead]
      rw [← hcval2]
      rfl
    refine ⟨(c.1 :: st.1,
        if c.2 ≠ 0 then tbInsert st.2 (0, r + 1) c.2 else st.2),
      ?_, ?_, ?_, ?_, ?_, ?_⟩
    · rw [List.range_succ, List.foldlM_append, hfold, ok_bind]
      simp only [List.foldlM_cons, List.foldlM_nil, hstep3, ok_bind]
      rfl
    · rw [← hconsacc, List.map_cons, hmapf]
    · rw [← hconsacc, List.length_cons, hlen]
    · rw [← hconsacc, List.getD_cons_succ]
      exact hcorner
    · intro a b hab
      by_cases hz : c.2 ≠ 0
      · rw [if_pos hz] at hab
        by_cases hk : (a, b) = ((0 : Nat), r + 1)
        · have ha : a = 0 := congrArg Prod.fst hk
          have hb : b = r + 1 := congrArg Prod.snd hk
          exact ⟨ha, by omega⟩
        · rw [tbGet_insert_ne _ _ _ _ hk] at hab
          obtain ⟨ha, hb1, hb2⟩ := hdom a b hab
          exact ⟨ha, hb1, by omega⟩
      · rw [if_neg hz] at hab
        obtain ⟨ha, hb1, hb2⟩ := hdom a b hab
        exact ⟨ha, hb1, by omega⟩
    · intro j hj1 hj2
      rcases Nat.lt_or_ge j (r + 1) with hlt | hge
      · have hne : ((0 : Nat), j) ≠ ((0 : Nat), r + 1) := by
          intro hk
          have := congrArg Prod.snd hk
          omega
        have hsub : r + 1 - j = (r - j) + 1 := by omega
        rw [← hconsacc, hsub, List.getD_cons_succ]
        by_cases hz : c.2 ≠ 0
        · rw [if_pos hz, tbGet_insert_ne _ _ _ _ hne]
          exact hcode j hj1 (by omega)
        · rw [if_neg hz]
          exact hcode j hj1 (by omega)
      · have hj : j = r + 1 := by omega
        rw [hj, ← hconsacc]
        simp only [Nat.sub_self, List.getD_cons_zero]
        by_cases hz : c.2 ≠ 0
        · rw [if_pos hz, tbGet_insert_self]
          rfl
        · rw [if_neg hz]
          have hnone : tbGet st.2 (0, r + 1) = none := by
            by_contra hn
            obtain ⟨_, _, hb2⟩ := hdom 0 (r + 1) hn
            omega
          rw [hnone]
          simp only [Option.getD_none]
          omega

lemma getD_zero_headD {α : Type} (l : List α) (d : α) :
    l.getD 0 d = l.headD d := by
  cases l <;> rfl

/-- Positional characterization of the full aligner's column-0 fold
(src/align.rs lines 51-61): each cell is `col0Cell` of its predecessor. -/
lemma col0_char (sl : SegLens) (p1 p2 : List Int) (corner : Int × Nat) :
    ∀ (r : Nat) (acc : List (Int × Nat)),
      (List.range r).foldlM (col0Step sl p1 p2) [corner] = some acc →
      acc.length = r + 1 ∧
      acc.getD r (0, 0) = corner ∧
      (∀ i : Nat, 1 ≤ i → i ≤ r →
        col0Cell sl p1 p2 i ((acc.getD (r - (i - 1)) (0, 0)).1) =
          some (acc.getD (r - i) (0, 0))) := by
  intro r
  induction r with
  | zero =>
    intro acc hacc
    have h2 : (some [corner] : Option (List (Int × Nat))) = some acc := hacc
    injection h2 with h3
    refine ⟨by rw [← h3]; rfl, by rw [← h3]; rfl, ?_⟩
    intro i hi1 hi2
    omega
  | succ r ih =>
    intro acc hacc
    rw [List.range_succ, List.foldlM_append] at hacc
    obtain ⟨accr, haccr, hstep⟩ := option_bind_some _ _ _ hacc
    simp only [List.foldlM_cons, List.foldlM_nil] at hstep
    obtain ⟨acc2, hstep2, hpure⟩ := option_bind_some _ _ _ hstep
    have hacc2 : acc2 = acc := by injection hpure
    obtain ⟨hlen, hcorner, hrec⟩ := ih accr haccr
    unfold col0Step at hstep2
    obtain ⟨c, hcell, hcons⟩ := option_bind_some _ _ _ hstep2
    have hconsacc : c :: accr = acc := by
      rw [← hacc2]; injection hcons
    refine ⟨by rw [← hconsacc, List.length_cons, hlen], ?_, ?_⟩
    · rw [← hconsacc, List.getD_cons_succ]
      exact hcorner
    · intro i hi1 hi2
      rcases Nat.lt_or_ge i (r + 1) with hlt | hge
      · have e1 : r + 1 - (i - 1) = (r - (i - 1)) + 1 := by omega
        have e2 : r + 1 - i = (r - i) + 1 := by omega
        rw [← hconsacc, e1, e2, List.getD_cons_succ, List.getD_cons_succ]
        exact hrec i hi1 (by omega)
      · have hieq : i = r + 1 := by omega
        have e1 : r + 1 - (i - 1) = 1 := by omega
        have e2 : r + 1 - i = 0 := by omega
        rw [← hconsacc, e1, e2, List.getD_cons_succ, List.getD_cons_zero,
          getD_zero_headD, hieq]
        exact hcell

/-- Parallel simulation of one interior row: whenever the full aligner's
cell fold of row `i` (src/align.rs lines 102-124) succeeds, the banded
fold (src/lowmem.rs lines 137-180, band condition never firing at
`drop = max`) succeeds with the score projections of the same cells and
the nonzero traceback codes as fresh sparse entries. -/
lemma cells_parallel (sl : SegLens) (p1 p2 : List Int) (i : Nat)
    (prevRowFull : List (Int × Nat)) (c0 : Int × Nat) (tbStart : TbMap)
    (lenI : Int) (hi : i < p1.length)
    (hlenI : segLen sl (p1.getD i 0) = some lenI)
    (hfresh : ∀ b : Nat, 1 ≤ b → tbGet tbStart (i, b) = none) :
    ∀ (r : Nat) (accCells : List (Int × Nat)),
      r ≤ p2.length - 1 →
      (List.range r).foldlM (fullCellStep sl p1 p2 i prevRowFull)
        [c0] = some accCells →
      ∃ rst : List Int × TbMap,
        (List.range r).foldlM
          (lowmemCellStep sl p1 p2 (prevRowFull.map Prod.fst) i lenI
            (lowmemDrops p1 p2 (max p1.length p2.length)).1
            (lowmemDrops p1 p2 (max p1.length p2.length)).2)
          ([c0.1], tbStart) = Except.ok rst ∧
        rst.1 = accCells.map Prod.fst ∧
        accCells.length = r + 1 ∧
        accCells.getD r (0, 0) = c0 ∧
        (∀ a b : Nat, ¬(a = i ∧ 1 ≤ b ∧ b ≤ r) →
          tbGet rst.2 (a, b) = tbGet tbStart (a, b)) ∧
        (∀ j : Nat, 1 ≤ j → j ≤ r →
          (tbGet rst.2 (i, j)).getD 0 = (accCells.getD (r - j) (0, 0)).2) := by
  intro r
  induction r with
  | zero =>
    intro acc _ hacc
    have h2 : (some [c0] : Option (List (Int × Nat))) = some acc := hacc
    injection h2 with h3
    refine ⟨([c0.1], tbStart), rfl, by rw [← h3]; rfl, by rw [← h3]; rfl,
      by rw [← h3]; rfl, fun a b _ => rfl, ?_⟩
    intro j hj1 hj2
    omega
  | succ r ih =>
    intro acc hr hacc
    rw [List.range_succ, List.foldlM_append] at hacc
    obtain ⟨accr, haccr, hstep⟩ := option_bind_some _ _ _ hacc
    simp only [List.foldlM_cons, List.foldlM_nil] at hstep
    obtain ⟨acc2, hstep2, hpure⟩ := option_bind_some _ _ _ hstep
    have hacc2 : acc2 = acc := by injection hpure
    obtain ⟨rst, hfold, hmapf, hlen, hc0pos, hunch, hcode⟩ :=
      ih accr (by omega) haccr
    unfold fullCellStep at hstep2
    obtain ⟨cell, hcell, hcons⟩ := option_bind_some _ _ _ hstep2
    have hconsacc : cell :: accr = acc := by
      rw [← hacc2]; injection hcons
    unfold interiorCell at hcell
    obtain ⟨li, hli, hcell⟩ := option_bind_some _ _ _ hcell
    obtain ⟨lj, hlj, hcell⟩ := option_bind_some _ _ _ hcell
    have hlieq : li = lenI := by
      rw [hlenI] at hli
      injection hli with h4
      exact h4.symm
    rw [hlieq] at hcell
    simp only [Nat.add_sub_cancel] at hcell
    have hpaircell :
        (amax (if p1.getD i 0 = p2.getD (r + 1) 0 then
            [lenI, (prevRowFull.getD r (0, 0)).1 + lenI,
             (prevRowFull.getD (r + 1) (0, 0)).1 + lenI,
             (accr.headD (0, 0)).1 + lenI]
          else
            [-lenI - lj, (prevRowFull.getD r (0, 0)).1 - lenI - lj,
             (prevRowFull.getD (r + 1) (0, 0)).1 - lenI,
             (accr.headD (0, 0)).1 - lj]),
         argmax (if p1.getD i 0 = p2.getD (r + 1) 0 then
            [lenI, (prevRowFull.getD r (0, 0)).1 + lenI,
             (prevRowFull.getD (r + 1) (0, 0)).1 + lenI,
             (accr.headD (0, 0)).1 + lenI]
          else
            [-lenI - lj, (prevRowFull.getD r (0, 0)).1 - lenI - lj,
             (prevRowFull.getD (r + 1) (0, 0)).1 - lenI,
             (accr.headD (0, 0)).1 - lj])) = cell := by
      injection hcell
    have hlkJ : lookupLen sl (p2.getD (r + 1) 0) (p2.getD (r + 1) 0) =
        Except.ok lj := by
      unfold lookupLen
      rw [hlj]
    have hm : r + 1 < p2.length := by omega
    have hband := band_never p1 p2 i (r + 1) hi hm
    have hstep3 : lowmemCellStep sl p1 p2 (prevRowFull.map Prod.fst) i lenI
        (lowmemDrops p1 p2 (max p1.length p2.length)).1
        (lowmemDrops p1 p2 (max p1.length p2.length)).2 rst r =
        Except.ok (cell.1 :: rst.1,
          if cell.2 ≠ 0 then tbInsert rst.2 (i, r + 1) cell.2 else rst.2) := by
      simp only [lowmemCellStep, hlkJ, ok_bind]
      rw [if_neg hband]
      simp only [Nat.add_sub_cancel, map_fst_getD, hmapf, map_fst_headD]
      rw [← hpaircell]
      rfl
    refine ⟨(cell.1 :: rst.1,
        if cell.2 ≠ 0 then tbInsert rst.2 (i, r + 1) cell.2 else rst.2),
      ?_, ?_, ?_, ?_, ?_, ?_⟩
    · rw [List.range_succ, List.foldlM_append, hfold, ok_bind]
      simp only [List.foldlM_cons, List.foldlM_nil, hstep3, ok_bind]
      rfl
    · rw [← hconsacc, List.map_cons, hmapf]
    · rw [← hconsacc, List.length_cons, hlen]
    · rw [← hconsacc, List.getD_cons_succ]
      exact hc0pos
    · intro a b hab
      have hne : (a, b) ≠ (i, r + 1) := by
        intro hk
        have ha := congrArg Prod.fst hk
        have hb := congrArg Prod.snd hk
        simp only [] at ha hb
        exact hab ⟨ha, by omega⟩
      by_cases hz : cell.2 ≠ 0
      · rw [if_pos hz, tbGet_insert_ne _ _ _ _ hne]
        exact hunch a b (by rintro ⟨ha, hb1, hb2⟩; exact hab ⟨ha, hb1, by omega⟩)
      · rw [if_neg hz]
        exact hunch a b (by rintro ⟨ha, hb1, hb2⟩; exact hab ⟨ha, hb1, by omega⟩)
    · intro j hj1 hj2
      rcases Nat.lt_or_ge j (r + 1) with hlt | hge
      · have hne : ((i : Nat), j) ≠ ((i : Nat), r + 1) := by
          intro hk
          have := congrArg Prod.snd hk
          simp only [] at this
          omega
        have hsub : r + 1 - j = (r - j) + 1 := by omega
        rw [← hconsacc, hsub, List.getD_cons_succ]
        by_cases hz : cell.2 ≠ 0
        · rw [if_pos hz, tbGet_insert_ne _ _ _ _ hne]
          exact hcode j hj1 (by omega)
        · rw [if_neg hz]
          exact hcode j hj1 (by omega)
      · have hj : j = r + 1 := by omega
        rw [hj, ← hconsacc]
        simp only [Nat.sub_self, List.getD_cons_zero]
        by_cases hz : cell.2 ≠ 0
        · rw [if_pos hz, tbGet_insert_self]
          rfl
        · rw [if_neg hz]
          have hnone : tbGet rst.2 (i, r + 1) = none := by
            rw [hunch i (r + 1) (by rintro ⟨_, _, hb2⟩; omega)]
            exact hfresh (r + 1) (by omega)
          rw [hnone]
          simp only [Option.getD_none]
          omega

lemma matrixArgmax_eq_amFold (rows : List (List Int)) :
    matrixArgmax rows = (amFold rows rows.length).2 := rfl

lemma getD_append_length {α : Type} (l : List α) (x d : α) :
    (l ++ [x]).getD l.length d = x := by
  induction l with
  | nil => rfl
  | cons y t ih =>
    simp only [List.cons_append, List.length_cons, List.getD_cons_succ]
    exact ih

lemma amFold_succ (rows : List (List Int)) (r : Nat) :
    amFold rows (r + 1) =
      (if (amFold rows r).1 <
          (maxArgmaxAux (rows.getD r []) 0 ((amFold rows r).1, 0)).1
        then ((maxArgmaxAux (rows.getD r []) 0 ((amFold rows r).1, 0)).1, r,
          (maxArgmaxAux (rows.getD r []) 0 ((amFold rows r).1, 0)).2)
        else amFold rows r) := by
  unfold amFold
  rw [List.range_succ, List.foldl_append]
  rfl

lemma amFold_append (l : List (List Int)) (x : List Int) :
    ∀ r : Nat, r ≤ l.length → l ≠ [] →
      amFold (l ++ [x]) r = amFold l r := by
  intro r
  induction r with
  | zero =>
    intro _ hl
    unfold amFold
    simp only [List.range_zero, List.foldl_nil]
    cases l with
    | nil => exact absurd rfl hl
    | cons y t => rfl
  | succ r ih =>
    intro hr hl
    rw [amFold_succ, amFold_succ, ih (by omega) hl]
    have hgd : (l ++ [x]).getD r [] = l.getD r [] := by
      rw [List.getD_eq_getElem?_getD, List.getD_eq_getElem?_getD,
        List.getElem?_append, if_pos (by omega : r < l.length)]
    rw [hgd]

lemma amFold_update (rows : List (List Int)) (r : Nat)
    (hne : rows.getD r [] ≠ []) :
    amFold rows (r + 1) =
      (if (amFold rows r).1 < (max_and_argmax (rows.getD r [])).1
        then ((max_and_argmax (rows.getD r [])).1, r,
          (max_and_argmax (rows.getD r [])).2)
        else amFold rows r) := by
  rw [amFold_succ, maxArgmaxAux_bridge (rows.getD r []) hne]
  by_cases hcmp :
      (amFold rows r).1 < (max_and_argmax (rows.getD r [])).1
  · simp only [if_pos hcmp]
  · simp only [if_neg hcmp]
    rw [if_neg (lt_irrefl ((amFold rows r).1))]

lemma amFold_one (rows : List (List Int)) (hne : rows.getD 0 [] ≠ []) :
    amFold rows 1 = ((max_and_argmax (rows.getD 0 [])).1, 0,
      (max_and_argmax (rows.getD 0 [])).2) := by
  have hmm : max_and_argmax (rows.getD 0 []) =
      (if (rows.getD 0 []).headD 0 < (max_and_argmax (rows.getD 0 [])).1
        then max_and_argmax (rows.getD 0 [])
        else ((rows.getD 0 []).headD 0, 0)) :=
    maxArgmaxAux_bridge (rows.getD 0 []) hne ((rows.getD 0 []).headD 0)
  have h0 : amFold rows 0 = ((rows.getD 0 []).headD 0, 0, 0) := by
    rw [getD_zero_headD]
    rfl
  rw [show (1 : Nat) = 0 + 1 from rfl, amFold_update rows 0 hne, h0]
  by_cases hcmp : (rows.getD 0 []).headD 0 <
      (max_and_argmax (rows.getD 0 [])).1
  · rw [if_pos hcmp]
  · rw [if_neg hcmp]
    rw [hmm, if_neg hcmp]

lemma map_fst_headD_getD (l : List (Int × Nat)) :
    (l.map Prod.fst).headD 0 = (l.getD 0 (0, 0)).1 := by
  cases l <;> rfl

lemma getD_of_le {α : Type} (l : List α) (n : Nat) (d : α)
    (h : l.length ≤ n) : l.getD n d = d := by
  rw [List.getD_eq_getElem?_getD, List.getElem?_eq_none h]
  rfl

/-- Parallel simulation of the row loops: whenever the full aligner's row
fold (src/align.rs lines 99-125) succeeds, the banded row fold
(src/lowmem.rs lines 115-191, `drop = max`) succeeds, its previous-row
scores are the projections of the full head row, its sparse map holds
exactly the nonzero traceback codes filled so far, and its running
max/argmax equals the row-major argmax scan over the rows filled so far. -/
lemma rows_parallel (sl : SegLens) (p1 p2 : List Int)
    (col0full row0full : List (Int × Nat)) (lowSt0 : LowmemState)
    (h2 : p2 ≠ [])
    (hcolrec : ∀ i : Nat, 1 ≤ i → i ≤ p1.length - 1 →
      col0Cell sl p1 p2 i ((col0full.getD (i - 1) (0, 0)).1) =
        some (col0full.getD i (0, 0)))
    (hrow0len : row0full.length = p2.length)
    (hrow0head : row0full.getD 0 (0, 0) = col0full.getD 0 (0, 0))
    (hprev0 : lowSt0.prevRow = row0full.map Prod.fst)
    (hdom0 : ∀ a b : Nat, tbGet lowSt0.tb (a, b) ≠ none → a = 0)
    (hcode0 : ∀ j : Nat,
      (tbGet lowSt0.tb (0, j)).getD 0 = (row0full.getD j (0, 0)).2)
    (ham0 : (lowSt0.maxScore, lowSt0.argmaxScore.1, lowSt0.argmaxScore.2) =
      amFold [row0full.map Prod.fst] 1) :
    ∀ (r : Nat) (accRows : List (List (Int × Nat))),
      r ≤ p1.length - 1 →
      (List.range r).foldlM (fullRowStep sl p1 p2 col0full) [row0full] =
        some accRows →
      ∃ lowSt : LowmemState,
        (List.range r).foldlM
          (lowmemRowStep sl p1 p2
            (lowmemDrops p1 p2 (max p1.length p2.length)).1
            (lowmemDrops p1 p2 (max p1.length p2.length)).2)
          lowSt0 = Except.ok lowSt ∧
        accRows.length = r + 1 ∧
        (∀ row ∈ accRows, row.length = p2.length) ∧
        lowSt.prevRow = (accRows.headD []).map Prod.fst ∧
        (accRows.headD []).getD 0 (0, 0) = col0full.getD r (0, 0) ∧
        (∀ a b : Nat, tbGet lowSt.tb (a, b) ≠ none → a ≤ r) ∧
        (∀ i2 j : Nat, i2 ≤ r →
          (tbGet lowSt.tb (i2, j)).getD 0 =
            ((accRows.getD (r - i2) []).getD j (0, 0)).2) ∧
        (lowSt.maxScore, lowSt.argmaxScore.1, lowSt.argmaxScore.2) =
          amFold (accRows.reverse.map (fun row => row.map Prod.fst))
            (r + 1) := by
  intro r
  induction r with
  | zero =>
    intro accRows _ hacc
    have h3 : ([row0full] : List (List (Int × Nat))) = accRows := by
      injection hacc
    refine ⟨lowSt0, rfl, by rw [← h3]; rfl, ?_, ?_, ?_, ?_, ?_, ?_⟩
    · intro row hrow
      rw [← h3] at hrow
      rcases List.mem_cons.mp hrow with hrow | hrow
      · rw [hrow]; exact hrow0len
      · cases hrow
    · rw [← h3]; exact hprev0
    · rw [← h3]; exact hrow0head
    · intro a b hab
      exact Nat.le_of_eq (hdom0 a b hab)
    · intro i2 j hi2
      have : i2 = 0 := by omega
      rw [this, ← h3]
      exact hcode0 j
    · rw [← h3]; exact ham0
  | succ r ih =>
    intro accRows hr hacc
    rw [List.range_succ, List.foldlM_append] at hacc
    obtain ⟨accr, haccr, hstep⟩ := option_bind_some _ _ _ hacc
    simp only [List.foldlM_cons, List.foldlM_nil] at hstep
    obtain ⟨acc2, hstep2, hpure⟩ := option_bind_some _ _ _ hstep
    have hacc2 : acc2 = accRows := by injection hpure
    obtain ⟨lowSt, hfoldIH, hA1, hA2, hA3, hA4, hA5, hA6, hA7⟩ :=
      ih accr (by omega) haccr
    unfold fullRowStep at hstep2
    obtain ⟨row, hrow, hcons⟩ := option_bind_some _ _ _ hstep2
    have hconsacc : row :: accr = accRows := by
      rw [← hacc2]; injection hcons
    unfold buildRow at hrow
    obtain ⟨cellsRev, hcells, hrev⟩ := option_bind_some _ _ _ hrow
    have hrevrow : cellsRev.reverse = row := by injection hrev
    have hm1 : 0 < p2.length := List.length_pos.mpr h2
    have hn1 : r + 1 < p1.length := by omega
    have hcol := hcolrec (r + 1) (by omega) hr
    simp only [Nat.add_sub_cancel] at hcol
    unfold col0Cell at hcol
    obtain ⟨li, hli, hc0pair⟩ := Option.map_eq_some'.mp hcol
    have hc0pair2 : (amax [0, -1, (col0full.getD r (0, 0)).1, -1] +
        (if p1.getD (r + 1) 0 = p2.getD 0 0 then li else -li),
        argmax [0, -1, (col0full.getD r (0, 0)).1, -1]) =
        col0full.getD (r + 1) (0, 0) := hc0pair
    have hc0s : amax [0, -1, (col0full.getD r (0, 0)).1, -1] +
        (if p1.getD (r + 1) 0 = p2.getD 0 0 then li else -li) =
        (col0full.getD (r + 1) (0, 0)).1 := congrArg Prod.fst hc0pair2
    have hc0t : argmax [0, -1, (col0full.getD r (0, 0)).1, -1] =
        (col0full.getD (r + 1) (0, 0)).2 := congrArg Prod.snd hc0pair2
    have hprevhead : ((accr.headD []).map Prod.fst).headD 0 =
        (col0full.getD r (0, 0)).1 := by
      rw [map_fst_headD_getD]
      exact congrArg Prod.fst hA4
    have hfresh : ∀ b : Nat, 1 ≤ b →
        tbGet (if (col0full.getD (r + 1) (0, 0)).2 ≠ 0 then
          tbInsert lowSt.tb (r + 1, 0) ((col0full.getD (r + 1) (0, 0)).2)
          else lowSt.tb) (r + 1, b) = none := by
      intro b hb
      have hne : ((r + 1 : Nat), b) ≠ ((r + 1 : Nat), (0 : Nat)) := by
        intro hk
        have := congrArg Prod.snd hk
        simp only [] at this
        omega
      have hlow : tbGet lowSt.tb (r + 1, b) = none := by
        by_contra hn
        have := hA5 _ _ hn
        omega
      by_cases hz : (col0full.getD (r + 1) (0, 0)).2 ≠ 0
      · rw [if_pos hz, tbGet_insert_ne _ _ _ _ hne]
        exact hlow
      · rw [if_neg hz]
        exact hlow
    obtain ⟨rst, hfoldlow, hmapf, hclen, hc0pos, hunch, hcodeInner⟩ :=
      cells_parallel sl p1 p2 (r + 1) (accr.headD [])
        (col0full.getD (r + 1) (0, 0))
        (if (col0full.getD (r + 1) (0, 0)).2 ≠ 0 then
          tbInsert lowSt.tb (r + 1, 0) ((col0full.getD (r + 1) (0, 0)).2)
          else lowSt.tb)
        li hn1 hli hfresh (p2.length - 1) cellsRev (le_refl _) hcells
    have hclen2 : cellsRev.length = p2.length := by omega
    have hrowlen : row.length = p2.length := by
      rw [← hrevrow, List.length_reverse]
      exact hclen2
    have hA4new : row.getD 0 (0, 0) = col0full.getD (r + 1) (0, 0) := by
      rw [← hrevrow, getD_reverse _ _ _ (by omega : 0 < cellsRev.length)]
      have he : cellsRev.length - 1 - 0 = p2.length - 1 := by omega
      rw [he]
      exact hc0pos
    have hlk1 : lookupLen sl (p1.getD (r + 1) 0) (p1.getD (r + 1) 0) =
        Except.ok li := by
      unfold lookupLen
      rw [hli]
    have hstep3 : lowmemRowStep sl p1 p2
        (lowmemDrops p1 p2 (max p1.length p2.length)).1
        (lowmemDrops p1 p2 (max p1.length p2.length)).2 lowSt r =
        Except.ok ⟨rst.1.reverse, rst.2,
          if lowSt.maxScore < (max_and_argmax rst.1.reverse).1
            then (max_and_argmax rst.1.reverse).1 else lowSt.maxScore,
          if lowSt.maxScore < (max_and_argmax rst.1.reverse).1
            then (r + 1, (max_and_argmax rst.1.reverse).2)
            else lowSt.argmaxScore⟩ := by
      simp only [lowmemRowStep, hlk1, ok_bind, hA3, hprevhead, hc0s, hc0t]
      rw [hfoldlow]
      simp only [ok_bind]
      rfl
    have hnewrow : rst.1.reverse = row.map Prod.fst := by
      rw [hmapf, ← hrevrow]
      simp
    refine ⟨⟨rst.1.reverse, rst.2,
        if lowSt.maxScore < (max_and_argmax rst.1.reverse).1
          then (max_and_argmax rst.1.reverse).1 else lowSt.maxScore,
        if lowSt.maxScore < (max_and_argmax rst.1.reverse).1
          then (r + 1, (max_and_argmax rst.1.reverse).2)
          else lowSt.argmaxScore⟩,
      ?_, ?_, ?_, ?_, ?_, ?_, ?_, ?_⟩
    · rw [List.range_succ, List.foldlM_append, hfoldIH, ok_bind]
      simp only [List.foldlM_cons, List.foldlM_nil, hstep3, ok_bind]
      rfl
    · rw [← hconsacc, List.length_cons, hA1]
    · intro row2 hrow2
      rw [← hconsacc] at hrow2
      rcases List.mem_cons.mp hrow2 with hrow2 | hrow2
      · rw [hrow2]; exact hrowlen
      · exact hA2 row2 hrow2
    · rw [← hconsacc]
      exact hnewrow
    · rw [← hconsacc]
      exact hA4new
    · intro a b hab
      by_cases hin : a = r + 1 ∧ 1 ≤ b ∧ b ≤ p2.length - 1
      · omega
      · rw [hunch a b hin] at hab
        by_cases hz : (col0full.getD (r + 1) (0, 0)).2 ≠ 0
        · rw [if_pos hz] at hab
          by_cases hk : ((a : Nat), b) = ((r + 1 : Nat), (0 : Nat))
          · have := congrArg Prod.fst hk
            simp only [] at this
            omega
          · rw [tbGet_insert_ne _ _ _ _ hk] at hab
            have := hA5 a b hab
            omega
        · rw [if_neg hz] at hab
          have := hA5 a b hab
          omega
    · intro i2 j hi2
      rcases Nat.lt_or_ge i2 (r + 1) with hlt | hge
      · have hfull : (accRows.getD (r + 1 - i2) []) = accr.getD (r - i2) [] := by
          have he : r + 1 - i2 = (r - i2) + 1 := by omega
          rw [← hconsacc, he, List.getD_cons_succ]
        rw [hfull]
        have hnotin : ¬(i2 = r + 1 ∧ 1 ≤ j ∧ j ≤ p2.length - 1) := by
          rintro ⟨ha, _⟩; omega
        rw [hunch i2 j hnotin]
        have hk : ((i2 : Nat), j) ≠ ((r + 1 : Nat), (0 : Nat)) := by
          intro hk2
          have := congrArg Prod.fst hk2
          simp only [] at this
          omega
        by_cases hz : (col0full.getD (r + 1) (0, 0)).2 ≠ 0
        · rw [if_pos hz, tbGet_insert_ne _ _ _ _ hk]
          exact hA6 i2 j (by omega)
        · rw [if_neg hz]
          exact hA6 i2 j (by omega)
      · have hi2eq : i2 = r + 1 := by omega
        have hfull : accRows.getD (r + 1 - i2) [] = row := by
          rw [← hconsacc, hi2eq, Nat.sub_self, List.getD_cons_zero]
        rw [hfull, hi2eq]
        rcases Nat.lt_or_ge j 1 with hj0 | hj1
        · have hjz : j = 0 := by omega
          rw [hjz]
          have hnotin : ¬(r + 1 = r + 1 ∧ 1 ≤ (0 : Nat) ∧
              (0 : Nat) ≤ p2.length - 1) := by
            rintro ⟨_, hb, _⟩; omega
          rw [hunch (r + 1) 0 hnotin]
          have hcode0cell : (row.getD 0 (0, 0)).2 =
              (col0full.getD (r + 1) (0, 0)).2 :=
            congrArg Prod.snd hA4new
          rw [hcode0cell]
          by_cases hz : (col0full.getD (r + 1) (0, 0)).2 ≠ 0
          · rw [if_pos hz, tbGet_insert_self]
            rfl
          · rw [if_neg hz]
            have hlow : tbGet lowSt.tb (r + 1, 0) = none := by
              by_contra hn
              have := hA5 _ _ hn
              omega
            rw [hlow]
            simp only [Option.getD_none]
            omega
        · rcases Nat.lt_or_ge j p2.length with hjm | hjm
          · have hrowj : row.getD j (0, 0) =
                cellsRev.getD (p2.length - 1 - j) (0, 0) := by
              rw [← hrevrow, getD_reverse _ _ _ (by omega : j < cellsRev.length)]
              have he : cellsRev.length - 1 - j = p2.length - 1 - j := by
                omega
              rw [he]
            rw [hrowj]
            exact hcodeInner j hj1 (by omega)
          · have hrowj : row.getD j (0, 0) = (0, 0) :=
              getD_of_le _ _ _ (by omega)
            rw [hrowj]
            have hnotin : ¬(r + 1 = r + 1 ∧ 1 ≤ j ∧ j ≤ p2.length - 1) := by
              rintro ⟨_, _, hb2⟩; omega
            rw [hunch (r + 1) j hnotin]
            have hk : ((r + 1 : Nat), j) ≠ ((r + 1 : Nat), (0 : Nat)) := by
              intro hk2
              have := congrArg Prod.snd hk2
              simp only [] at this
              omega
            have hlow : tbGet lowSt.tb (r + 1, j) = none := by
              by_contra hn
              have := hA5 _ _ hn
              omega
            by_cases hz : (col0full.getD (r + 1) (0, 0)).2 ≠ 0
            · rw [if_pos hz, tbGet_insert_ne _ _ _ _ hk, hlow]
              rfl
            · rw [if_neg hz, hlow]
              rfl
    · have hscores : (accRows.reverse.map (fun row => row.map Prod.fst)) =
          accr.reverse.map (fun row => row.map Prod.fst) ++
            [row.map Prod.fst] := by
        rw [← hconsacc, List.reverse_cons, List.map_append]
        rfl
      have hsl : (accr.reverse.map (fun row => row.map Prod.fst)).length =
          r + 1 := by
        rw [List.length_map, List.length_reverse, hA1]
      have hsne : accr.reverse.map (fun row => row.map Prod.fst) ≠ [] := by
        intro hc
        have := congrArg List.length hc
        rw [hsl] at this
        simp only [List.length_nil] at this
        omega
      have hamA : amFold
          (accRows.reverse.map (fun row => row.map Prod.fst)) (r + 1) =
          amFold (accr.reverse.map (fun row => row.map Prod.fst)) (r + 1) := by
        rw [hscores]
        exact amFold_append _ _ (r + 1) (by rw [hsl]) hsne
      have hgd2 : (accRows.reverse.map
          (fun row => row.map Prod.fst)).getD (r + 1) [] =
          row.map Prod.fst := by
        rw [hscores]
        have h5 := getD_append_length
          (accr.reverse.map (fun row => row.map Prod.fst))
          (row.map Prod.fst) []
        rw [hsl] at h5
        exact h5
      have hrowne : row.map Prod.fst ≠ [] := by
        intro hc
        have := congrArg List.length hc
        rw [List.length_map, hrowlen] at this
        simp only [List.length_nil] at this
        omega
      have hupdate := amFold_update
        (accRows.reverse.map (fun row => row.map Prod.fst)) (r + 1)
        (by rw [hgd2]; exact hrowne)
      rw [hgd2, hamA] at hupdate
      rw [hupdate, hnewrow]
      have hms : lowSt.maxScore =
          (amFold (accr.reverse.map (fun row => row.map Prod.fst))
            (r + 1)).1 := congrArg Prod.fst hA7
      by_cases hcmp : lowSt.maxScore <
          (max_and_argmax (row.map Prod.fst)).1
      · rw [if_pos hcmp, if_pos hcmp, if_pos (by rw [← hms]; exact hcmp)]
      · rw [if_neg hcmp, if_neg hcmp, if_neg (by rw [← hms]; exact hcmp)]
        exact hA7

/-- The traceback walk only reads codes at cells weakly below its starting
cell, so two traceback functions agreeing there walk identically. -/
lemma tracebackWalk_congr (p1 p2 : List Int) (tbA tbB : Nat → Nat → Nat) :
    ∀ (fuel i j : Nat) (a1 a2 : List Int),
      (∀ a b : Nat, a ≤ i → b ≤ j → tbA a b = tbB a b) →
      tracebackWalk p1 p2 tbA fuel i j a1 a2 =
        tracebackWalk p1 p2 tbB fuel i j a1 a2 := by
  intro fuel
  induction fuel with
  | zero => intro i j a1 a2 _; rfl
  | succ fuel ih =>
    intro i j a1 a2 hagree
    simp only [tracebackWalk]
    rw [hagree i j le_rfl le_rfl]
    by_cases ht0 : tbB i j = 0
    · simp only [if_pos ht0]
    · simp only [if_neg ht0]
      by_cases ht1 : tbB i j = 1
      · simp only [if_pos ht1]
        by_cases hz : i = 0 ∨ j = 0
        · simp only [if_pos hz]
        · simp only [if_neg hz]
          exact ih (i - 1) (j - 1) _ _
            (fun a b ha hb => hagree a b (by omega) (by omega))
      · simp only [if_neg ht1]
        by_cases ht2 : tbB i j = 2
        · simp only [if_pos ht2]
          by_cases hz : i = 0
          · simp only [if_pos hz]
          · simp only [if_neg hz]
            exact ih (i - 1) j _ _
              (fun a b ha hb => hagree a b (by omega) hb)
        · simp only [if_neg ht2]
          by_cases ht3 : tbB i j = 3
          · simp only [if_pos ht3]
            by_cases hz : j = 0
            · simp only [if_pos hz]
            · simp only [if_neg hz]
              exact ih i (j - 1) _ _
                (fun a b ha hb => hagree a b ha (by omega))
          · simp only [if_neg ht3]

set_option maxHeartbeats 2000000 in
/-- Claim C3: banded/full equivalence.  For every pair of nonempty paths,
whenever the full-matrix aligner of src/align.rs returns an alignment, the
banded (lowmem) aligner of src/lowmem.rs run with
`drop = max(|p1|,|p2|)` returns the very same alignment — in particular
the same `alignment_path1` and `alignment_path2` (the band condition never
fires at that drop, so both fills compute the same matrix, the same
row-major argmax and the same traceback). -/
theorem banded_full_equivalence (sl : SegLens) (p1 p2 : List Int)
    (h1 : p1 ≠ []) (h2 : p2 ≠ []) (al : Alignment)
    (h : align_paths_subproblem sl p1 p2 = some al) :
    align_paths_subproblem_lowmem sl p1 p2 (max p1.length p2.length) =
      some (Except.ok al) := by
  have hn1 : 0 < p1.length := List.length_pos.mpr h1
  have hm1 : 0 < p2.length := List.length_pos.mpr h2
  unfold align_paths_subproblem at h
  obtain ⟨mat, hmat, h⟩ := option_bind_some _ _ _ h
  have hmatKeep := hmat
  obtain ⟨w, hw, h⟩ := option_bind_some _ _ _ h
  have hal : (⟨w.1, w.2.1, (w.2.2 : Int),
      (((matrixArgmax (mat.map (fun r => r.map Prod.fst))).1 : Nat) :
        Int)⟩ : Alignment) = al := by
    injection h
  unfold buildMatrix at hmat
  obtain ⟨rc, hrc, hmat⟩ := option_bind_some _ _ _ hmat
  obtain ⟨rowsRev, hrows, hmat2⟩ := option_bind_some _ _ _ hmat
  have hmatrev : rowsRev.reverse = mat := by injection hmat2
  unfold create_matrices at hrc
  obtain ⟨corner, hcorner, hrc⟩ := option_bind_some _ _ _ hrc
  obtain ⟨col0acc, hcol0, hrc⟩ := option_bind_some _ _ _ hrc
  obtain ⟨row0acc, hrow0, hrc⟩ := option_bind_some _ _ _ hrc
  have hrcval : ((row0acc.reverse, col0acc.reverse) :
      List (Int × Nat) × List (Int × Nat)) = rc := by
    injection hrc
  have hrc1 : rc.1 = row0acc.reverse := (congrArg Prod.fst hrcval).symm
  have hrc2 : rc.2 = col0acc.reverse := (congrArg Prod.snd hrcval).symm
  obtain ⟨hlc, hc2⟩ := corner_corresp sl p1 p2 corner hcorner
  obtain ⟨hGlen, hGcorner, hGrec⟩ :=
    col0_char sl p1 p2 corner (p1.length - 1) col0acc hcol0
  obtain ⟨stA, hstAfold, hstAmap, hstAlen, hstAcorner, hstAdom, hstAcode⟩ :=
    row0_parallel sl p1 p2 corner (p2.length - 1) row0acc hrow0
  have hGlen2 : col0acc.length = p1.length := by omega
  have hFlen2 : row0acc.length = p2.length := by omega
  have hcolD : ∀ i : Nat, i < p1.length →
      col0acc.reverse.getD i (0, 0) =
        col0acc.getD (p1.length - 1 - i) (0, 0) := by
    intro i hi
    rw [getD_reverse _ _ _ (by omega : i < col0acc.length), hGlen2]
  have hrowD : ∀ j : Nat, j < p2.length →
      row0acc.reverse.getD j (0, 0) =
        row0acc.getD (p2.length - 1 - j) (0, 0) := by
    intro j hj
    rw [getD_reverse _ _ _ (by omega : j < row0acc.length), hFlen2]
  have hcolrec2 : ∀ i : Nat, 1 ≤ i → i ≤ p1.length - 1 →
      col0Cell sl p1 p2 i ((col0acc.reverse.getD (i - 1) (0, 0)).1) =
        some (col0acc.reverse.getD i (0, 0)) := by
    intro i hi1 hi2
    rw [hcolD (i - 1) (by omega), hcolD i (by omega)]
    have he1 : p1.length - 1 - (i - 1) = p1.length - 1 - (i - 1) := rfl
    have := hGrec i hi1 hi2
    exact this
  have hrow0len : row0acc.reverse.length = p2.length := by
    rw [List.length_reverse, hFlen2]
  have hrow0head : row0acc.reverse.getD 0 (0, 0) =
      col0acc.reverse.getD 0 (0, 0) := by
    rw [hrowD 0 hm1, hcolD 0 hn1]
    simp only [Nat.sub_zero]
    rw [hstAcorner, hGcorner]
  have hstArev : stA.1.reverse = row0acc.reverse.map Prod.fst := by
    rw [hstAmap]
    simp
  have hinit : initialize_matrices_lowmem sl p1 p2 = Except.ok
      (stA.1.reverse, stA.2, (max_and_argmax stA.1.reverse).1,
        ((0 : Nat), (max_and_argmax stA.1.reverse).2)) := by
    simp only [initialize_matrices_lowmem, hlc, ok_bind, hstAfold, ok_bind]
    rfl
  have hdom0 : ∀ a b : Nat, tbGet stA.2 (a, b) ≠ none → a = 0 :=
    fun a b hab => (hstAdom a b hab).1
  have hcode0 : ∀ j : Nat, (tbGet stA.2 (0, j)).getD 0 =
      (row0acc.reverse.getD j (0, 0)).2 := by
    intro j
    rcases Nat.lt_or_ge j 1 with hj0 | hj1
    · have hjz : j = 0 := by omega
      rw [hjz, hrowD 0 hm1]
      simp only [Nat.sub_zero]
      rw [hstAcorner]
      have hnone : tbGet stA.2 (0, 0) = none := by
        by_contra hn
        obtain ⟨_, hb1, _⟩ := hstAdom 0 0 hn
        omega
      rw [hnone, hc2]
      rfl
    · rcases Nat.lt_or_ge j p2.length with hjm | hjm
      · rw [hrowD j hjm]
        exact hstAcode j hj1 (by omega)
      · have hnone : tbGet stA.2 (0, j) = none := by
          by_contra hn
          obtain ⟨_, _, hb2⟩ := hstAdom 0 j hn
          omega
        rw [hnone, getD_of_le _ _ _ (by omega : row0acc.reverse.length ≤ j)]
        rfl
  have hrowmapne : row0acc.reverse.map Prod.fst ≠ [] := by
    intro hc
    have := congrArg List.length hc
    rw [List.length_map, hrow0len] at this
    simp only [List.length_nil] at this
    omega
  have ham0 : (((max_and_argmax stA.1.reverse).1 : Int), (0 : Nat),
      (max_and_argmax stA.1.reverse).2) =
      amFold [row0acc.reverse.map Prod.fst] 1 := by
    rw [amFold_one _ (by
      simp only [List.getD_cons_zero]
      exact hrowmapne)]
    simp only [List.getD_cons_zero]
    rw [hstArev]
  have hrowsfold : (List.range (p1.length - 1)).foldlM
      (fullRowStep sl p1 p2 col0acc.reverse) [row0acc.reverse] =
      some rowsRev := by
    rw [← hrc2, ← hrc1]
    exact hrows
  obtain ⟨lowSt, hlowfold, hB1, hB2, hB3, hB4, hB5, hB6, hB7⟩ :=
    rows_parallel sl p1 p2 col0acc.reverse row0acc.reverse
      ⟨stA.1.reverse, stA.2, (max_and_argmax stA.1.reverse).1,
        ((0 : Nat), (max_and_argmax stA.1.reverse).2)⟩
      h2 hcolrec2 hrow0len hrow0head hstArev hdom0 hcode0 ham0
      (p1.length - 1) rowsRev (le_refl _) hrowsfold
  have hlowrows : lowmemRows sl p1 p2 (max p1.length p2.length)
      (stA.1.reverse, stA.2, (max_and_argmax stA.1.reverse).1,
        ((0 : Nat), (max_and_argmax stA.1.reverse).2)) =
      Except.ok lowSt := by
    unfold lowmemRows
    exact hlowfold
  have ham : lowSt.argmaxScore =
      (amFold (rowsRev.reverse.map (fun row => row.map Prod.fst))
        (p1.length - 1 + 1)).2 := congrArg Prod.snd hB7
  have hslen : (rowsRev.reverse.map
      (fun row => row.map Prod.fst)).length = p1.length := by
    rw [List.length_map, List.length_reverse, hB1]
    omega
  have hn' : p1.length - 1 + 1 = p1.length := by omega
  have ham2 : lowSt.argmaxScore =
      matrixArgmax (mat.map (fun r => r.map Prod.fst)) := by
    rw [ham, matrixArgmax_eq_amFold, ← hmatrev, hslen, hn']
  obtain ⟨hml, hrowlens⟩ := buildMatrix_dims sl p1 p2 h1 h2 mat hmatKeep
  have hsl2 : (mat.map (fun r => r.map Prod.fst)).length = p1.length := by
    rw [List.length_map, hml]
  have hsrows2 : ∀ r ∈ mat.map (fun r => r.map Prod.fst),
      r.length = p2.length := by
    intro r hr
    obtain ⟨row, hrowm, hreq⟩ := List.mem_map.mp hr
    rw [← hreq, List.length_map]
    exact hrowlens row hrowm
  have hsne2 : mat.map (fun r => r.map Prod.fst) ≠ [] := by
    intro hc
    rw [hc] at hsl2
    simp only [List.length_nil] at hsl2
    omega
  have hamrange := matrixArgmax_range (mat.map (fun r => r.map Prod.fst))
    p2.length hsne2 hm1 hsrows2
  rw [hsl2] at hamrange
  have hagree : ∀ a b : Nat,
      a ≤ (matrixArgmax (mat.map (fun r => r.map Prod.fst))).1 →
      b ≤ (matrixArgmax (mat.map (fun r => r.map Prod.fst))).2 →
      (tbGet lowSt.tb (a, b)).getD 0 =
        ((mat.getD a []).getD b (0, 0)).2 := by
    intro a b ha _
    have ha2 : a ≤ p1.length - 1 := by omega
    rw [hB6 a b ha2]
    have hmata : mat.getD a [] = rowsRev.getD (p1.length - 1 - a) [] := by
      rw [← hmatrev, getD_reverse _ _ _ (by omega : a < rowsRev.length)]
      have he : rowsRev.length - 1 - a = p1.length - 1 - a := by omega
      rw [he]
    rw [hmata]
  unfold align_paths_subproblem_lowmem
  rw [hinit, errorToSome_ok, hlowrows, errorToSome_ok]
  unfold lowmemFinish
  rw [ham2]
  have hwalk := tracebackWalk_congr p1 p2
    (fun i j => (tbGet lowSt.tb (i, j)).getD 0)
    (fun i j => ((mat.getD i []).getD j (0, 0)).2)
    ((matrixArgmax (mat.map (fun r => r.map Prod.fst))).1 +
      (matrixArgmax (mat.map (fun r => r.map Prod.fst))).2 + 1)
    (matrixArgmax (mat.map (fun r => r.map Prod.fst))).1
    (matrixArgmax (mat.map (fun r => r.map Prod.fst))).2
    [] [] (fun a b ha hb => hagree a b ha hb)
  rw [hwalk, hw]
  simp only [Option.map_some']
  rw [hal]

/-- Witness for `banded_full_equivalence`: the Scenario D subproblem, where
both aligners return the alignment `⟨[2,3,4,-5], [2,7,-5], 0, 3⟩`. -/
theorem banded_full_equivalence_witness :
    ([2, 3, 4, -5] : List Int) ≠ [] ∧ ([2, 7, -5] : List Int) ≠ [] ∧
    align_paths_subproblem slScenarioD [2, 3, 4, -5] [2, 7, -5] =
      some ⟨[2, 3, 4, -5], [2, 7, -5], 0, 3⟩ ∧
    align_paths_subproblem_lowmem slScenarioD [2, 3, 4, -5] [2, 7, -5]
      (max ([2, 3, 4, -5] : List Int).length ([2, 7, -5] : List Int).length)
      = some (Except.ok ⟨[2, 3, 4, -5], [2, 7, -5], 0, 3⟩) :=
  ⟨by decide, by decide, by decide,
   banded_full_equivalence slScenarioD [2, 3, 4, -5] [2, 7, -5]
     (by decide) (by decide) ⟨[2, 3, 4, -5], [2, 7, -5], 0, 3⟩
     (by decide)⟩

end InversionFinder
